import Mathlib

/-!
BusTub storage core: clock replacer, buffer pool manager, linear-probe hash table.

A shallow embedding of

* `src/buffer/clock_replacer.cpp`
* `src/buffer/buffer_pool_manager.cpp`
* `src/storage/page/hash_table_block_page.cpp`
* `src/container/hash/linear_probe_hash_table.cpp`

Every C++ member function becomes a Lean function that takes the object state and
returns the new state next to the C++ return value.  A pointer to a page frame is the
index of the frame in `pages_`; reading through the pointer reads the frame's current
contents.  Behaviour the C++ standard leaves undefined (dereferencing `nullptr`, reading a
vector out of range, dividing by zero, viewing a page through the wrong typed view, using
the iterator of an erased map entry) is a `Fault`.  Loops whose trip count is not a compile-time bound take fuel; running out of
fuel is the separate fault `Fault.outOfFuel`.
-/

namespace bustub

/-! ## Common types -/

abbrev page_id_t := Int
abbrev frame_id_t := Nat

/-- The sentinel page id `INVALID_PAGE_ID` of `common/config.h` (value `-1`). -/
def INVALID_PAGE_ID : page_id_t := -1

/-- Outcomes that are undefined behaviour in the C++ source, plus fuel exhaustion. -/
inductive Fault where
  | nullDeref
  | outOfRange
  | divByZero
  | badCast
  | invalidIterator
  | outOfFuel
  deriving DecidableEq, Repr

/-- Equality of outcomes is decidable when equality of faults and of values is. -/
instance instDecidableEqExcept {ε α : Type} [DecidableEq ε] [DecidableEq α] :
    DecidableEq (Except ε α)
  | .ok a, .ok b =>
    if h : a = b then isTrue (by rw [h]) else isFalse (fun h1 => h (Except.ok.inj h1))
  | .error a, .error b =>
    if h : a = b then isTrue (by rw [h]) else isFalse (fun h1 => h (Except.error.inj h1))
  | .ok _, .error _ => isFalse (fun h => by cases h)
  | .error _, .ok _ => isFalse (fun h => by cases h)

/-- The value of `a - 1` in `size_t` arithmetic (wraps at zero). -/
def sizePred (a : Nat) : Nat := (a + (2 ^ 64 - 1)) % 2 ^ 64

/-! ## ClockReplacer (`src/buffer/clock_replacer.cpp`) -/

/-- The members the member functions of `ClockReplacer` use: `num_page`, the vector
`lst`, the map `hash` (a missing key reads as `false`), the hand `ref` and the scratch
variable `temp`. -/
structure ClockReplacer where
  num_page : Nat
  lst : List frame_id_t
  hash : frame_id_t → Bool
  ref : Nat
  temp : frame_id_t

namespace ClockReplacer

/-- The constructor `ClockReplacer(num_pages)`: only `num_page` is assigned.  `ref` and
`temp` are written before they are read on every path on which `lst` is non-empty, so
their initial value is immaterial; it is taken to be `0`. -/
def new (num_pages : Nat) : ClockReplacer :=
  { num_page := num_pages, lst := [], hash := fun _ => false, ref := 0, temp := 0 }

/-- The member `Victim(frame_id_t *frame_id)`: `none` stands for the return value `false`. -/
def Victim (r : ClockReplacer) : Option frame_id_t × ClockReplacer :=
  match r.lst with
  | [] => (none, r)
  | f :: rest => (some f, { r with hash := Function.update r.hash f false, lst := rest })

/-- The member `Pin(frame_id)`. -/
def Pin (r : ClockReplacer) (frame_id : frame_id_t) : ClockReplacer :=
  if frame_id ∈ r.lst then
    let i := r.lst.indexOf frame_id
    let l := r.lst.eraseIdx i
    { r with
      hash := Function.update r.hash frame_id false
      lst := l
      ref := if i = l.length then 0 else i }
  else r

/-- The loop `while(hash[temp]) { ... }` of `Unpin`, with fuel. -/
def sweep : Nat → ClockReplacer → Except Fault ClockReplacer
  | 0, _ => .error .outOfFuel
  | fuel + 1, r =>
    if r.hash r.temp then
      let i := if r.ref < sizePred r.num_page then r.ref + 1 else 0
      match r.lst[i]? with
      | none => .error .outOfRange
      | some t =>
        sweep fuel { r with hash := Function.update r.hash r.temp false, ref := i, temp := t }
    else .ok r

/-- The member `Unpin(frame_id)`.  The sweep clears one set bit of a tracked frame per
round, so `lst.length + 1` rounds of fuel are enough. -/
def Unpin (r : ClockReplacer) (frame_id : frame_id_t) : Except Fault ClockReplacer :=
  if frame_id ∉ r.lst ∧ r.lst.length < r.num_page then
    let l := r.lst ++ [frame_id]
    .ok { r with lst := l, ref := l.indexOf frame_id, hash := Function.update r.hash frame_id true }
  else if frame_id ∉ r.lst then
    match r.lst[r.ref]? with
    | none => .error .outOfRange
    | some t =>
      match sweep (r.lst.length + 1) { r with temp := t } with
      | .error e => .error e
      | .ok r1 =>
        let l := r1.lst.set r1.ref frame_id
        .ok { r1 with
              hash := Function.update r1.hash frame_id true
              lst := l
              ref := l.indexOf frame_id }
  else if r.hash frame_id then
    .ok { r with ref := r.lst.indexOf frame_id }
  else
    .ok { r with hash := Function.update r.hash frame_id true, ref := r.lst.indexOf frame_id }

/-- The member `Size()`. -/
def Size (r : ClockReplacer) : Nat := r.lst.length

end ClockReplacer

/-! ## Page frames and the disk manager -/

/-- Modelled from the spec: the frame state of section 3 (`storage/page/page.h` is not
among the sources): page id, pin count, dirty flag and the page bytes. -/
structure Page (D : Type) where
  page_id_ : page_id_t
  pin_count_ : Nat
  is_dirty_ : Bool
  data_ : D

/-- Modelled from the spec: the disk manager of section 6, a map from page id to page
contents with an allocation counter; `freed` records the ids passed to `DeallocatePage`. -/
structure DiskManager (D : Type) where
  next_page_id_ : page_id_t
  store : page_id_t → D
  freed : List page_id_t

namespace DiskManager

variable {D : Type}

def AllocatePage (d : DiskManager D) : page_id_t × DiskManager D :=
  (d.next_page_id_, { d with next_page_id_ := d.next_page_id_ + 1 })

def DeallocatePage (d : DiskManager D) (page_id : page_id_t) : DiskManager D :=
  { d with freed := d.freed ++ [page_id] }

def ReadPage (d : DiskManager D) (page_id : page_id_t) : D := d.store page_id

def WritePage (d : DiskManager D) (page_id : page_id_t) (data : D) : DiskManager D :=
  { d with store := Function.update d.store page_id data }

/-- A disk on which nothing has been allocated or written. -/
def fresh [Inhabited D] : DiskManager D :=
  { next_page_id_ := 0, store := fun _ => default, freed := [] }

end DiskManager

/-! ## BufferPoolManager (`src/buffer/buffer_pool_manager.cpp`) -/

/-- The members of `BufferPoolManager`.  `page_table_` (an unordered map) is an
association list with at most one entry per key; `default : D` is the all-zero page that
`ResetMemory` leaves. -/
structure BufferPoolManager (D : Type) where
  pool_size_ : Nat
  pages_ : frame_id_t → Page D
  page_table_ : List (page_id_t × frame_id_t)
  free_list_ : List frame_id_t
  replacer_ : ClockReplacer
  disk_manager_ : DiskManager D

namespace BufferPoolManager

variable {D : Type}

/-- The lookup `page_table_.find(page_id)`. -/
def find (b : BufferPoolManager D) (page_id : page_id_t) : Option frame_id_t :=
  b.page_table_.lookup page_id

/-- The erasure `page_table_.erase(page_id)`. -/
def tableErase (t : List (page_id_t × frame_id_t)) (page_id : page_id_t) :
    List (page_id_t × frame_id_t) :=
  t.filter fun e => e.1 ≠ page_id

/-- The assignment `page_table_[page_id] = frame_id`. -/
def tableSet (t : List (page_id_t × frame_id_t)) (page_id : page_id_t)
    (frame_id : frame_id_t) : List (page_id_t × frame_id_t) :=
  (page_id, frame_id) :: tableErase t page_id

/-- The constructor: every frame is empty and on the free list. -/
def new [Inhabited D] (pool_size : Nat) (disk_manager : DiskManager D) :
    BufferPoolManager D :=
  { pool_size_ := pool_size
    pages_ := fun _ =>
      { page_id_ := INVALID_PAGE_ID, pin_count_ := 0, is_dirty_ := false, data_ := default }
    page_table_ := []
    free_list_ := List.range pool_size
    replacer_ := ClockReplacer.new pool_size
    disk_manager_ := disk_manager }

def GetPoolSize (b : BufferPoolManager D) : Nat := b.pool_size_

/-- The member `FetchPageImpl(page_id)`; `none` is `nullptr`, `some f` is `&pages_[f]`. -/
def FetchPageImpl (b : BufferPoolManager D) (page_id : page_id_t) :
    BufferPoolManager D × Option frame_id_t :=
  if page_id = INVALID_PAGE_ID then (b, none)
  else
    match b.find page_id with
    | some frame_id =>
      let page := b.pages_ frame_id
      ({ b with
          replacer_ := b.replacer_.Pin frame_id
          pages_ := Function.update b.pages_ frame_id
            { page with pin_count_ := page.pin_count_ + 1 } },
        some frame_id)
    | none =>
      match b.free_list_ with
      | frame_id :: rest =>
        let page := b.pages_ frame_id
        ({ b with
            free_list_ := rest
            page_table_ := tableSet b.page_table_ page_id frame_id
            pages_ := Function.update b.pages_ frame_id
              { page with
                data_ := b.disk_manager_.ReadPage page_id
                page_id_ := page_id
                pin_count_ := page.pin_count_ + 1 } },
          some frame_id)
      | [] =>
        match b.replacer_.Victim with
        | (none, _) => (b, none)
        | (some frame_id, r) =>
          let page := b.pages_ frame_id
          let disk :=
            if page.is_dirty_ then b.disk_manager_.WritePage page.page_id_ page.data_
            else b.disk_manager_
          ({ b with
              replacer_ := r
              disk_manager_ := disk
              page_table_ := tableSet (tableErase b.page_table_ page.page_id_) page_id frame_id
              pages_ := Function.update b.pages_ frame_id
                { page with
                  is_dirty_ := false
                  data_ := disk.ReadPage page_id
                  page_id_ := page_id
                  pin_count_ := page.pin_count_ + 1 } },
            some frame_id)

/-- The member `UnpinPageImpl(page_id, is_dirty)`. -/
def UnpinPageImpl (b : BufferPoolManager D) (page_id : page_id_t) (is_dirty : Bool) :
    Except Fault (Bool × BufferPoolManager D) :=
  match b.find page_id with
  | none => .ok (false, b)
  | some frame_id =>
    let page := b.pages_ frame_id
    if page.pin_count_ < 1 then .ok (false, b)
    else
      let page1 := { page with pin_count_ := page.pin_count_ - 1 }
      match (if page1.pin_count_ = 0 then b.replacer_.Unpin frame_id else .ok b.replacer_) with
      | .error e => .error e
      | .ok r =>
        let page2 := if is_dirty then { page1 with is_dirty_ := true } else page1
        .ok (true, { b with replacer_ := r, pages_ := Function.update b.pages_ frame_id page2 })

/-- The member `FlushPageImpl(page_id)`. -/
def FlushPageImpl (b : BufferPoolManager D) (page_id : page_id_t) :
    Bool × BufferPoolManager D :=
  if page_id = INVALID_PAGE_ID then (false, b)
  else
    match b.find page_id with
    | none => (false, b)
    | some frame_id =>
      let page := b.pages_ frame_id
      (true, { b with
                disk_manager_ := b.disk_manager_.WritePage page_id page.data_
                pages_ := Function.update b.pages_ frame_id { page with is_dirty_ := false } })

/-- The member `NewPageImpl(page_id)`; the result carries the frame and the value written
to `*page_id`, and `none` is `nullptr` (with `*page_id` not written). -/
def NewPageImpl [Inhabited D] (b : BufferPoolManager D) :
    BufferPoolManager D × Option (frame_id_t × page_id_t) :=
  let picked : Option (frame_id_t × BufferPoolManager D) :=
    match b.free_list_ with
    | frame_id :: rest => some (frame_id, { b with free_list_ := rest })
    | [] =>
      match b.replacer_.Victim with
      | (none, _) => none
      | (some frame_id, r) =>
        let page := b.pages_ frame_id
        let disk :=
          if page.is_dirty_ then b.disk_manager_.WritePage page.page_id_ page.data_
          else b.disk_manager_
        some (frame_id,
          { b with
            replacer_ := r
            disk_manager_ := disk
            page_table_ := tableErase b.page_table_ page.page_id_
            pages_ := Function.update b.pages_ frame_id { page with is_dirty_ := false } })
  match picked with
  | none => (b, none)
  | some (frame_id, b1) =>
    let (new_id, disk) := b1.disk_manager_.AllocatePage
    let page := b1.pages_ frame_id
    ({ b1 with
        disk_manager_ := disk
        page_table_ := tableSet b1.page_table_ new_id frame_id
        pages_ := Function.update b1.pages_ frame_id
          { data_ := default
            page_id_ := new_id
            is_dirty_ := true
            pin_count_ := page.pin_count_ + 1 } },
      some (frame_id, new_id))

/-- The member `DeletePageImpl(page_id)`. -/
def DeletePageImpl [Inhabited D] (b : BufferPoolManager D) (page_id : page_id_t) :
    Bool × BufferPoolManager D :=
  match b.find page_id with
  | none => (true, { b with disk_manager_ := b.disk_manager_.DeallocatePage page_id })
  | some frame_id =>
    let page := b.pages_ frame_id
    if page.pin_count_ > 0 then (false, b)
    else
      (true, { b with
                replacer_ := b.replacer_.Pin frame_id
                page_table_ := tableErase b.page_table_ page.page_id_
                free_list_ := b.free_list_ ++ [frame_id]
                pages_ := Function.update b.pages_ frame_id
                  { page with page_id_ := INVALID_PAGE_ID, is_dirty_ := false, data_ := default }
                disk_manager_ := b.disk_manager_.DeallocatePage page_id })

/-- The member `FlushAllPagesImpl()`.  On an empty page table the body of the loop is
never entered and nothing changes.  Otherwise the first round calls
`page_table_.erase(iter->first)`, which invalidates `iter`, and the next statement,
`WritePage(iter->first, ...)`, reads through that iterator (as does the `iter++` of the
loop): undefined behaviour, the fault `invalidIterator`. -/
def FlushAllPagesImpl (b : BufferPoolManager D) : Except Fault (BufferPoolManager D) :=
  match b.page_table_ with
  | [] => .ok b
  | _ :: _ => .error .invalidIterator

end BufferPoolManager

/-! ## Hash table pages -/

/-- Modelled from the spec: the header page of section 4.E
(`storage/page/hash_table_header_page.cpp` is not among the sources): the `size` field and
the append-ordered list of block-page ids. -/
structure HashTableHeaderPage where
  size_ : Nat
  block_page_ids_ : List page_id_t

namespace HashTableHeaderPage

def SetSize (h : HashTableHeaderPage) (size : Nat) : HashTableHeaderPage :=
  { h with size_ := size }

def GetSize (h : HashTableHeaderPage) : Nat := h.size_

def AddBlockPageId (h : HashTableHeaderPage) (page_id : page_id_t) : HashTableHeaderPage :=
  { h with block_page_ids_ := h.block_page_ids_ ++ [page_id] }

/-- The id at position `index`; a position that was never added is not defined by the spec
and is the fault `outOfRange`. -/
def GetBlockPageId (h : HashTableHeaderPage) (index : Nat) : Except Fault page_id_t :=
  match h.block_page_ids_[index]? with
  | some p => .ok p
  | none => .error .outOfRange

def NumBlocks (h : HashTableHeaderPage) : Nat := h.block_page_ids_.length

end HashTableHeaderPage

/-- The block page of `src/storage/page/hash_table_block_page.cpp`: the arrays
`occupied_`, `readable_` and `array_`.  A cell of `occupied_` or `readable_` is only ever
compared with the character 1 and assigned the characters 1 or 0, so it is the Boolean
"holds the character 1". -/
structure HashTableBlockPage (K V : Type) where
  occupied_ : Nat → Bool
  readable_ : Nat → Bool
  array_ : Nat → K × V

namespace HashTableBlockPage

variable {K V : Type}

def KeyAt (p : HashTableBlockPage K V) (bucket_ind : Nat) : K := (p.array_ bucket_ind).1

def ValueAt (p : HashTableBlockPage K V) (bucket_ind : Nat) : V := (p.array_ bucket_ind).2

def Insert (p : HashTableBlockPage K V) (bucket_ind : Nat) (key : K) (value : V) :
    Bool × HashTableBlockPage K V :=
  if p.occupied_ bucket_ind then (false, p)
  else
    (true,
      { occupied_ := Function.update p.occupied_ bucket_ind true
        array_ := Function.update p.array_ bucket_ind (key, value)
        readable_ := Function.update p.readable_ bucket_ind true })

def Remove (p : HashTableBlockPage K V) (bucket_ind : Nat) : HashTableBlockPage K V :=
  { p with readable_ := Function.update p.readable_ bucket_ind false }

def IsOccupied (p : HashTableBlockPage K V) (bucket_ind : Nat) : Bool := p.occupied_ bucket_ind

def IsReadable (p : HashTableBlockPage K V) (bucket_ind : Nat) : Bool := p.readable_ bucket_ind

/-- The view of an all-zero page: no cell holds the character 1. -/
def zeroed [Inhabited K] [Inhabited V] : HashTableBlockPage K V :=
  { occupied_ := fun _ => false, readable_ := fun _ => false, array_ := fun _ => default }

end HashTableBlockPage

/-- The bytes of a page as the hash table uses them: all zero (as `ResetMemory` leaves
them), the image of a header page, or the image of a block page. -/
inductive PageData (K V : Type) where
  | zero
  | header (h : HashTableHeaderPage)
  | block (p : HashTableBlockPage K V)

instance {K V : Type} : Inhabited (PageData K V) := ⟨PageData.zero⟩

namespace PageData

variable {K V : Type}

/-- The cast `reinterpret_cast<HashTableHeaderPage *>(page->GetData())`. -/
def asHeader : PageData K V → Except Fault HashTableHeaderPage
  | zero => .ok { size_ := 0, block_page_ids_ := [] }
  | header h => .ok h
  | block _ => .error .badCast

/-- The cast `reinterpret_cast<HashTableBlockPage<...> *>(page->GetData())`. -/
def asBlock [Inhabited K] [Inhabited V] : PageData K V → Except Fault (HashTableBlockPage K V)
  | zero => .ok HashTableBlockPage.zeroed
  | block p => .ok p
  | header _ => .error .badCast

end PageData

/-! ## LinearProbeHashTable (`src/container/hash/linear_probe_hash_table.cpp`) -/

/-- The members of `LinearProbeHashTable` other than the pointer to the buffer pool, which
is passed to every operation next to the table. -/
structure LinearProbeHashTable (K V : Type) where
  header_page_id_ : page_id_t
  num_buckets_ : Nat
  comparator_ : K → K → Int
  hash_fn_ : K → Nat

/-- The buffer pool the hash table runs on: its pages hold hash-table page images. -/
abbrev Pool (K V : Type) := BufferPoolManager (PageData K V)

namespace LinearProbeHashTable

variable {K V : Type} [Inhabited K] [Inhabited V] [DecidableEq V]

/-- The expression `buffer_pool_manager_->FetchPage(page_id, nullptr)->GetData()`: the
pointer to the frame, or a null dereference when the fetch returns `nullptr`. -/
def fetchData (b : Pool K V) (page_id : page_id_t) : Except Fault (Pool K V × frame_id_t) :=
  match b.FetchPageImpl page_id with
  | (b1, some f) => .ok (b1, f)
  | (_, none) => .error .nullDeref

/-- Reading a frame through a `HashTableHeaderPage *`. -/
def headerAt (b : Pool K V) (f : frame_id_t) : Except Fault HashTableHeaderPage :=
  (b.pages_ f).data_.asHeader

/-- Reading a frame through a `HashTableBlockPage *`. -/
def blockAt (b : Pool K V) (f : frame_id_t) : Except Fault (HashTableBlockPage K V) :=
  (b.pages_ f).data_.asBlock

/-- Writing the bytes of a frame through a typed pointer. -/
def setData (b : Pool K V) (f : frame_id_t) (d : PageData K V) : Pool K V :=
  { b with pages_ := Function.update b.pages_ f { b.pages_ f with data_ := d } }

/-- The call `header_page->SetSize(size)` on the frame `f`. -/
def headerSetSize (b : Pool K V) (f : frame_id_t) (size : Nat) : Except Fault (Pool K V) := do
  let h ← headerAt b f
  .ok (setData b f (.header (h.SetSize size)))

/-- The call `header_page->AddBlockPageId(page_id)` on the frame `f`. -/
def headerAdd (b : Pool K V) (f : frame_id_t) (page_id : page_id_t) :
    Except Fault (Pool K V) := do
  let h ← headerAt b f
  .ok (setData b f (.header (h.AddBlockPageId page_id)))

/-- The call `block_page->Insert(bucket_ind, key, value)` on the frame `f`. -/
def blockInsert (b : Pool K V) (f : frame_id_t) (bucket_ind : Nat) (key : K) (value : V) :
    Except Fault (Bool × Pool K V) := do
  let blk ← blockAt b f
  if (blk.Insert bucket_ind key value).1 then
    .ok (true, setData b f (.block (blk.Insert bucket_ind key value).2))
  else .ok (false, b)

/-- The call `block_page->Remove(bucket_ind)` on the frame `f`. -/
def blockRemove (b : Pool K V) (f : frame_id_t) (bucket_ind : Nat) : Except Fault (Pool K V) := do
  let blk ← blockAt b f
  .ok (setData b f (.block (blk.Remove bucket_ind)))

/-- The constructor.  `NewPage` is called `GetPoolSize() + 1` times; when a call for a block
page returns `nullptr` the local `block_page_id` is appended without having been assigned,
and `uninit i` is the value it holds in iteration `i`. -/
def new (b : Pool K V) (comparator : K → K → Int) (num_buckets : Nat) (hash_fn : K → Nat)
    (uninit : Nat → page_id_t) : Except Fault (LinearProbeHashTable K V × Pool K V) :=
  match b.NewPageImpl with
  | (_, none) => .error .nullDeref
  | (b1, some (hf, header_page_id)) => do
    let b2 ← headerSetSize b1 hf b1.GetPoolSize
    let b3 ← (List.range b2.GetPoolSize).foldlM
      (fun (bp : Pool K V) i =>
        match bp.NewPageImpl with
        | (bq, some (_, block_page_id)) => headerAdd bq hf block_page_id
        | (bq, none) => headerAdd bq hf (uninit i)) b2
    .ok ({ header_page_id_ := header_page_id, num_buckets_ := num_buckets,
           comparator_ := comparator, hash_fn_ := hash_fn }, b3)

/-- The initial `(header_index, block_index)` of a probe, computed in `size_t` arithmetic:
`(hash_key % num_buckets_) / (num_buckets_ / GetPoolSize())` and the remainder. -/
def start (ht : LinearProbeHashTable K V) (b : Pool K V) (key : K) :
    Except Fault (Nat × Nat) :=
  if b.GetPoolSize = 0 then .error .divByZero
  else if ht.num_buckets_ = 0 then .error .divByZero
  else if ht.num_buckets_ / b.GetPoolSize = 0 then .error .divByZero
  else
    .ok ((ht.hash_fn_ key % ht.num_buckets_) / (ht.num_buckets_ / b.GetPoolSize),
      (ht.hash_fn_ key % ht.num_buckets_) % (ht.num_buckets_ / b.GetPoolSize))

/-- The probe step: `block_index++` inside a block, else the next header index modulo the
pool size with `block_index = 0`. -/
def advance (ht : LinearProbeHashTable K V) (b : Pool K V) (pos : Nat × Nat) : Nat × Nat :=
  if pos.2 < ht.num_buckets_ / b.GetPoolSize - 1 then (pos.1, pos.2 + 1)
  else ((pos.1 + 1) % b.GetPoolSize, 0)

/-- The block page a probe position names: `header_page->GetBlockPageId(header_index)` read
through the header pointer `hf`, then fetched. -/
def fetchBlock (b : Pool K V) (hf : frame_id_t) (header_index : Nat) :
    Except Fault (Pool K V × frame_id_t) := do
  let h ← headerAt b hf
  let block_page_id ← h.GetBlockPageId header_index
  fetchData b block_page_id

/-- The test `IsReadable(i) && !comparator_(KeyAt(i), key)`. -/
def keyMatch (ht : LinearProbeHashTable K V) (blk : HashTableBlockPage K V) (i : Nat)
    (key : K) : Bool :=
  blk.IsReadable i && (ht.comparator_ (blk.KeyAt i) key == 0)

/-- The test `IsReadable(i) && !comparator_(KeyAt(i), key) && ValueAt(i) == value`. -/
def pairMatch (ht : LinearProbeHashTable K V) (blk : HashTableBlockPage K V) (i : Nat)
    (key : K) (value : V) : Bool :=
  keyMatch ht blk i key && decide (blk.ValueAt i = value)

/-- The `while` loop of `GetValue` (lines 71-92). -/
def getValueLoop (ht : LinearProbeHashTable K V) (hf : frame_id_t) (key : K)
    (first : Nat × Nat) :
    Nat → Pool K V → Nat × Nat → List V → Except Fault (Pool K V × List V)
  | 0, _, _, _ => .error .outOfFuel
  | fuel + 1, b, pos, result =>
    if pos = first then .ok (b, result)
    else do
      let (b1, bf) ← fetchBlock b hf pos.1
      let blk ← blockAt b1 bf
      if !blk.IsOccupied pos.2 then .ok (b1, result)
      else
        getValueLoop ht hf key first fuel b1 (advance ht b1 pos)
          (if keyMatch ht blk pos.2 key then result ++ [blk.ValueAt pos.2] else result)

/-- The member `GetValue(transaction, key, result)`: the returned list is `*result` after
the call.  The probe closes its cycle within `num_buckets_` steps, which is the fuel. -/
def GetValue (ht : LinearProbeHashTable K V) (b : Pool K V) (key : K) (result : List V) :
    Except Fault (Bool × List V × Pool K V) := do
  let (b1, hf) ← fetchData b ht.header_page_id_
  let first ← start ht b1 key
  let (b2, bf) ← fetchBlock b1 hf first.1
  let blk ← blockAt b2 bf
  if !blk.IsOccupied first.2 then .ok (false, result, b2)
  else do
    let (b3, res) ← getValueLoop ht hf key first ht.num_buckets_ b2 (advance ht b2 first)
      (if keyMatch ht blk first.2 key then result ++ [blk.ValueAt first.2] else result)
    .ok (true, res, b3)

/-- The `while` loop of `Insert` (lines 127-144): `none` is the `return false` inside the
loop, `some pos` the position at which the loop is left. -/
def insertLoop (ht : LinearProbeHashTable K V) (hf : frame_id_t) (key : K) (value : V)
    (first : Nat × Nat) :
    Nat → Pool K V → Nat × Nat → Except Fault (Pool K V × Option (Nat × Nat))
  | 0, _, _ => .error .outOfFuel
  | fuel + 1, b, pos =>
    if pos = first then .ok (b, some pos)
    else do
      let (b1, bf) ← fetchBlock b hf pos.1
      let blk ← blockAt b1 bf
      if !blk.IsOccupied pos.2 then .ok (b1, some pos)
      else if pairMatch ht blk pos.2 key value then .ok (b1, none)
      else insertLoop ht hf key value first fuel b1 (advance ht b1 pos)

/-- The body of `Resize` for one value of `i` (lines 224-231); `hf` and `nf` are the
pointers `header_page` and `new_header_page`. -/
def resizeStep (ht : LinearProbeHashTable K V) (hf nf : frame_id_t) (b : Pool K V) (i : Nat) :
    Except Fault (Pool K V) := do
  let h ← headerAt b hf
  let block_id_1 ← h.GetBlockPageId i
  let block_id_2 ← h.GetBlockPageId (i + 1)
  let (b1, f1) ← fetchData b block_id_1
  let (b2, f2) ← fetchData b1 block_id_2
  let b3 ← (List.range (ht.num_buckets_ / b2.GetPoolSize)).foldlM
    (fun (bp : Pool K V) j => do
      let blk2 ← blockAt bp f2
      let r ← blockInsert bp f1 (ht.num_buckets_ / bp.GetPoolSize + j) (blk2.KeyAt j)
        (blk2.ValueAt j)
      .ok r.2) b2
  headerAdd b3 nf block_id_1

/-- The member `Resize(initial_size)`.  The outer loop runs for `i = 0, 2, 4, ...` below the
pool size. -/
def Resize (ht : LinearProbeHashTable K V) (b : Pool K V) (initial_size : Nat) :
    Except Fault (LinearProbeHashTable K V × Pool K V) := do
  let (b1, hf) ← fetchData b ht.header_page_id_
  match b1.NewPageImpl with
  | (_, none) => .error .nullDeref
  | (b2, some (nf, new_page_id)) => do
    let b3 ← headerSetSize b2 nf (2 * initial_size % 2 ^ 64)
    let b4 ← (List.range ((b3.GetPoolSize + 1) / 2)).foldlM
      (fun (bp : Pool K V) t => resizeStep ht hf nf bp (2 * t)) b3
    .ok ({ ht with num_buckets_ := 2 * initial_size % 2 ^ 64, header_page_id_ := new_page_id },
      b4)

/-- The member `Insert(transaction, key, value)` with fuel for the recursive call after
`Resize`.  After the loop the insertion goes through the pointer `block_page` declared
before the loop (the frame `bf`): the `block_page` declared inside the loop body is a
different variable whose scope ends with the body. -/
def insertAux : Nat → LinearProbeHashTable K V → Pool K V → K → V →
    Except Fault (Bool × LinearProbeHashTable K V × Pool K V)
  | 0, _, _, _, _ => .error .outOfFuel
  | rfuel + 1, ht, b, key, value => do
    let (b1, hf) ← fetchData b ht.header_page_id_
    let first ← start ht b1 key
    let (b2, bf) ← fetchBlock b1 hf first.1
    let blk ← blockAt b2 bf
    if !blk.IsOccupied first.2 then do
      let r ← blockInsert b2 bf first.2 key value
      .ok (r.1, ht, r.2)
    else if pairMatch ht blk first.2 key value then .ok (false, ht, b2)
    else do
      let (b3, out) ← insertLoop ht hf key value first ht.num_buckets_ b2 (advance ht b2 first)
      match out with
      | none => .ok (false, ht, b3)
      | some pos =>
        if pos = first then do
          let (ht1, b4) ← Resize ht b3 ht.num_buckets_
          insertAux rfuel ht1 b4 key value
        else do
          let r ← blockInsert b3 bf pos.2 key value
          .ok (r.1, ht, r.2)

/-- The member `Insert`.  Every completed `Resize` takes a frame from the free list or the
replacer for its new header page and nothing returns one, which bounds the recursion. -/
def Insert (ht : LinearProbeHashTable K V) (b : Pool K V) (key : K) (value : V) :
    Except Fault (Bool × LinearProbeHashTable K V × Pool K V) :=
  insertAux (b.free_list_.length + b.replacer_.lst.length + 1) ht b key value

/-- The `while` loop of `Remove` (lines 189-210): the flag is `true` for the `return true`
inside the loop. -/
def removeLoop (ht : LinearProbeHashTable K V) (hf : frame_id_t) (key : K) (value : V)
    (first : Nat × Nat) :
    Nat → Pool K V → Nat × Nat → Except Fault (Bool × Pool K V)
  | 0, _, _ => .error .outOfFuel
  | fuel + 1, b, pos =>
    if pos = first then .ok (false, b)
    else do
      let (b1, bf) ← fetchBlock b hf pos.1
      let blk ← blockAt b1 bf
      if !blk.IsOccupied pos.2 then .ok (false, b1)
      else if pairMatch ht blk pos.2 key value then do
        let b2 ← blockRemove b1 bf pos.2
        .ok (true, b2)
      else removeLoop ht hf key value first fuel b1 (advance ht b1 pos)

/-- The member `Remove(transaction, key, value)`. -/
def Remove (ht : LinearProbeHashTable K V) (b : Pool K V) (key : K) (value : V) :
    Except Fault (Bool × Pool K V) := do
  let (b1, hf) ← fetchData b ht.header_page_id_
  let first ← start ht b1 key
  let (b2, bf) ← fetchBlock b1 hf first.1
  let blk ← blockAt b2 bf
  if blk.IsOccupied first.2 then
    if pairMatch ht blk first.2 key value then do
      let b3 ← blockRemove b2 bf first.2
      .ok (true, b3)
    else removeLoop ht hf key value first ht.num_buckets_ b2 (advance ht b2 first)
  else .ok (false, b2)

/-- The member `GetSize()`. -/
def GetSize (ht : LinearProbeHashTable K V) (b : Pool K V) : Except Fault (Nat × Pool K V) := do
  let (b1, hf) ← fetchData b ht.header_page_id_
  let h ← headerAt b1 hf
  .ok (h.GetSize, b1)

end LinearProbeHashTable

/-! ## Auxiliary notions used by the theorems -/

namespace BufferPoolManager

variable {D : Type}

/-- Every frame is in use: nothing is on the free list and the replacer tracks no frame.
A failed `NewPageImpl` leaves the pool in this state, so the constructor of the hash table
(which calls `NewPage` once more than there are frames) always does. -/
def Exhausted (b : BufferPoolManager D) : Prop :=
  b.free_list_ = [] ∧ b.replacer_.lst = []

/-- The pool after `pin_count_++` on the frame `f`. -/
def pinFrame (b : BufferPoolManager D) (f : frame_id_t) : BufferPoolManager D :=
  { b with
    pages_ := Function.update b.pages_ f
      { b.pages_ f with pin_count_ := (b.pages_ f).pin_count_ + 1 } }

/-- The pool `c` differs from `b` in pin counts only. -/
structure SamePages (b c : BufferPoolManager D) : Prop where
  pool : c.pool_size_ = b.pool_size_
  table : c.page_table_ = b.page_table_
  free : c.free_list_ = b.free_list_
  repl : c.replacer_ = b.replacer_
  disk : c.disk_manager_ = b.disk_manager_
  data : ∀ f, (c.pages_ f).data_ = (b.pages_ f).data_
  ids : ∀ f, (c.pages_ f).page_id_ = (b.pages_ f).page_id_
  dirty : ∀ f, (c.pages_ f).is_dirty_ = (b.pages_ f).is_dirty_

/-- No frame has a smaller pin count in `c` than in `b`. -/
def PinLe (b c : BufferPoolManager D) : Prop :=
  ∀ f, (b.pages_ f).pin_count_ ≤ (c.pages_ f).pin_count_

/-- A caller that holds the pointer `&pages_[f]` overwrites the bytes of the page. -/
def writeData (b : BufferPoolManager D) (f : frame_id_t) (d : D) : BufferPoolManager D :=
  { b with pages_ := Function.update b.pages_ f { b.pages_ f with data_ := d } }

/-- The frames of the pool whose pin count is positive. -/
def pinnedFrames (b : BufferPoolManager D) : List frame_id_t :=
  (List.range b.pool_size_).filter fun f => decide (0 < (b.pages_ f).pin_count_)

/-- The pool after `k` calls of `NewPageImpl` in a row, whatever each of them returned. -/
def newPages [Inhabited D] : Nat → BufferPoolManager D → BufferPoolManager D
  | 0, b => b
  | k + 1, b => newPages k b.NewPageImpl.1

/-- The states of a buffer pool: built by the constructor over a disk manager whose next
page id is not negative (so that it never hands out `INVALID_PAGE_ID`), then any sequence
of `FetchPage`, `UnpinPage`, `FlushPage`, `NewPage`, `DeletePage` and `FlushAllPages` calls
that return (`FlushAllPages` returns on an empty page table only), with writes of the
callers to the bytes of frames in between. -/
inductive PoolReachable [Inhabited D] : BufferPoolManager D → Prop where
  | construct (pool_size : Nat) (disk : DiskManager D) :
      0 ≤ disk.next_page_id_ → PoolReachable (BufferPoolManager.new pool_size disk)
  | fetch (b : BufferPoolManager D) (p : page_id_t) :
      PoolReachable b → PoolReachable (b.FetchPageImpl p).1
  | unpin (b b1 : BufferPoolManager D) (p : page_id_t) (is_dirty r : Bool) :
      PoolReachable b → b.UnpinPageImpl p is_dirty = .ok (r, b1) → PoolReachable b1
  | flush (b : BufferPoolManager D) (p : page_id_t) :
      PoolReachable b → PoolReachable (b.FlushPageImpl p).2
  | newPage (b : BufferPoolManager D) : PoolReachable b → PoolReachable b.NewPageImpl.1
  | delete (b : BufferPoolManager D) (p : page_id_t) :
      PoolReachable b → PoolReachable (b.DeletePageImpl p).2
  | flushAll (b b1 : BufferPoolManager D) :
      PoolReachable b → b.FlushAllPagesImpl = .ok b1 → PoolReachable b1
  | write (b : BufferPoolManager D) (f : frame_id_t) (d : D) :
      PoolReachable b → PoolReachable (b.writeData f d)

/-- The bookkeeping that the calls of the buffer pool keep up: the free list and the
replacer hold distinct frames of the pool with pin count zero and share none, every frame
with pin count zero is in one of the two, and a page-table entry names a frame of the pool
that is off the free list and holds the page of the entry. -/
structure WellFormed (b : BufferPoolManager D) : Prop where
  repl_cap : b.replacer_.num_page = b.pool_size_
  free_nodup : b.free_list_.Nodup
  free_lt : ∀ f ∈ b.free_list_, f < b.pool_size_
  lst_nodup : b.replacer_.lst.Nodup
  lst_lt : ∀ f ∈ b.replacer_.lst, f < b.pool_size_
  disjoint : ∀ f ∈ b.free_list_, f ∉ b.replacer_.lst
  free_pin : ∀ f ∈ b.free_list_, (b.pages_ f).pin_count_ = 0
  lst_pin : ∀ f ∈ b.replacer_.lst, (b.pages_ f).pin_count_ = 0
  cover : ∀ f, f < b.pool_size_ → (b.pages_ f).pin_count_ = 0 →
    f ∈ b.free_list_ ∨ f ∈ b.replacer_.lst
  table_lt : ∀ p f, b.find p = some f → f < b.pool_size_
  table_free : ∀ p f, b.find p = some f → f ∉ b.free_list_
  table_id : ∀ p f, b.find p = some f → (b.pages_ f).page_id_ = p
  free_id : ∀ f ∈ b.free_list_, (b.pages_ f).page_id_ = INVALID_PAGE_ID
  no_invalid : b.find INVALID_PAGE_ID = none
  alloc : 0 ≤ b.disk_manager_.next_page_id_

/-- The states of a buffer pool whose callers fetch no page before the disk manager has
handed out its id: as `PoolReachable`, but `FetchPage(p)` is only called with `p` below the
next page id of the disk manager, so that `AllocatePage` never hands out the id of a page
that was fetched before. -/
inductive AllocatedReachable [Inhabited D] : BufferPoolManager D → Prop where
  | construct (pool_size : Nat) (disk : DiskManager D) :
      0 ≤ disk.next_page_id_ → AllocatedReachable (BufferPoolManager.new pool_size disk)
  | fetch (b : BufferPoolManager D) (p : page_id_t) :
      AllocatedReachable b → p < b.disk_manager_.next_page_id_ →
      AllocatedReachable (b.FetchPageImpl p).1
  | unpin (b b1 : BufferPoolManager D) (p : page_id_t) (is_dirty r : Bool) :
      AllocatedReachable b → b.UnpinPageImpl p is_dirty = .ok (r, b1) → AllocatedReachable b1
  | flush (b : BufferPoolManager D) (p : page_id_t) :
      AllocatedReachable b → AllocatedReachable (b.FlushPageImpl p).2
  | newPage (b : BufferPoolManager D) :
      AllocatedReachable b → AllocatedReachable b.NewPageImpl.1
  | delete (b : BufferPoolManager D) (p : page_id_t) :
      AllocatedReachable b → AllocatedReachable (b.DeletePageImpl p).2
  | flushAll (b b1 : BufferPoolManager D) :
      AllocatedReachable b → b.FlushAllPagesImpl = .ok b1 → AllocatedReachable b1
  | write (b : BufferPoolManager D) (f : frame_id_t) (d : D) :
      AllocatedReachable b → AllocatedReachable (b.writeData f d)

/-- The page table is exact: every frame that holds a page is the frame the page table
maps that page to, and every page in the page table has an id below the next page id of
the disk manager. -/
structure TableExact (b : BufferPoolManager D) : Prop where
  held : ∀ f, (b.pages_ f).page_id_ ≠ INVALID_PAGE_ID →
    b.find (b.pages_ f).page_id_ = some f
  below : ∀ p f, b.find p = some f → p < b.disk_manager_.next_page_id_

end BufferPoolManager

namespace ClockReplacer

/-- A call of one of the members `Victim`, `Pin` and `Unpin`. -/
inductive Call where
  | victim
  | pin (frame_id : frame_id_t)
  | unpin (frame_id : frame_id_t)
  deriving DecidableEq, Repr

/-- The effect of a call: what `Victim` returned (`none` for the other members) and the
replacer afterwards. -/
def call (r : ClockReplacer) : Call → Except Fault (Option frame_id_t × ClockReplacer)
  | .victim => .ok r.Victim
  | .pin f => .ok (none, r.Pin f)
  | .unpin f => (r.Unpin f).map fun r1 => (none, r1)

/-- A sequence of calls in order: the list of what the calls returned and the replacer
at the end. -/
def runCalls (r : ClockReplacer) : List Call →
    Except Fault (List (Option frame_id_t) × ClockReplacer)
  | [] => .ok ([], r)
  | c :: cs =>
    match r.call c with
    | .error e => .error e
    | .ok (out, r1) =>
      match runCalls r1 cs with
      | .error e => .error e
      | .ok (outs, r2) => .ok (out :: outs, r2)

/-- The states of a replacer: built by the constructor, then any sequence of `Victim`,
`Pin` and `Unpin` calls that return. -/
inductive ReplacerReachable : ClockReplacer → Prop where
  | construct (num_pages : Nat) : ReplacerReachable (ClockReplacer.new num_pages)
  | step (r r1 : ClockReplacer) (c : Call) (out : Option frame_id_t) :
      ReplacerReachable r → r.call c = .ok (out, r1) → ReplacerReachable r1

end ClockReplacer

namespace LinearProbeHashTable

variable {K V : Type} [Inhabited K] [Inhabited V] [DecidableEq V]

/-- The frame and block image that the fetch of a probe position yields when the page is
resident: the reads of `fetchBlock` followed by `blockAt`, without the pin. -/
def probeRead (b : Pool K V) (hf : frame_id_t) (header_index : Nat) :
    Except Fault (frame_id_t × HashTableBlockPage K V) := do
  let h ← headerAt b hf
  let block_page_id ← h.GetBlockPageId header_index
  if block_page_id = INVALID_PAGE_ID then .error .nullDeref
  else
    match b.find block_page_id with
    | none => .error .nullDeref
    | some g => do
      let blk ← blockAt b g
      .ok (g, blk)

/-- The part of `Insert` after its loop on a pool whose frames are all in use, where
`Resize` cannot get a frame for the new header page and dereferences `nullptr`. -/
def insertTail (ht : LinearProbeHashTable K V) (bf : frame_id_t) (key : K) (value : V)
    (first : Nat × Nat) (r3 : Pool K V × Option (Nat × Nat)) :
    Except Fault (Bool × LinearProbeHashTable K V × Pool K V) :=
  match r3.2 with
  | none => .ok (false, ht, r3.1)
  | some pos =>
    if pos = first then .error .nullDeref
    else blockInsert r3.1 bf pos.2 key value >>= fun r => .ok (r.1, ht, r.2)

/-- The pool `c` is `b` after `block_page->Insert(j, key, value)` succeeded on the frame
`g`, up to pin counts. -/
structure StoredAt (b c : Pool K V) (g : frame_id_t) (j : Nat) (key : K) (value : V) :
    Prop where
  pool : c.pool_size_ = b.pool_size_
  table : c.page_table_ = b.page_table_
  free : c.free_list_ = b.free_list_
  repl : c.replacer_ = b.replacer_
  other : ∀ f, f ≠ g → (c.pages_ f).data_ = (b.pages_ f).data_
  stored : ∃ blk, blockAt b g = .ok blk ∧ blk.IsOccupied j = false ∧
    (c.pages_ g).data_ = .block (blk.Insert j key value).2

/-- The number of the slot a probe position names, counting slots block after block with
`slots` slots per block. -/
def probeIndex (slots : Nat) (pos : Nat × Nat) : Nat := pos.1 * slots + pos.2

/-- The number of probe steps from the slot numbered `i` to the slot numbered `a` in a cycle
of `m` slots. -/
def probeDist (m a i : Nat) : Nat := if i ≤ a then a - i else a + m - i

/-- The states a table and its pool go through: built by the constructor on a new buffer
pool over an empty disk, then any sequence of returning `Insert`, `Remove`, `GetValue` and
`GetSize` calls. -/
inductive Reachable : LinearProbeHashTable K V → Pool K V → Prop where
  | construct (pool_size num_buckets : Nat) (comparator : K → K → Int) (hash_fn : K → Nat)
      (uninit : Nat → page_id_t) (ht : LinearProbeHashTable K V) (b : Pool K V) :
      LinearProbeHashTable.new (BufferPoolManager.new pool_size DiskManager.fresh) comparator
        num_buckets hash_fn uninit = .ok (ht, b) → Reachable ht b
  | insert (ht ht1 : LinearProbeHashTable K V) (b b1 : Pool K V) (key : K) (value : V)
      (r : Bool) : Reachable ht b → ht.Insert b key value = .ok (r, ht1, b1) → Reachable ht1 b1
  | remove (ht : LinearProbeHashTable K V) (b b1 : Pool K V) (key : K) (value : V)
      (r : Bool) : Reachable ht b → ht.Remove b key value = .ok (r, b1) → Reachable ht b1
  | getValue (ht : LinearProbeHashTable K V) (b b1 : Pool K V) (key : K) (result res : List V)
      (r : Bool) : Reachable ht b → ht.GetValue b key result = .ok (r, res, b1) →
      Reachable ht b1
  | getSize (ht : LinearProbeHashTable K V) (b b1 : Pool K V) (n : Nat) :
      Reachable ht b → ht.GetSize b = .ok (n, b1) → Reachable ht b1

end LinearProbeHashTable

/-! ## Concrete pools and tables used in the examples -/

/-- Modelled from the spec: a comparator of integer keys as in section 6 (negative, zero or
positive; zero exactly for equal keys). -/
def IntComparator (a b : Int) : Int := if a < b then -1 else if b < a then 1 else 0

/-- The value of a computation that returned, or `d` when it faulted. -/
def valueOr {α : Type} (x : Except Fault α) (d : α) : α :=
  match x with
  | .ok a => a
  | .error _ => d

/-- A buffer pool of three frames over an empty disk. -/
def pool3 : Pool Int Int := BufferPoolManager.new 3 DiskManager.fresh

/-- The table the constructor builds on `pool3` with `num_buckets = 6` and a hash function
that is constantly 1 (the unassigned `block_page_id` is taken to hold `INVALID_PAGE_ID`). -/
def table6 : LinearProbeHashTable Int Int × Pool Int Int :=
  valueOr (LinearProbeHashTable.new pool3 IntComparator 6 (fun _ => 1) (fun _ => INVALID_PAGE_ID))
    ({ header_page_id_ := INVALID_PAGE_ID, num_buckets_ := 0, comparator_ := IntComparator,
       hash_fn_ := fun _ => 0 }, pool3)

/-- The state of `table6` after `Insert(10, 100)`. -/
def table6a : Bool × LinearProbeHashTable Int Int × Pool Int Int :=
  valueOr (table6.1.Insert table6.2 10 100) (false, table6)

/-- A buffer pool of two frames whose frame 0 holds the freshly created page 0, pinned
once. -/
def pool2 : BufferPoolManager Nat :=
  (BufferPoolManager.new 2 DiskManager.fresh).NewPageImpl.1

/-- The pool `b` after `UnpinPage(p, is_dirty)`. -/
def unpinned (b : BufferPoolManager Nat) (p : page_id_t) (is_dirty : Bool) :
    BufferPoolManager Nat :=
  (valueOr (b.UnpinPageImpl p is_dirty) (false, b)).2

/-- The pool `pool2` after `UnpinPage(0, false)`: page 0 is resident in frame 0 with pin
count 0, and the replacer tracks frame 0. -/
def pool2u : BufferPoolManager Nat := unpinned pool2 0 false

/-- A buffer pool of four frames after `NewPage` four times (pages 0 to 3 in frames 0 to
3), the callers writing the bytes 11, 22, 33 and 44 to the four pages, `UnpinPage` with
`is_dirty = true` on each of them, and `FetchPage(0)`: page 0 is pinned, the replacer
tracks the frames 1, 2 and 3. -/
def pool4 : BufferPoolManager Nat :=
  let b := BufferPoolManager.newPages 4 (BufferPoolManager.new 4 DiskManager.fresh)
  let b := (((b.writeData 0 11).writeData 1 22).writeData 2 33).writeData 3 44
  let b := unpinned (unpinned (unpinned (unpinned b 0 true) 1 true) 2 true) 3 true
  (b.FetchPageImpl 0).1

/-- A replacer of capacity 3 after `Unpin(0)`, `Unpin(1)` and `Unpin(2)`: it tracks the
three frames, in this order, each with its reference bit set. -/
def replacer3 : ClockReplacer :=
  valueOr
    (((ClockReplacer.new 3).Unpin 0 >>= fun r => r.Unpin 1) >>= fun r => r.Unpin 2)
    (ClockReplacer.new 3)

end bustub

/-! # Theorems -/

set_option linter.unusedSectionVars false

namespace bustub

/-! ## Lemmas: the buffer pool -/

namespace BufferPoolManager
variable {D : Type}

theorem SamePages.refl (b : BufferPoolManager D) : SamePages b b :=
  ⟨rfl, rfl, rfl, rfl, rfl, fun _ => rfl, fun _ => rfl, fun _ => rfl⟩

theorem SamePages.trans {a b c : BufferPoolManager D} (h1 : SamePages a b) (h2 : SamePages b c) :
    SamePages a c :=
  ⟨h2.pool.trans h1.pool, h2.table.trans h1.table, h2.free.trans h1.free,
    h2.repl.trans h1.repl, h2.disk.trans h1.disk, fun f => (h2.data f).trans (h1.data f),
    fun f => (h2.ids f).trans (h1.ids f), fun f => (h2.dirty f).trans (h1.dirty f)⟩

theorem SamePages.symm {a b : BufferPoolManager D} (h : SamePages a b) : SamePages b a :=
  ⟨h.pool.symm, h.table.symm, h.free.symm, h.repl.symm, h.disk.symm, fun f => (h.data f).symm,
    fun f => (h.ids f).symm, fun f => (h.dirty f).symm⟩

theorem SamePages.exhausted {a b : BufferPoolManager D} (h : SamePages a b) (ha : Exhausted a) :
    Exhausted b := ⟨h.free.trans ha.1, by rw [h.repl]; exact ha.2⟩

theorem SamePages.find_eq {a b : BufferPoolManager D} (h : SamePages a b) (p : page_id_t) :
    b.find p = a.find p := by simp [BufferPoolManager.find, h.table]

theorem samePages_pinFrame (b : BufferPoolManager D) (f : frame_id_t) :
    SamePages b (pinFrame b f) := by
  refine ⟨rfl, rfl, rfl, rfl, rfl, fun g => ?_, fun g => ?_, fun g => ?_⟩ <;>
  · by_cases hg : g = f
    · subst hg; simp [pinFrame]
    · simp [pinFrame, Function.update_noteq hg]

theorem exhausted_pinFrame {b : BufferPoolManager D} (hb : Exhausted b) (f : frame_id_t) :
    Exhausted (pinFrame b f) := (samePages_pinFrame b f).exhausted hb

theorem FetchPageImpl_exhausted {b : BufferPoolManager D} (hb : Exhausted b) (p : page_id_t) :
    b.FetchPageImpl p =
      if p = INVALID_PAGE_ID then (b, none)
      else match b.find p with
        | some f => (pinFrame b f, some f)
        | none => (b, none) := by
  unfold FetchPageImpl
  split
  · rfl
  · cases hf : b.find p with
    | some f =>
      simp only [pinFrame, ClockReplacer.Pin, hb.2, List.not_mem_nil, if_false]
    | none =>
      simp only [hb.1, ClockReplacer.Victim, hb.2]

theorem NewPageImpl_exhausted [Inhabited D] {b : BufferPoolManager D} (hb : Exhausted b) :
    b.NewPageImpl = (b, none) := by
  simp [NewPageImpl, hb.1, hb.2, ClockReplacer.Victim]

end BufferPoolManager

/-! ## Lemmas: the hash table on a pool whose frames are all in use -/

namespace LinearProbeHashTable
open BufferPoolManager

variable {K V : Type} [Inhabited K] [Inhabited V] [DecidableEq V]

theorem fetchData_exhausted {b : Pool K V} (hb : Exhausted b) (p : page_id_t) :
    fetchData b p =
      if p = INVALID_PAGE_ID then .error .nullDeref
      else match b.find p with
        | some f => .ok (pinFrame b f, f)
        | none => .error .nullDeref := by
  unfold fetchData
  rw [FetchPageImpl_exhausted hb]
  by_cases hp : p = INVALID_PAGE_ID
  · simp [hp]
  · simp only [hp, if_false]
    cases b.find p <;> rfl

theorem headerAt_congr {b c : Pool K V} (h : SamePages b c) (f : frame_id_t) :
    headerAt c f = headerAt b f := by simp [headerAt, h.data]

theorem blockAt_congr {b c : Pool K V} (h : SamePages b c) (f : frame_id_t) :
    blockAt c f = blockAt b f := by simp [blockAt, h.data]

theorem advance_congr (ht : LinearProbeHashTable K V) {b c : Pool K V} (h : SamePages b c)
    (pos : Nat × Nat) : advance ht c pos = advance ht b pos := by
  simp [advance, GetPoolSize, h.pool]

theorem start_congr (ht : LinearProbeHashTable K V) {b c : Pool K V} (h : SamePages b c)
    (key : K) : start ht c key = start ht b key := by
  simp [start, GetPoolSize, h.pool]

theorem probeRead_congr {b c : Pool K V} (h : SamePages b c) (hf : frame_id_t) (hi : Nat) :
    probeRead c hf hi = probeRead b hf hi := by
  simp only [probeRead, headerAt_congr h, h.find_eq, blockAt_congr h]

/-- On an exhausted pool, fetching the block of a probe position and reading it is
`probeRead` followed by the pin. -/
theorem fetchBlock_blockAt {α : Type} {b : Pool K V} (hb : Exhausted b) (hf : frame_id_t) (hi : Nat)
    (F : Pool K V → frame_id_t → HashTableBlockPage K V → Except Fault α) :
    (fetchBlock b hf hi >>= fun r => blockAt r.1 r.2 >>= fun blk => F r.1 r.2 blk) =
      (probeRead b hf hi >>= fun r => F (pinFrame b r.1) r.1 r.2) := by
  unfold fetchBlock probeRead
  cases hh : headerAt b hf with
  | error e => rfl
  | ok h =>
    cases hid : h.GetBlockPageId hi with
    | error e => simp [bind, Except.bind, hid]
    | ok bid =>
      simp only [bind, Except.bind, hid]
      rw [fetchData_exhausted hb]
      by_cases hinv : bid = INVALID_PAGE_ID
      · simp [hinv]
      · simp only [hinv, if_false]
        cases hfind : b.find bid with
        | none => rfl
        | some g =>
          simp only [blockAt_congr (samePages_pinFrame b g)]
          cases blockAt b g <;> rfl

theorem getValueLoop_succ (ht : LinearProbeHashTable K V) (hf : frame_id_t) (key : K)
    (first : Nat × Nat) (fuel : Nat) {b : Pool K V} (hb : Exhausted b) (pos : Nat × Nat)
    (result : List V) :
    getValueLoop ht hf key first (fuel + 1) b pos result =
      if pos = first then .ok (b, result)
      else
        probeRead b hf pos.1 >>= fun r =>
          if !r.2.IsOccupied pos.2 then .ok (pinFrame b r.1, result)
          else
            getValueLoop ht hf key first fuel (pinFrame b r.1) (advance ht b pos)
              (if keyMatch ht r.2 pos.2 key then result ++ [r.2.ValueAt pos.2] else result) := by
  rw [getValueLoop]
  split
  · rfl
  · exact fetchBlock_blockAt hb hf pos.1 (fun b1 _ blk =>
      if !blk.IsOccupied pos.2 then .ok (b1, result)
      else
        getValueLoop ht hf key first fuel b1 (advance ht b1 pos)
          (if keyMatch ht blk pos.2 key then result ++ [blk.ValueAt pos.2] else result))


theorem insertLoop_succ (ht : LinearProbeHashTable K V) (hf : frame_id_t) (key : K) (value : V)
    (first : Nat × Nat) (fuel : Nat) {b : Pool K V} (hb : Exhausted b) (pos : Nat × Nat) :
    insertLoop ht hf key value first (fuel + 1) b pos =
      if pos = first then .ok (b, some pos)
      else
        probeRead b hf pos.1 >>= fun r =>
          if !r.2.IsOccupied pos.2 then .ok (pinFrame b r.1, some pos)
          else if pairMatch ht r.2 pos.2 key value then .ok (pinFrame b r.1, none)
          else insertLoop ht hf key value first fuel (pinFrame b r.1) (advance ht b pos) := by
  rw [insertLoop]
  split
  · rfl
  · exact fetchBlock_blockAt hb hf pos.1 (fun b1 _ blk =>
      if !blk.IsOccupied pos.2 then .ok (b1, some pos)
      else if pairMatch ht blk pos.2 key value then .ok (b1, none)
      else insertLoop ht hf key value first fuel b1 (advance ht b1 pos))

theorem removeLoop_succ (ht : LinearProbeHashTable K V) (hf : frame_id_t) (key : K) (value : V)
    (first : Nat × Nat) (fuel : Nat) {b : Pool K V} (hb : Exhausted b) (pos : Nat × Nat) :
    removeLoop ht hf key value first (fuel + 1) b pos =
      if pos = first then .ok (false, b)
      else
        probeRead b hf pos.1 >>= fun r =>
          if !r.2.IsOccupied pos.2 then .ok (false, pinFrame b r.1)
          else if pairMatch ht r.2 pos.2 key value then
            blockRemove (pinFrame b r.1) r.1 pos.2 >>= fun b2 => .ok (true, b2)
          else removeLoop ht hf key value first fuel (pinFrame b r.1) (advance ht b pos) := by
  rw [removeLoop]
  split
  · rfl
  · exact fetchBlock_blockAt hb hf pos.1 (fun b1 bf blk =>
      if !blk.IsOccupied pos.2 then .ok (false, b1)
      else if pairMatch ht blk pos.2 key value then
        blockRemove b1 bf pos.2 >>= fun b2 => .ok (true, b2)
      else removeLoop ht hf key value first fuel b1 (advance ht b1 pos))

/-- What a returning header fetch on an exhausted pool tells. -/
theorem fetchData_ok {b : Pool K V} (hb : Exhausted b) {p : page_id_t}
    {r : Pool K V × frame_id_t} (h : fetchData b p = .ok r) :
    p ≠ INVALID_PAGE_ID ∧ b.find p = some r.2 ∧ r.1 = pinFrame b r.2 := by
  rw [fetchData_exhausted hb] at h
  by_cases hp : p = INVALID_PAGE_ID
  · simp [hp] at h
  · simp only [hp, if_false] at h
    cases hfind : b.find p with
    | none => simp [hfind] at h
    | some f =>
      simp only [hfind, Except.ok.injEq] at h
      subst h
      exact ⟨hp, rfl, rfl⟩

theorem fetchData_of_find {b : Pool K V} (hb : Exhausted b) {p : page_id_t} {f : frame_id_t}
    (hp : p ≠ INVALID_PAGE_ID) (h : b.find p = some f) :
    fetchData b p = .ok (pinFrame b f, f) := by
  rw [fetchData_exhausted hb]; simp [hp, h]

/-- The loop of `GetValue` only pins. -/
theorem getValueLoop_samePages (ht : LinearProbeHashTable K V) (hf : frame_id_t) (key : K)
    (first : Nat × Nat) :
    ∀ (fuel : Nat) (b : Pool K V) (pos : Nat × Nat) (result : List V) (r : Pool K V × List V),
      Exhausted b → getValueLoop ht hf key first fuel b pos result = .ok r → SamePages b r.1 := by
  intro fuel
  induction fuel with
  | zero => intro b pos result r _ h; simp [getValueLoop] at h
  | succ n ih =>
    intro b pos result r hb h
    rw [getValueLoop_succ ht hf key first n hb] at h
    split at h
    · simp only [Except.ok.injEq] at h; subst h; exact SamePages.refl b
    · cases hp : probeRead b hf pos.1 with
      | error e => simp [hp, bind, Except.bind] at h
      | ok q =>
        simp only [hp, bind, Except.bind] at h
        split at h
        · simp only [Except.ok.injEq] at h; subst h; exact samePages_pinFrame b q.1
        · exact (samePages_pinFrame b q.1).trans (ih _ _ _ _ (exhausted_pinFrame hb _) h)

/-- The loop of `Insert` only pins. -/
theorem insertLoop_samePages (ht : LinearProbeHashTable K V) (hf : frame_id_t) (key : K)
    (value : V) (first : Nat × Nat) :
    ∀ (fuel : Nat) (b : Pool K V) (pos : Nat × Nat) (r : Pool K V × Option (Nat × Nat)),
      Exhausted b → insertLoop ht hf key value first fuel b pos = .ok r → SamePages b r.1 := by
  intro fuel
  induction fuel with
  | zero => intro b pos r _ h; simp [insertLoop] at h
  | succ n ih =>
    intro b pos r hb h
    rw [insertLoop_succ ht hf key value first n hb] at h
    split at h
    · simp only [Except.ok.injEq] at h; subst h; exact SamePages.refl b
    · cases hp : probeRead b hf pos.1 with
      | error e => simp [hp, bind, Except.bind] at h
      | ok q =>
        simp only [hp, bind, Except.bind] at h
        split at h
        · simp only [Except.ok.injEq] at h; subst h; exact samePages_pinFrame b q.1
        · split at h
          · simp only [Except.ok.injEq] at h; subst h; exact samePages_pinFrame b q.1
          · exact (samePages_pinFrame b q.1).trans (ih _ _ _ (exhausted_pinFrame hb _) h)

theorem Resize_exhausted (ht : LinearProbeHashTable K V) {b : Pool K V} (hb : Exhausted b)
    (n : Nat) : Resize ht b n = .error .nullDeref := by
  unfold Resize
  cases hfd : fetchData b ht.header_page_id_ with
  | error e =>
    rw [fetchData_exhausted hb] at hfd
    split at hfd
    · simp only [Except.error.injEq] at hfd; subst hfd; rfl
    · split at hfd
      · simp at hfd
      · simp only [Except.error.injEq] at hfd; subst hfd; rfl
  | ok r =>
    obtain ⟨-, -, h1⟩ := fetchData_ok hb hfd
    have hb1 : Exhausted r.1 := by rw [h1]; exact exhausted_pinFrame hb _
    simp only [bind, Except.bind, NewPageImpl_exhausted hb1]

end LinearProbeHashTable
end bustub

namespace bustub
namespace LinearProbeHashTable
open BufferPoolManager

variable {K V : Type} [Inhabited K] [Inhabited V] [DecidableEq V]

theorem fetchData_exhausted_out {b : Pool K V} (hb : Exhausted b) {p : page_id_t}
    {r : Pool K V × frame_id_t} (h : fetchData b p = .ok r) : Exhausted r.1 := by
  rw [(fetchData_ok hb h).2.2]; exact exhausted_pinFrame hb _

theorem fetchData_samePages {b : Pool K V} (hb : Exhausted b) {p : page_id_t}
    {r : Pool K V × frame_id_t} (h : fetchData b p = .ok r) : SamePages b r.1 := by
  rw [(fetchData_ok hb h).2.2]; exact samePages_pinFrame b _

theorem GetValue_eq (ht : LinearProbeHashTable K V) {b : Pool K V} (hb : Exhausted b) (key : K)
    (result : List V) :
    GetValue ht b key result =
      fetchData b ht.header_page_id_ >>= fun r1 =>
      start ht r1.1 key >>= fun first =>
      probeRead r1.1 r1.2 first.1 >>= fun r2 =>
        if !r2.2.IsOccupied first.2 then .ok (false, result, pinFrame r1.1 r2.1)
        else
          getValueLoop ht r1.2 key first ht.num_buckets_ (pinFrame r1.1 r2.1)
            (advance ht r1.1 first)
            (if keyMatch ht r2.2 first.2 key then result ++ [r2.2.ValueAt first.2] else result)
            >>= fun r3 => .ok (true, r3.2, r3.1) := by
  unfold GetValue
  cases hfd : fetchData b ht.header_page_id_ with
  | error e => rfl
  | ok r1 =>
    have hb1 := fetchData_exhausted_out hb hfd
    cases hs : start ht r1.1 key with
    | error e => simp [bind, Except.bind, hs]
    | ok first =>
      simp only [bind, Except.bind, hs]
      exact fetchBlock_blockAt hb1 r1.2 first.1 (fun b2 _ blk =>
        if !blk.IsOccupied first.2 then .ok (false, result, b2)
        else
          getValueLoop ht r1.2 key first ht.num_buckets_ b2 (advance ht b2 first)
            (if keyMatch ht blk first.2 key then result ++ [blk.ValueAt first.2] else result)
            >>= fun r3 => .ok (true, r3.2, r3.1))

theorem Remove_eq (ht : LinearProbeHashTable K V) {b : Pool K V} (hb : Exhausted b) (key : K)
    (value : V) :
    Remove ht b key value =
      fetchData b ht.header_page_id_ >>= fun r1 =>
      start ht r1.1 key >>= fun first =>
      probeRead r1.1 r1.2 first.1 >>= fun r2 =>
        if r2.2.IsOccupied first.2 then
          if pairMatch ht r2.2 first.2 key value then
            blockRemove (pinFrame r1.1 r2.1) r2.1 first.2 >>= fun b3 => .ok (true, b3)
          else
            removeLoop ht r1.2 key value first ht.num_buckets_ (pinFrame r1.1 r2.1)
              (advance ht r1.1 first)
        else .ok (false, pinFrame r1.1 r2.1) := by
  unfold Remove
  cases hfd : fetchData b ht.header_page_id_ with
  | error e => rfl
  | ok r1 =>
    have hb1 := fetchData_exhausted_out hb hfd
    cases hs : start ht r1.1 key with
    | error e => simp [bind, Except.bind, hs]
    | ok first =>
      simp only [bind, Except.bind, hs]
      exact fetchBlock_blockAt hb1 r1.2 first.1 (fun b2 bf blk =>
        if blk.IsOccupied first.2 then
          if pairMatch ht blk first.2 key value then
            blockRemove b2 bf first.2 >>= fun b3 => .ok (true, b3)
          else removeLoop ht r1.2 key value first ht.num_buckets_ b2 (advance ht b2 first)
        else .ok (false, b2))

theorem insertAux_eq (ht : LinearProbeHashTable K V) {b : Pool K V} (hb : Exhausted b) (key : K)
    (value : V) (rfuel : Nat) :
    insertAux (rfuel + 1) ht b key value =
      fetchData b ht.header_page_id_ >>= fun r1 =>
      start ht r1.1 key >>= fun first =>
      probeRead r1.1 r1.2 first.1 >>= fun r2 =>
        if !r2.2.IsOccupied first.2 then
          blockInsert (pinFrame r1.1 r2.1) r2.1 first.2 key value >>= fun r => .ok (r.1, ht, r.2)
        else if pairMatch ht r2.2 first.2 key value then .ok (false, ht, pinFrame r1.1 r2.1)
        else
          insertLoop ht r1.2 key value first ht.num_buckets_ (pinFrame r1.1 r2.1)
            (advance ht r1.1 first) >>= insertTail ht r2.1 key value first := by
  rw [insertAux]
  cases hfd : fetchData b ht.header_page_id_ with
  | error e => rfl
  | ok r1 =>
    have hb1 := fetchData_exhausted_out hb hfd
    cases hs : start ht r1.1 key with
    | error e => simp [bind, Except.bind, hs]
    | ok first =>
      simp only [bind, Except.bind, hs]
      refine (fetchBlock_blockAt hb1 r1.2 first.1 (fun b2 bf blk =>
        if !blk.IsOccupied first.2 then
          blockInsert b2 bf first.2 key value >>= fun r => .ok (r.1, ht, r.2)
        else if pairMatch ht blk first.2 key value then .ok (false, ht, b2)
        else
          insertLoop ht r1.2 key value first ht.num_buckets_ b2 (advance ht b2 first) >>=
            fun r3 =>
              match r3.2 with
              | none => .ok (false, ht, r3.1)
              | some pos =>
                if pos = first then
                  Resize ht r3.1 ht.num_buckets_ >>= fun r4 => insertAux rfuel r4.1 r4.2 key value
                else blockInsert r3.1 bf pos.2 key value >>= fun r => .ok (r.1, ht, r.2))).trans ?_
      cases hp : probeRead r1.1 r1.2 first.1 with
      | error e => rfl
      | ok r2 =>
        simp only [bind, Except.bind]
        split
        · rfl
        · split
          · rfl
          · have hb2 : Exhausted (pinFrame r1.1 r2.1) := exhausted_pinFrame hb1 _
            rw [show advance ht (pinFrame r1.1 r2.1) first = advance ht r1.1 first from rfl]
            cases hl : insertLoop ht r1.2 key value first ht.num_buckets_ (pinFrame r1.1 r2.1)
                (advance ht r1.1 first) with
            | error e => rfl
            | ok r3 =>
              have hb3 : Exhausted r3.1 :=
                (insertLoop_samePages ht r1.2 key value first _ _ _ _ hb2 hl).exhausted hb2
              simp only [insertTail]
              cases r3.2 with
              | none => rfl
              | some pos =>
                simp only
                split
                · simp [Resize_exhausted ht hb3]
                · rfl

theorem GetSize_eq (ht : LinearProbeHashTable K V) (b : Pool K V) :
    GetSize ht b =
      fetchData b ht.header_page_id_ >>= fun r1 =>
      headerAt r1.1 r1.2 >>= fun h => .ok (h.GetSize, r1.1) := rfl

end LinearProbeHashTable
end bustub

namespace bustub

namespace HashTableBlockPage
variable {K V : Type}

theorem insert_fst (p : HashTableBlockPage K V) (j : Nat) (k : K) (v : V) :
    (p.Insert j k v).1 = !p.IsOccupied j := by
  unfold Insert IsOccupied; split <;> simp_all

theorem isOccupied_insert {p : HashTableBlockPage K V} {j : Nat} (k : K) (v : V)
    (h : p.IsOccupied j = false) (i : Nat) :
    (p.Insert j k v).2.IsOccupied i = if i = j then true else p.IsOccupied i := by
  unfold IsOccupied at h
  simp only [Insert, h, IsOccupied, Bool.false_eq_true, if_false]
  by_cases hi : i = j
  · subst hi; simp
  · simp [hi, Function.update_noteq hi]

theorem isReadable_insert {p : HashTableBlockPage K V} {j : Nat} (k : K) (v : V)
    (h : p.IsOccupied j = false) (i : Nat) :
    (p.Insert j k v).2.IsReadable i = if i = j then true else p.IsReadable i := by
  unfold IsOccupied at h
  simp only [Insert, h, IsReadable, Bool.false_eq_true, if_false]
  by_cases hi : i = j
  · subst hi; simp
  · simp [hi, Function.update_noteq hi]

theorem array_insert {p : HashTableBlockPage K V} {j : Nat} (k : K) (v : V)
    (h : p.IsOccupied j = false) (i : Nat) :
    (p.Insert j k v).2.array_ i = if i = j then (k, v) else p.array_ i := by
  unfold IsOccupied at h
  simp only [Insert, h, Bool.false_eq_true, if_false]
  by_cases hi : i = j
  · subst hi; simp
  · simp [hi, Function.update_noteq hi]

end HashTableBlockPage

namespace LinearProbeHashTable
open BufferPoolManager

variable {K V : Type} [Inhabited K] [Inhabited V] [DecidableEq V]

theorem pairMatch_insert_ne (ht : LinearProbeHashTable K V) {p : HashTableBlockPage K V}
    {j : Nat} (k : K) (v : V) (h : p.IsOccupied j = false) {i : Nat} (hi : i ≠ j) (key : K)
    (value : V) :
    pairMatch ht (p.Insert j k v).2 i key value = pairMatch ht p i key value := by
  simp [pairMatch, keyMatch, HashTableBlockPage.isReadable_insert k v h,
    HashTableBlockPage.KeyAt, HashTableBlockPage.ValueAt, HashTableBlockPage.array_insert k v h, hi]

theorem pairMatch_insert_self (ht : LinearProbeHashTable K V) {p : HashTableBlockPage K V}
    {j : Nat} (k : K) (v : V) (h : p.IsOccupied j = false) (hcmp : ht.comparator_ k k = 0) :
    pairMatch ht (p.Insert j k v).2 j k v = true := by
  simp [pairMatch, keyMatch, HashTableBlockPage.isReadable_insert k v h,
    HashTableBlockPage.KeyAt, HashTableBlockPage.ValueAt, HashTableBlockPage.array_insert k v h,
    hcmp]

theorem keyMatch_insert_ne (ht : LinearProbeHashTable K V) {p : HashTableBlockPage K V}
    {j : Nat} (k : K) (v : V) (h : p.IsOccupied j = false) {i : Nat} (hi : i ≠ j) (key : K) :
    keyMatch ht (p.Insert j k v).2 i key = keyMatch ht p i key := by
  simp [keyMatch, HashTableBlockPage.isReadable_insert k v h,
    HashTableBlockPage.KeyAt, HashTableBlockPage.array_insert k v h, hi]

theorem StoredAt.stored_exhausted {b c : Pool K V} {g : frame_id_t} {j : Nat} {k : K} {v : V}
    (h : StoredAt b c g j k v) (hb : Exhausted b) : Exhausted c :=
  ⟨h.free.trans hb.1, by rw [h.repl]; exact hb.2⟩

theorem StoredAt.congr {b c b1 c1 : Pool K V} {g : frame_id_t} {j : Nat} {k : K} {v : V}
    (h : StoredAt b c g j k v) (hb : SamePages b b1) (hc : SamePages c c1) :
    StoredAt b1 c1 g j k v := by
  obtain ⟨blk, h1, h2, h3⟩ := h.stored
  refine ⟨?_, ?_, ?_, ?_, ?_, ⟨blk, ?_, h2, ?_⟩⟩
  · rw [hc.pool, h.pool, hb.pool]
  · rw [hc.table, h.table, hb.table]
  · rw [hc.free, h.free, hb.free]
  · rw [hc.repl, h.repl, hb.repl]
  · intro f hf; rw [hc.data, h.other f hf, hb.data]
  · rw [blockAt_congr hb]; exact h1
  · rw [hc.data]; exact h3

theorem storedAt_of_blockInsert {b : Pool K V} {g : frame_id_t} {j : Nat} {k : K} {v : V}
    {r : Bool × Pool K V} (h : blockInsert b g j k v = .ok r) (hr : r.1 = true) :
    StoredAt b r.2 g j k v := by
  unfold blockInsert at h
  cases hblk : blockAt b g with
  | error e => simp [hblk, bind, Except.bind] at h
  | ok blk =>
    simp only [hblk, bind, Except.bind] at h
    split at h
    · next hi =>
      simp only [Except.ok.injEq] at h
      subst h
      rw [HashTableBlockPage.insert_fst] at hi
      refine ⟨rfl, rfl, rfl, rfl, ?_, ⟨blk, hblk, by simpa using hi, ?_⟩⟩
      · intro f hf; simp [setData, Function.update_noteq hf]
      · simp [setData]
    · simp only [Except.ok.injEq] at h
      subst h
      simp at hr

/-- A failed `block_page->Insert` leaves the pool as it is. -/
theorem blockInsert_occupied {b : Pool K V} {g : frame_id_t} {j : Nat} (k : K) (v : V)
    {blk : HashTableBlockPage K V} (h : blockAt b g = .ok blk) (ho : blk.IsOccupied j = true) :
    blockInsert b g j k v = .ok (false, b) := by
  simp [blockInsert, h, bind, Except.bind, HashTableBlockPage.insert_fst, ho]

/-- A header read that yields a block-page id comes from a page that is not a block image. -/
theorem headerAt_ne_blockAt {b : Pool K V} {hf g : frame_id_t} {h : HashTableHeaderPage}
    {hi : Nat} {bid : page_id_t} {blk : HashTableBlockPage K V}
    (h1 : headerAt b hf = .ok h) (h2 : h.GetBlockPageId hi = .ok bid)
    (h3 : blockAt b g = .ok blk) : hf ≠ g := by
  rintro rfl
  unfold headerAt at h1
  unfold blockAt at h3
  cases hd : (b.pages_ hf).data_ with
  | zero =>
    simp only [hd, PageData.asHeader, Except.ok.injEq] at h1
    subst h1
    simp [HashTableHeaderPage.GetBlockPageId] at h2
  | header x => simp [hd, PageData.asBlock] at h3
  | block x => simp [hd, PageData.asHeader] at h1

/-- What a returning `probeRead` read. -/
theorem probeRead_ok {b : Pool K V} {hf : frame_id_t} {hi : Nat}
    {p : frame_id_t × HashTableBlockPage K V} (hp : probeRead b hf hi = .ok p) :
    ∃ hd bid, headerAt b hf = .ok hd ∧ hd.GetBlockPageId hi = .ok bid ∧
      bid ≠ INVALID_PAGE_ID ∧ b.find bid = some p.1 ∧ blockAt b p.1 = .ok p.2 := by
  unfold probeRead at hp
  cases hh : headerAt b hf with
  | error e => simp [hh, bind, Except.bind] at hp
  | ok hd =>
    simp only [hh, bind, Except.bind] at hp
    cases hid : hd.GetBlockPageId hi with
    | error e => simp [hid] at hp
    | ok bid =>
      simp only [hid] at hp
      split at hp
      · simp at hp
      · next hinv =>
        cases hfb : b.find bid with
        | none => simp [hfb] at hp
        | some g1 =>
          simp only [hfb] at hp
          cases hbl : blockAt b g1 with
          | error e => simp [hbl] at hp
          | ok blk1 =>
            simp only [hbl, Except.ok.injEq] at hp
            subst hp
            exact ⟨hd, bid, rfl, hid, hinv, hfb, hbl⟩

theorem probeRead_of {b : Pool K V} {hf : frame_id_t} {hi : Nat} {hd : HashTableHeaderPage}
    {bid : page_id_t} {g : frame_id_t} {blk : HashTableBlockPage K V}
    (h1 : headerAt b hf = .ok hd) (h2 : hd.GetBlockPageId hi = .ok bid)
    (h3 : bid ≠ INVALID_PAGE_ID) (h4 : b.find bid = some g) (h5 : blockAt b g = .ok blk) :
    probeRead b hf hi = .ok (g, blk) := by
  simp [probeRead, h1, h2, h3, h4, h5, bind, Except.bind]

/-- The block image a probe read in frame `g` is the one `StoredAt` names. -/
theorem StoredAt.block_eq {b c : Pool K V} {g : frame_id_t} {j : Nat} {k : K} {v : V}
    (hs : StoredAt b c g j k v) {hf : frame_id_t} {hi : Nat}
    {p : frame_id_t × HashTableBlockPage K V} (hp : probeRead b hf hi = .ok p) (hg : p.1 = g) :
    p.2.IsOccupied j = false := by
  obtain ⟨blk, hb1, hb2, -⟩ := hs.stored
  obtain ⟨_, _, -, -, -, -, hbl⟩ := probeRead_ok hp
  rw [hg, hb1] at hbl
  simp only [Except.ok.injEq] at hbl
  rw [← hbl]; exact hb2

theorem probeRead_storedAt {b c : Pool K V} {g : frame_id_t} {j : Nat} {k : K} {v : V}
    (hs : StoredAt b c g j k v) {hf : frame_id_t} {hi : Nat}
    {r : frame_id_t × HashTableBlockPage K V} (h : probeRead b hf hi = .ok r) :
    probeRead c hf hi = .ok (r.1, if r.1 = g then (r.2.Insert j k v).2 else r.2) := by
  obtain ⟨blk, hb1, hb2, hb3⟩ := hs.stored
  unfold probeRead at h ⊢
  cases hh : headerAt b hf with
  | error e => simp [hh, bind, Except.bind] at h
  | ok hd =>
    simp only [hh, bind, Except.bind] at h
    cases hid : hd.GetBlockPageId hi with
    | error e => simp [hid] at h
    | ok bid =>
      simp only [hid] at h
      have hne : hf ≠ g := headerAt_ne_blockAt hh hid hb1
      have hhc : headerAt c hf = .ok hd := by
        unfold headerAt at hh ⊢; rw [hs.other hf hne]; exact hh
      simp only [hhc, bind, Except.bind, hid]
      split at h
      · simp at h
      · next hinv =>
        simp only [hinv, if_false]
        have hfind : c.find bid = b.find bid := by simp [BufferPoolManager.find, hs.table]
        rw [hfind]
        cases hfb : b.find bid with
        | none => simp [hfb] at h
        | some g1 =>
          simp only [hfb] at h ⊢
          cases hbl : blockAt b g1 with
          | error e => simp [hbl] at h
          | ok blk1 =>
            simp only [hbl, Except.ok.injEq] at h
            subst h
            by_cases hg : g1 = g
            · subst hg
              rw [hb1] at hbl
              simp only [Except.ok.injEq] at hbl
              subst hbl
              simp [blockAt, hb3, PageData.asBlock]
            · have : blockAt c g1 = .ok blk1 := by
                unfold blockAt at hbl ⊢; rw [hs.other g1 hg]; exact hbl
              simp [this, hg]

end LinearProbeHashTable
end bustub

namespace bustub
namespace LinearProbeHashTable
open BufferPoolManager

variable {K V : Type} [Inhabited K] [Inhabited V] [DecidableEq V]

/-- Re-running the loop of `Insert` after the pair has been stored in slot `j` of frame `g`:
the loop either finds the pair or leaves at the position it left at before. -/
theorem insertLoop_storedAt (ht : LinearProbeHashTable K V) (hf : frame_id_t) (k : K) (v : V)
    (first : Nat × Nat) (g : frame_id_t) (j : Nat) (hcmp : ht.comparator_ k k = 0)
    (q : Nat × Nat) (hq : q ≠ first) :
    ∀ (fuel : Nat) (b c : Pool K V) (pos : Nat × Nat) (r : Pool K V × Option (Nat × Nat)),
      Exhausted b → StoredAt b c g j k v →
      insertLoop ht hf k v first fuel b pos = .ok r → r.2 = some q →
      ∃ r1, insertLoop ht hf k v first fuel c pos = .ok r1 ∧ SamePages c r1.1 ∧
        (r1.2 = none ∨ r1.2 = some q) := by
  intro fuel
  induction fuel with
  | zero => intro b c pos r _ _ h; simp [insertLoop] at h
  | succ n ih =>
    intro b c pos r hb hs h hr
    have hc : Exhausted c := hs.stored_exhausted hb
    have hadv : advance ht c pos = advance ht b pos := by simp [advance, GetPoolSize, hs.pool]
    rw [insertLoop_succ ht hf k v first n hb] at h
    rw [insertLoop_succ ht hf k v first n hc]
    by_cases hpos : pos = first
    · simp only [hpos, if_true, Except.ok.injEq] at h
      subst h
      simp only [Option.some.injEq] at hr
      exact absurd hr.symm hq
    · simp only [hpos, if_false] at h ⊢
      cases hp : probeRead b hf pos.1 with
      | error e => simp [hp, bind, Except.bind] at h
      | ok p =>
        simp only [hp, bind, Except.bind] at h
        simp only [probeRead_storedAt hs hp, bind, Except.bind, hadv]
        by_cases hocc : p.2.IsOccupied pos.2 = true
        · -- the slot was occupied before: it is not the slot of the new pair
          simp only [hocc, Bool.not_true, Bool.false_eq_true, if_false] at h
          have hm : pairMatch ht p.2 pos.2 k v = false := by
            by_cases hm : pairMatch ht p.2 pos.2 k v = true
            · simp only [hm, if_true, Except.ok.injEq] at h
              subst h
              simp at hr
            · simpa using hm
          simp only [hm, Bool.false_eq_true, if_false] at h
          obtain ⟨r1, hr1, hsp, hor⟩ := ih (pinFrame b p.1) (pinFrame c p.1) (advance ht b pos) r
            (exhausted_pinFrame hb _)
            (hs.congr (samePages_pinFrame b p.1) (samePages_pinFrame c p.1)) h hr
          refine ⟨r1, ?_, (samePages_pinFrame c p.1).trans hsp, hor⟩
          by_cases hg : p.1 = g
          · have hb2x := hs.block_eq hp hg
            have hj : pos.2 ≠ j := by
              rintro rfl
              rw [hocc] at hb2x
              exact absurd hb2x (by simp)
            simp only [hg, if_true, HashTableBlockPage.isOccupied_insert k v hb2x, hj, if_false, hocc,
              Bool.not_true, Bool.false_eq_true, pairMatch_insert_ne ht k v hb2x hj, hm]
            rw [← hg]; exact hr1
          · simp only [hg, if_false, hocc, Bool.not_true, Bool.false_eq_true, hm]
            exact hr1
        · -- the loop left at this unoccupied slot
          have hocc1 : p.2.IsOccupied pos.2 = false := by simpa using hocc
          simp only [hocc1, Bool.not_false, if_true, Except.ok.injEq] at h
          subst h
          simp only [Option.some.injEq] at hr
          subst hr
          by_cases hg1 : p.1 = g
          · by_cases hj : pos.2 = j
            · subst hj
              simp only [hg1, if_true, HashTableBlockPage.isOccupied_insert k v hocc1, Bool.not_true,
                Bool.false_eq_true, if_false, pairMatch_insert_self ht k v hocc1 hcmp]
              exact ⟨_, rfl, samePages_pinFrame c g, Or.inl rfl⟩
            · have hb2x := hs.block_eq hp hg1
              simp only [hg1, if_true, HashTableBlockPage.isOccupied_insert k v hb2x, hj, if_false,
                hocc1, Bool.not_false]
              exact ⟨_, rfl, by rw [← hg1]; exact samePages_pinFrame c p.1, Or.inr rfl⟩
          · simp only [hg1, if_false, hocc1, Bool.not_false, if_true]
            exact ⟨_, rfl, samePages_pinFrame c p.1, Or.inr rfl⟩

end LinearProbeHashTable
end bustub

namespace bustub
namespace LinearProbeHashTable
open BufferPoolManager

variable {K V : Type} [Inhabited K] [Inhabited V] [DecidableEq V]

theorem start_pool (ht : LinearProbeHashTable K V) {b c : Pool K V}
    (h : c.pool_size_ = b.pool_size_) (key : K) : start ht c key = start ht b key := by
  simp [start, GetPoolSize, h]

theorem advance_pool (ht : LinearProbeHashTable K V) {b c : Pool K V}
    (h : c.pool_size_ = b.pool_size_) (pos : Nat × Nat) : advance ht c pos = advance ht b pos := by
  simp [advance, GetPoolSize, h]

theorem StoredAt.blockAt_new {b c : Pool K V} {g : frame_id_t} {j : Nat} {k : K} {v : V}
    (hs : StoredAt b c g j k v) :
    ∃ blk, blockAt c g = .ok blk ∧ blk.IsOccupied j = true := by
  obtain ⟨blk, _, h2, h3⟩ := hs.stored
  refine ⟨(blk.Insert j k v).2, by simp [blockAt, h3, PageData.asBlock], ?_⟩
  simp [HashTableBlockPage.isOccupied_insert k v h2]

/-- On an exhausted pool an `Insert` that returned `true` is followed by an `Insert` of the
same pair that returns `false` and changes pin counts only. -/
theorem insertAux_twice (ht : LinearProbeHashTable K V) {b : Pool K V} (hb : Exhausted b)
    (k : K) (v : V) (hcmp : ht.comparator_ k k = 0) (n : Nat)
    {ht1 : LinearProbeHashTable K V} {b1 : Pool K V}
    (h : insertAux (n + 1) ht b k v = .ok (true, ht1, b1)) :
    ht1 = ht ∧ Exhausted b1 ∧
      ∃ b2, (∀ m, insertAux (m + 1) ht b1 k v = .ok (false, ht, b2)) ∧ SamePages b1 b2 := by
  rw [insertAux_eq ht hb] at h
  cases hfd : fetchData b ht.header_page_id_ with
  | error e => simp [hfd, bind, Except.bind] at h
  | ok r1 =>
    obtain ⟨hinv, hfind, hr1⟩ := fetchData_ok hb hfd
    have hb1 : Exhausted r1.1 := fetchData_exhausted_out hb hfd
    have hsp1 : SamePages b r1.1 := fetchData_samePages hb hfd
    simp only [hfd, bind, Except.bind] at h
    cases hs : start ht r1.1 k with
    | error e => simp [hs] at h
    | ok first =>
      simp only [hs] at h
      cases hp : probeRead r1.1 r1.2 first.1 with
      | error e => simp [hp] at h
      | ok r2 =>
        simp only [hp] at h
        have hsp2 : SamePages r1.1 (pinFrame r1.1 r2.1) := samePages_pinFrame _ _
        have hb2 : Exhausted (pinFrame r1.1 r2.1) := exhausted_pinFrame hb1 _
        -- the second call up to its first probe, for any pool `b1` obtained by storing the pair
        have second : ∀ (c0 : Pool K V) (j : Nat), SamePages r1.1 c0 → StoredAt c0 b1 r2.1 j k v →
            ∀ m, insertAux (m + 1) ht b1 k v =
              (if !(r2.2.Insert j k v).2.IsOccupied first.2 then
                blockInsert (pinFrame (pinFrame b1 r1.2) r2.1) r2.1 first.2 k v >>=
                  fun r => .ok (r.1, ht, r.2)
              else if pairMatch ht (r2.2.Insert j k v).2 first.2 k v then
                .ok (false, ht, pinFrame (pinFrame b1 r1.2) r2.1)
              else
                insertLoop ht r1.2 k v first ht.num_buckets_ (pinFrame (pinFrame b1 r1.2) r2.1)
                  (advance ht r1.1 first) >>= insertTail ht r2.1 k v first) := by
          intro c0 j hc0 hst m
          have hbc0 : Exhausted c0 := hc0.exhausted hb1
          have hbb1 : Exhausted b1 := hst.stored_exhausted hbc0
          rw [insertAux_eq ht hbb1]
          have hfind1 : b1.find ht.header_page_id_ = some r1.2 := by
            simp only [BufferPoolManager.find, hst.table, hc0.table, hsp1.table]
            exact hfind
          rw [fetchData_of_find hbb1 hinv hfind1]
          have hpool : (pinFrame b1 r1.2).pool_size_ = r1.1.pool_size_ := by
            show b1.pool_size_ = _
            rw [hst.pool, hc0.pool]
          have hst1 : StoredAt r1.1 (pinFrame b1 r1.2) r2.1 j k v :=
            hst.congr hc0.symm (samePages_pinFrame _ _)
          simp only [bind, Except.bind, start_pool ht hpool, hs, probeRead_storedAt hst1 hp,
            if_true, advance_pool ht hpool]
        by_cases hocc : r2.2.IsOccupied first.2 = true
        · simp only [hocc, Bool.not_true, Bool.false_eq_true, if_false] at h
          have hm : pairMatch ht r2.2 first.2 k v = false := by
            by_cases hm : pairMatch ht r2.2 first.2 k v = true
            · simp [hm] at h
            · simpa using hm
          simp only [hm, Bool.false_eq_true, if_false] at h
          cases hl : insertLoop ht r1.2 k v first ht.num_buckets_ (pinFrame r1.1 r2.1)
              (advance ht r1.1 first) with
          | error e => simp [hl] at h
          | ok r3 =>
            simp only [hl, insertTail] at h
            have hsp3 : SamePages (pinFrame r1.1 r2.1) r3.1 :=
              insertLoop_samePages ht r1.2 k v first _ _ _ _ hb2 hl
            cases hr3 : r3.2 with
            | none => simp [hr3] at h
            | some pos =>
              simp only [hr3] at h
              by_cases hpf : pos = first
              · simp [hpf] at h
              · simp only [hpf, if_false] at h
                cases hbi : blockInsert r3.1 r2.1 pos.2 k v with
                | error e => simp [hbi, bind, Except.bind] at h
                | ok r =>
                  simp only [hbi, bind, Except.bind, Except.ok.injEq, Prod.mk.injEq] at h
                  obtain ⟨hrt, hht, hbb⟩ := h
                  have hst : StoredAt r3.1 b1 r2.1 pos.2 k v := by
                    rw [← hbb]; exact storedAt_of_blockInsert hbi hrt
                  have hc0 : SamePages r1.1 r3.1 := hsp2.trans hsp3
                  have hbb1 : Exhausted b1 := hst.stored_exhausted (hc0.exhausted hb1)
                  refine ⟨hht.symm, hbb1, ?_⟩
                  have hst1 : StoredAt r1.1 (pinFrame b1 r1.2) r2.1 pos.2 k v :=
                    hst.congr hc0.symm (samePages_pinFrame _ _)
                  have hfree : r2.2.IsOccupied pos.2 = false := hst1.block_eq hp rfl
                  have hj : first.2 ≠ pos.2 := by
                    intro hj; rw [hj, hfree] at hocc; exact absurd hocc (by simp)
                  -- the loop of the second call
                  have hst2 : StoredAt (pinFrame r1.1 r2.1) (pinFrame (pinFrame b1 r1.2) r2.1) r2.1
                      pos.2 k v :=
                    hst.congr hsp3.symm
                      ((samePages_pinFrame b1 r1.2).trans (samePages_pinFrame _ r2.1))
                  obtain ⟨r4, hr4, hsp4, hor⟩ := insertLoop_storedAt ht r1.2 k v first r2.1 pos.2 hcmp
                    pos hpf _ _ _ _ _ hb2 hst2 hl hr3
                  have hsp14 : SamePages b1 r4.1 :=
                    ((samePages_pinFrame b1 r1.2).trans (samePages_pinFrame _ r2.1)).trans hsp4
                  refine ⟨r4.1, ?_, hsp14⟩
                  intro m
                  rw [second r3.1 pos.2 hc0 hst m]
                  simp only [HashTableBlockPage.isOccupied_insert k v hfree, hj, if_false, hocc,
                    Bool.not_true, Bool.false_eq_true, pairMatch_insert_ne ht k v hfree hj, hm, hr4,
                    bind, Except.bind, insertTail]
                  rcases hor with hor | hor
                  · simp [hor]
                  · obtain ⟨blk, hblk, hblko⟩ := hst.blockAt_new
                    have hblk4 : blockAt r4.1 r2.1 = .ok blk := by
                      rw [blockAt_congr hsp14]; exact hblk
                    simp [hor, hpf, blockInsert_occupied k v hblk4 hblko]
        · have hocc1 : r2.2.IsOccupied first.2 = false := by simpa using hocc
          simp only [hocc1, Bool.not_false, if_true] at h
          cases hbi : blockInsert (pinFrame r1.1 r2.1) r2.1 first.2 k v with
          | error e => simp [hbi] at h
          | ok r =>
            simp only [hbi, Except.ok.injEq, Prod.mk.injEq] at h
            obtain ⟨hrt, hht, hbb⟩ := h
            have hst : StoredAt (pinFrame r1.1 r2.1) b1 r2.1 first.2 k v := by
              rw [← hbb]; exact storedAt_of_blockInsert hbi hrt
            have hbb1 : Exhausted b1 := hst.stored_exhausted hb2
            refine ⟨hht.symm, hbb1, pinFrame (pinFrame b1 r1.2) r2.1, ?_,
              (samePages_pinFrame b1 r1.2).trans (samePages_pinFrame _ r2.1)⟩
            intro m
            rw [second _ first.2 hsp2 hst m]
            simp [HashTableBlockPage.isOccupied_insert k v hocc1,
              pairMatch_insert_self ht k v hocc1 hcmp]

end LinearProbeHashTable
end bustub

namespace bustub
namespace LinearProbeHashTable
open BufferPoolManager

variable {K V : Type} [Inhabited K] [Inhabited V] [DecidableEq V]

/-- The values the loop of `GetValue` collects do not depend on pin counts. -/
theorem getValueLoop_congr (ht : LinearProbeHashTable K V) (hf : frame_id_t) (key : K)
    (first : Nat × Nat) :
    ∀ (fuel : Nat) (b c : Pool K V) (pos : Nat × Nat) (result : List V),
      Exhausted b → SamePages b c →
      (getValueLoop ht hf key first fuel c pos result).map Prod.snd =
        (getValueLoop ht hf key first fuel b pos result).map Prod.snd := by
  intro fuel
  induction fuel with
  | zero => intro b c pos result _ _; rfl
  | succ n ih =>
    intro b c pos result hb hs
    have hc : Exhausted c := hs.exhausted hb
    rw [getValueLoop_succ ht hf key first n hb, getValueLoop_succ ht hf key first n hc,
      probeRead_congr hs, advance_congr ht hs]
    split
    · rfl
    · cases hp : probeRead b hf pos.1 with
      | error e => rfl
      | ok p =>
        simp only [bind, Except.bind]
        split
        · rfl
        · exact ih _ _ _ _ (exhausted_pinFrame hb _)
            (((samePages_pinFrame b p.1).symm.trans hs).trans (samePages_pinFrame c p.1))

/-- The flag and the values `GetValue` returns do not depend on pin counts. -/
theorem GetValue_congr (ht : LinearProbeHashTable K V) {b c : Pool K V} (hb : Exhausted b)
    (hs : SamePages b c) (key : K) (result : List V) :
    (GetValue ht c key result).map (fun r => (r.1, r.2.1)) =
      (GetValue ht b key result).map (fun r => (r.1, r.2.1)) := by
  have hc : Exhausted c := hs.exhausted hb
  rw [GetValue_eq ht hb, GetValue_eq ht hc]
  rw [fetchData_exhausted hb, fetchData_exhausted hc, hs.find_eq]
  split
  · rfl
  · cases hfind : b.find ht.header_page_id_ with
    | none => rfl
    | some hf =>
      have h1 : SamePages (pinFrame b hf) (pinFrame c hf) :=
        ((samePages_pinFrame b hf).symm.trans hs).trans (samePages_pinFrame c hf)
      have hb1 : Exhausted (pinFrame b hf) := exhausted_pinFrame hb _
      simp only [bind, Except.bind, start_congr ht h1, probeRead_congr h1, advance_congr ht h1]
      cases hst : start ht (pinFrame b hf) key with
      | error e => rfl
      | ok first =>
        simp only
        cases hp : probeRead (pinFrame b hf) hf first.1 with
        | error e => rfl
        | ok p =>
          simp only
          split
          · rfl
          · have h2 : SamePages (pinFrame (pinFrame b hf) p.1) (pinFrame (pinFrame c hf) p.1) :=
              ((samePages_pinFrame _ p.1).symm.trans h1).trans (samePages_pinFrame _ p.1)
            have := getValueLoop_congr ht hf key first ht.num_buckets_ _ _
              (advance ht (pinFrame b hf) first)
              (if keyMatch ht p.2 first.2 key then result ++ [p.2.ValueAt first.2] else result)
              (exhausted_pinFrame hb1 p.1) h2
            revert this
            cases getValueLoop ht hf key first ht.num_buckets_ (pinFrame (pinFrame c hf) p.1)
                (advance ht (pinFrame b hf) first)
                (if keyMatch ht p.2 first.2 key then result ++ [p.2.ValueAt first.2] else result) <;>
              cases getValueLoop ht hf key first ht.num_buckets_ (pinFrame (pinFrame b hf) p.1)
                (advance ht (pinFrame b hf) first)
                (if keyMatch ht p.2 first.2 key then result ++ [p.2.ValueAt first.2] else result) <;>
              simp [Except.map]

/-- A returning `GetValue` on an exhausted pool changes pin counts only. -/
theorem GetValue_samePages (ht : LinearProbeHashTable K V) {b : Pool K V} (hb : Exhausted b)
    {key : K} {result : List V} {r : Bool × List V × Pool K V}
    (h : GetValue ht b key result = .ok r) : SamePages b r.2.2 := by
  rw [GetValue_eq ht hb] at h
  cases hfd : fetchData b ht.header_page_id_ with
  | error e => simp [hfd, bind, Except.bind] at h
  | ok r1 =>
    have hb1 := fetchData_exhausted_out hb hfd
    have hsp1 := fetchData_samePages hb hfd
    simp only [hfd, bind, Except.bind] at h
    cases hs : start ht r1.1 key with
    | error e => simp [hs] at h
    | ok first =>
      simp only [hs] at h
      cases hp : probeRead r1.1 r1.2 first.1 with
      | error e => simp [hp] at h
      | ok r2 =>
        simp only [hp] at h
        split at h
        · simp only [Except.ok.injEq] at h
          subst h
          exact hsp1.trans (samePages_pinFrame _ _)
        · cases hl : getValueLoop ht r1.2 key first ht.num_buckets_ (pinFrame r1.1 r2.1)
              (advance ht r1.1 first)
              (if keyMatch ht r2.2 first.2 key then result ++ [r2.2.ValueAt first.2] else result) with
          | error e => simp [hl] at h
          | ok r3 =>
            simp only [hl, Except.ok.injEq] at h
            subst h
            exact (hsp1.trans (samePages_pinFrame _ _)).trans
              (getValueLoop_samePages ht r1.2 key first _ _ _ _ _ (exhausted_pinFrame hb1 _) hl)

theorem GetSize_samePages (ht : LinearProbeHashTable K V) {b : Pool K V} (hb : Exhausted b)
    {r : Nat × Pool K V} (h : GetSize ht b = .ok r) : SamePages b r.2 := by
  rw [GetSize_eq] at h
  cases hfd : fetchData b ht.header_page_id_ with
  | error e => simp [hfd, bind, Except.bind] at h
  | ok r1 =>
    simp only [hfd, bind, Except.bind] at h
    cases hh : headerAt r1.1 r1.2 with
    | error e => simp [hh] at h
    | ok hd =>
      simp only [hh, Except.ok.injEq] at h
      subst h
      exact fetchData_samePages hb hfd

theorem exhausted_setData {b : Pool K V} (hb : Exhausted b) (f : frame_id_t) (d : PageData K V) :
    Exhausted (setData b f d) := hb

theorem blockInsert_exhausted {b : Pool K V} (hb : Exhausted b) {g : frame_id_t} {j : Nat}
    {k : K} {v : V} {r : Bool × Pool K V} (h : blockInsert b g j k v = .ok r) :
    Exhausted r.2 := by
  unfold blockInsert at h
  cases hblk : blockAt b g with
  | error e => simp [hblk, bind, Except.bind] at h
  | ok blk =>
    simp only [hblk, bind, Except.bind] at h
    split at h <;>
    · simp only [Except.ok.injEq] at h
      subst h
      exact hb

theorem blockRemove_exhausted {b : Pool K V} (hb : Exhausted b) {g : frame_id_t} {j : Nat}
    {r : Pool K V} (h : blockRemove b g j = .ok r) : Exhausted r := by
  unfold blockRemove at h
  cases hblk : blockAt b g with
  | error e => simp [hblk, bind, Except.bind] at h
  | ok blk =>
    simp only [hblk, bind, Except.bind, Except.ok.injEq] at h
    subst h
    exact hb

theorem insertAux_exhausted (ht : LinearProbeHashTable K V) {b : Pool K V} (hb : Exhausted b)
    {k : K} {v : V} (n : Nat) {r : Bool × LinearProbeHashTable K V × Pool K V}
    (h : insertAux n ht b k v = .ok r) : r.2.1 = ht ∧ Exhausted r.2.2 := by
  cases n with
  | zero => simp [insertAux] at h
  | succ n =>
    rw [insertAux_eq ht hb] at h
    cases hfd : fetchData b ht.header_page_id_ with
    | error e => simp [hfd, bind, Except.bind] at h
    | ok r1 =>
      have hb1 := fetchData_exhausted_out hb hfd
      simp only [hfd, bind, Except.bind] at h
      cases hs : start ht r1.1 k with
      | error e => simp [hs] at h
      | ok first =>
        simp only [hs] at h
        cases hp : probeRead r1.1 r1.2 first.1 with
        | error e => simp [hp] at h
        | ok r2 =>
          simp only [hp] at h
          have hb2 : Exhausted (pinFrame r1.1 r2.1) := exhausted_pinFrame hb1 _
          split at h
          · cases hbi : blockInsert (pinFrame r1.1 r2.1) r2.1 first.2 k v with
            | error e => simp [hbi] at h
            | ok q =>
              simp only [hbi, Except.ok.injEq] at h
              subst h
              exact ⟨rfl, blockInsert_exhausted hb2 hbi⟩
          · split at h
            · simp only [Except.ok.injEq] at h
              subst h
              exact ⟨rfl, hb2⟩
            · cases hl : insertLoop ht r1.2 k v first ht.num_buckets_ (pinFrame r1.1 r2.1)
                  (advance ht r1.1 first) with
              | error e => simp [hl] at h
              | ok r3 =>
                have hb3 : Exhausted r3.1 :=
                  (insertLoop_samePages ht r1.2 k v first _ _ _ _ hb2 hl).exhausted hb2
                simp only [hl, insertTail] at h
                cases hr3 : r3.2 with
                | none =>
                  simp only [hr3, Except.ok.injEq] at h
                  subst h
                  exact ⟨rfl, hb3⟩
                | some pos =>
                  simp only [hr3] at h
                  split at h
                  · simp at h
                  · cases hbi : blockInsert r3.1 r2.1 pos.2 k v with
                    | error e => simp [hbi, bind, Except.bind] at h
                    | ok q =>
                      simp only [hbi, bind, Except.bind, Except.ok.injEq] at h
                      subst h
                      exact ⟨rfl, blockInsert_exhausted hb3 hbi⟩

theorem removeLoop_exhausted (ht : LinearProbeHashTable K V) (hf : frame_id_t) (key : K)
    (value : V) (first : Nat × Nat) :
    ∀ (fuel : Nat) (b : Pool K V) (pos : Nat × Nat) (r : Bool × Pool K V),
      Exhausted b → removeLoop ht hf key value first fuel b pos = .ok r → Exhausted r.2 := by
  intro fuel
  induction fuel with
  | zero => intro b pos r _ h; simp [removeLoop] at h
  | succ n ih =>
    intro b pos r hb h
    rw [removeLoop_succ ht hf key value first n hb] at h
    split at h
    · simp only [Except.ok.injEq] at h; subst h; exact hb
    · cases hp : probeRead b hf pos.1 with
      | error e => simp [hp, bind, Except.bind] at h
      | ok q =>
        simp only [hp, bind, Except.bind] at h
        have hb1 : Exhausted (pinFrame b q.1) := exhausted_pinFrame hb _
        split at h
        · simp only [Except.ok.injEq] at h; subst h; exact hb1
        · split at h
          · cases hbr : blockRemove (pinFrame b q.1) q.1 pos.2 with
            | error e => simp [hbr] at h
            | ok b2 =>
              simp only [hbr, Except.ok.injEq] at h
              subst h
              exact blockRemove_exhausted hb1 hbr
          · exact ih _ _ _ hb1 h

theorem Remove_exhausted (ht : LinearProbeHashTable K V) {b : Pool K V} (hb : Exhausted b)
    {key : K} {value : V} {r : Bool × Pool K V} (h : Remove ht b key value = .ok r) :
    Exhausted r.2 := by
  rw [Remove_eq ht hb] at h
  cases hfd : fetchData b ht.header_page_id_ with
  | error e => simp [hfd, bind, Except.bind] at h
  | ok r1 =>
    have hb1 := fetchData_exhausted_out hb hfd
    simp only [hfd, bind, Except.bind] at h
    cases hs : start ht r1.1 key with
    | error e => simp [hs] at h
    | ok first =>
      simp only [hs] at h
      cases hp : probeRead r1.1 r1.2 first.1 with
      | error e => simp [hp] at h
      | ok r2 =>
        simp only [hp] at h
        have hb2 : Exhausted (pinFrame r1.1 r2.1) := exhausted_pinFrame hb1 _
        split at h
        · split at h
          · cases hbr : blockRemove (pinFrame r1.1 r2.1) r2.1 first.2 with
            | error e => simp [hbr] at h
            | ok b2 =>
              simp only [hbr, Except.ok.injEq] at h
              subst h
              exact blockRemove_exhausted hb2 hbr
          · exact removeLoop_exhausted ht r1.2 key value first _ _ _ _ hb2 h
        · simp only [Except.ok.injEq] at h
          subst h
          exact hb2

end LinearProbeHashTable
end bustub

namespace bustub

namespace BufferPoolManager
variable {D : Type}

/-- With an empty replacer, `NewPageImpl` takes the head of the free list or fails. -/
theorem NewPageImpl_lists [Inhabited D] (b : BufferPoolManager D) (h : b.replacer_.lst = []) :
    b.NewPageImpl.1.replacer_.lst = [] ∧ b.NewPageImpl.1.free_list_ = b.free_list_.tail := by
  unfold NewPageImpl
  cases hfl : b.free_list_ with
  | nil => simp [ClockReplacer.Victim, h, hfl]
  | cons f rest => simp [DiskManager.AllocatePage, h]

theorem NewPageImpl_pool_size [Inhabited D] (b : BufferPoolManager D) :
    b.NewPageImpl.1.pool_size_ = b.pool_size_ := by
  unfold NewPageImpl
  cases b.free_list_ with
  | cons f rest => rfl
  | nil =>
    simp only
    cases hv : b.replacer_.Victim with
    | mk o r => cases o <;> rfl

end BufferPoolManager

namespace LinearProbeHashTable
open BufferPoolManager

variable {K V : Type} [Inhabited K] [Inhabited V] [DecidableEq V]

theorem headerAdd_lists {b b1 : Pool K V} {f : frame_id_t} {p : page_id_t}
    (h : headerAdd b f p = .ok b1) :
    b1.replacer_ = b.replacer_ ∧ b1.free_list_ = b.free_list_ := by
  unfold headerAdd at h
  cases hh : headerAt b f with
  | error e => simp [hh, bind, Except.bind] at h
  | ok hd =>
    simp only [hh, bind, Except.bind, Except.ok.injEq] at h
    subst h
    exact ⟨rfl, rfl⟩

theorem headerSetSize_lists {b b1 : Pool K V} {f : frame_id_t} {n : Nat}
    (h : headerSetSize b f n = .ok b1) :
    b1.replacer_ = b.replacer_ ∧ b1.free_list_ = b.free_list_ := by
  unfold headerSetSize at h
  cases hh : headerAt b f with
  | error e => simp [hh, bind, Except.bind] at h
  | ok hd =>
    simp only [hh, bind, Except.bind, Except.ok.injEq] at h
    subst h
    exact ⟨rfl, rfl⟩

/-- The loop of the constructor empties the free list when it runs at least as often as
there are free frames. -/
theorem new_loop_exhausted (hf : frame_id_t) (uninit : Nat → page_id_t) :
    ∀ (l : List Nat) (b b1 : Pool K V), b.replacer_.lst = [] → b.free_list_.length ≤ l.length →
      l.foldlM (fun (bp : Pool K V) i =>
        match bp.NewPageImpl with
        | (bq, some (_, block_page_id)) => headerAdd bq hf block_page_id
        | (bq, none) => headerAdd bq hf (uninit i)) b = .ok b1 →
      Exhausted b1 := by
  intro l
  induction l with
  | nil =>
    intro b b1 h1 h2 h
    simp only [List.foldlM, pure, Except.pure, Except.ok.injEq] at h
    subst h
    exact ⟨List.length_eq_zero.mp (Nat.le_zero.mp h2), h1⟩
  | cons i l ih =>
    intro b b1 h1 h2 h
    simp only [List.foldlM, bind, Except.bind] at h
    obtain ⟨hn1, hn2⟩ := NewPageImpl_lists b h1
    split at h
    · simp at h
    · next b2 hstep =>
      refine ih b2 b1 ?_ ?_ h
      · split at hstep
        · next bq _ _ heq =>
          rw [(headerAdd_lists hstep).1]
          rw [heq] at hn1; exact hn1
        · next bq heq =>
          rw [(headerAdd_lists hstep).1]
          rw [heq] at hn1; exact hn1
      · have : b2.free_list_ = b.free_list_.tail := by
          split at hstep
          · next bq _ _ heq =>
            rw [(headerAdd_lists hstep).2]
            rw [heq] at hn2; exact hn2
          · next bq heq =>
            rw [(headerAdd_lists hstep).2]
            rw [heq] at hn2; exact hn2
        rw [this, List.length_tail]
        simp only [List.length_cons] at h2
        omega

/-- The constructor, run on a new buffer pool, leaves the pool exhausted. -/
theorem new_exhausted (pool_size num_buckets : Nat) (comparator : K → K → Int)
    (hash_fn : K → Nat) (uninit : Nat → page_id_t) {ht : LinearProbeHashTable K V}
    {b : Pool K V}
    (h : LinearProbeHashTable.new (BufferPoolManager.new pool_size DiskManager.fresh) comparator
      num_buckets hash_fn uninit = .ok (ht, b)) : Exhausted b := by
  unfold LinearProbeHashTable.new at h
  have hl := NewPageImpl_lists (BufferPoolManager.new pool_size (DiskManager.fresh : DiskManager (PageData K V)))
    rfl
  split at h
  · simp at h
  · next b1 hf hid heq =>
    rw [heq] at hl
    simp only [bind, Except.bind] at h
    split at h
    · simp at h
    · next b2 hss =>
      split at h
      · simp at h
      · next b3 hfold =>
        simp only [Except.ok.injEq, Prod.mk.injEq] at h
        rw [← h.2]
        refine new_loop_exhausted hf uninit _ b2 b3 ?_ ?_ hfold
        · rw [(headerSetSize_lists hss).1]; exact hl.1
        · rw [(headerSetSize_lists hss).2, hl.2]
          have hps : b2.GetPoolSize = pool_size := by
            unfold headerSetSize at hss
            cases hh : headerAt b1 hf with
            | error e => simp [hh, bind, Except.bind] at hss
            | ok hd =>
              simp only [hh, bind, Except.bind, Except.ok.injEq] at hss
              subst hss
              show b1.pool_size_ = pool_size
              have : b1 = (BufferPoolManager.new pool_size
                  (DiskManager.fresh : DiskManager (PageData K V))).NewPageImpl.1 := by rw [heq]
              rw [this, NewPageImpl_pool_size]
              rfl
          simp [hps, BufferPoolManager.new]

/-- Every reachable pool is exhausted. -/
theorem Reachable.pool_exhausted {ht : LinearProbeHashTable K V} {b : Pool K V}
    (h : Reachable ht b) : Exhausted b := by
  induction h with
  | construct pool_size num_buckets comparator hash_fn uninit ht b h =>
    exact new_exhausted pool_size num_buckets comparator hash_fn uninit h
  | insert ht ht1 b b1 key value r _ h ih =>
    exact (insertAux_exhausted ht ih _ h).2
  | remove ht b b1 key value r _ h ih => exact Remove_exhausted ht ih h
  | getValue ht b b1 key result res r _ h ih => exact (GetValue_samePages ht ih h).exhausted ih
  | getSize ht b b1 n _ h ih => exact (GetSize_samePages ht ih h).exhausted ih

end LinearProbeHashTable
end bustub

namespace bustub

namespace BufferPoolManager
variable {D : Type}

theorem PinLe.pin_refl (b : BufferPoolManager D) : PinLe b b := fun _ => Nat.le_refl _

theorem PinLe.pin_trans {a b c : BufferPoolManager D} (h1 : PinLe a b) (h2 : PinLe b c) :
    PinLe a c := fun f => Nat.le_trans (h1 f) (h2 f)

/-- The step `pin_count_++` on one frame, whatever else is assigned to the frame. -/
theorem pinLe_update (b : BufferPoolManager D) (pages : frame_id_t → Page D) (f : frame_id_t)
    (p : Page D) (hp : (pages f).pin_count_ ≤ p.pin_count_)
    (hpages : ∀ g, (b.pages_ g).pin_count_ ≤ (pages g).pin_count_) (g : frame_id_t) :
    (b.pages_ g).pin_count_ ≤ (Function.update pages f p g).pin_count_ := by
  by_cases hg : g = f
  · subst hg; simp only [Function.update_same]; exact Nat.le_trans (hpages g) hp
  · simp only [Function.update_noteq hg]; exact hpages g

theorem FetchPageImpl_pinLe (b : BufferPoolManager D) (p : page_id_t) :
    PinLe b (b.FetchPageImpl p).1 ∧
      ∀ f, (b.FetchPageImpl p).2 = some f →
        (b.pages_ f).pin_count_ < ((b.FetchPageImpl p).1.pages_ f).pin_count_ := by
  unfold FetchPageImpl
  split
  · exact ⟨PinLe.pin_refl b, fun f h => by simp at h⟩
  · split
    · next frame_id _ =>
      refine ⟨fun g => pinLe_update b b.pages_ frame_id _ (by simp) (fun _ => Nat.le_refl _) g, ?_⟩
      intro f hf
      simp only [Option.some.injEq] at hf
      subst hf
      simp
    · split
      · next frame_id rest _ =>
        refine ⟨fun g => pinLe_update b b.pages_ frame_id _ (by simp) (fun _ => Nat.le_refl _) g, ?_⟩
        intro f hf
        simp only [Option.some.injEq] at hf
        subst hf
        simp
      · split
        · exact ⟨PinLe.pin_refl b, fun f h => by simp at h⟩
        · next frame_id r _ =>
          refine ⟨fun g => pinLe_update b b.pages_ frame_id _ (by simp) (fun _ => Nat.le_refl _) g, ?_⟩
          intro f hf
          simp only [Option.some.injEq] at hf
          subst hf
          simp

theorem NewPageImpl_pinLe [Inhabited D] (b : BufferPoolManager D) :
    PinLe b b.NewPageImpl.1 := by
  unfold NewPageImpl
  cases b.free_list_ with
  | cons frame_id rest =>
    exact fun g => pinLe_update b b.pages_ frame_id _ (by simp) (fun _ => Nat.le_refl _) g
  | nil =>
    simp only
    cases hv : b.replacer_.Victim with
    | mk o r =>
      cases o with
      | none => exact PinLe.pin_refl b
      | some frame_id =>
        intro g
        simp only [DiskManager.AllocatePage]
        by_cases hg : g = frame_id
        · subst hg; simp
        · simp [Function.update_noteq hg]

end BufferPoolManager

namespace LinearProbeHashTable
open BufferPoolManager

variable {K V : Type} [Inhabited K] [Inhabited V] [DecidableEq V]

theorem setData_pinLe (b : Pool K V) (f : frame_id_t) (d : PageData K V) :
    PinLe b (setData b f d) := by
  intro g
  by_cases hg : g = f
  · subst hg; simp [setData]
  · simp [setData, Function.update_noteq hg]

theorem fetchData_pinLe {b : Pool K V} {p : page_id_t} {r : Pool K V × frame_id_t}
    (h : fetchData b p = .ok r) :
    PinLe b r.1 ∧ (b.pages_ r.2).pin_count_ < (r.1.pages_ r.2).pin_count_ := by
  unfold fetchData at h
  have := FetchPageImpl_pinLe b p
  split at h
  · next b1 f heq =>
    simp only [Except.ok.injEq] at h
    subst h
    rw [heq] at this
    exact ⟨this.1, this.2 f rfl⟩
  · simp at h

theorem headerAdd_pinLe {b b1 : Pool K V} {f : frame_id_t} {p : page_id_t}
    (h : headerAdd b f p = .ok b1) : PinLe b b1 := by
  unfold headerAdd at h
  cases hh : headerAt b f with
  | error e => simp [hh, bind, Except.bind] at h
  | ok hd =>
    simp only [hh, bind, Except.bind, Except.ok.injEq] at h
    subst h
    exact setData_pinLe _ _ _

theorem headerSetSize_pinLe {b b1 : Pool K V} {f : frame_id_t} {n : Nat}
    (h : headerSetSize b f n = .ok b1) : PinLe b b1 := by
  unfold headerSetSize at h
  cases hh : headerAt b f with
  | error e => simp [hh, bind, Except.bind] at h
  | ok hd =>
    simp only [hh, bind, Except.bind, Except.ok.injEq] at h
    subst h
    exact setData_pinLe _ _ _

theorem blockInsert_pinLe {b : Pool K V} {g : frame_id_t} {j : Nat} {k : K} {v : V}
    {r : Bool × Pool K V} (h : blockInsert b g j k v = .ok r) : PinLe b r.2 := by
  unfold blockInsert at h
  cases hblk : blockAt b g with
  | error e => simp [hblk, bind, Except.bind] at h
  | ok blk =>
    simp only [hblk, bind, Except.bind] at h
    split at h <;> simp only [Except.ok.injEq] at h <;> subst h
    · exact setData_pinLe _ _ _
    · exact PinLe.pin_refl _

theorem blockRemove_pinLe {b : Pool K V} {g : frame_id_t} {j : Nat} {r : Pool K V}
    (h : blockRemove b g j = .ok r) : PinLe b r := by
  unfold blockRemove at h
  cases hblk : blockAt b g with
  | error e => simp [hblk, bind, Except.bind] at h
  | ok blk =>
    simp only [hblk, bind, Except.bind, Except.ok.injEq] at h
    subst h
    exact setData_pinLe _ _ _

theorem fetchBlock_pinLe {b : Pool K V} {hf : frame_id_t} {hi : Nat}
    {r : Pool K V × frame_id_t} (h : fetchBlock b hf hi = .ok r) : PinLe b r.1 := by
  unfold fetchBlock at h
  cases hh : headerAt b hf with
  | error e => simp [hh, bind, Except.bind] at h
  | ok hd =>
    simp only [hh, bind, Except.bind] at h
    cases hid : hd.GetBlockPageId hi with
    | error e => simp [hid] at h
    | ok bid =>
      simp only [hid] at h
      exact (fetchData_pinLe h).1

theorem getValueLoop_pinLe (ht : LinearProbeHashTable K V) (hf : frame_id_t) (key : K)
    (first : Nat × Nat) :
    ∀ (fuel : Nat) (b : Pool K V) (pos : Nat × Nat) (result : List V) (r : Pool K V × List V),
      getValueLoop ht hf key first fuel b pos result = .ok r → PinLe b r.1 := by
  intro fuel
  induction fuel with
  | zero => intro b pos result r h; simp [getValueLoop] at h
  | succ n ih =>
    intro b pos result r h
    rw [getValueLoop] at h
    split at h
    · simp only [Except.ok.injEq] at h; subst h; exact PinLe.pin_refl b
    · cases hfb : fetchBlock b hf pos.1 with
      | error e => simp [hfb, bind, Except.bind] at h
      | ok q =>
        simp only [hfb, bind, Except.bind] at h
        have h1 := fetchBlock_pinLe hfb
        cases hblk : blockAt q.1 q.2 with
        | error e => simp [hblk] at h
        | ok blk =>
          simp only [hblk] at h
          split at h
          · simp only [Except.ok.injEq] at h; subst h; exact h1
          · exact h1.pin_trans (ih _ _ _ _ h)

theorem insertLoop_pinLe (ht : LinearProbeHashTable K V) (hf : frame_id_t) (key : K) (value : V)
    (first : Nat × Nat) :
    ∀ (fuel : Nat) (b : Pool K V) (pos : Nat × Nat) (r : Pool K V × Option (Nat × Nat)),
      insertLoop ht hf key value first fuel b pos = .ok r → PinLe b r.1 := by
  intro fuel
  induction fuel with
  | zero => intro b pos r h; simp [insertLoop] at h
  | succ n ih =>
    intro b pos r h
    rw [insertLoop] at h
    split at h
    · simp only [Except.ok.injEq] at h; subst h; exact PinLe.pin_refl b
    · cases hfb : fetchBlock b hf pos.1 with
      | error e => simp [hfb, bind, Except.bind] at h
      | ok q =>
        simp only [hfb, bind, Except.bind] at h
        have h1 := fetchBlock_pinLe hfb
        cases hblk : blockAt q.1 q.2 with
        | error e => simp [hblk] at h
        | ok blk =>
          simp only [hblk] at h
          split at h
          · simp only [Except.ok.injEq] at h; subst h; exact h1
          · split at h
            · simp only [Except.ok.injEq] at h; subst h; exact h1
            · exact h1.pin_trans (ih _ _ _ h)

theorem removeLoop_pinLe (ht : LinearProbeHashTable K V) (hf : frame_id_t) (key : K) (value : V)
    (first : Nat × Nat) :
    ∀ (fuel : Nat) (b : Pool K V) (pos : Nat × Nat) (r : Bool × Pool K V),
      removeLoop ht hf key value first fuel b pos = .ok r → PinLe b r.2 := by
  intro fuel
  induction fuel with
  | zero => intro b pos r h; simp [removeLoop] at h
  | succ n ih =>
    intro b pos r h
    rw [removeLoop] at h
    split at h
    · simp only [Except.ok.injEq] at h; subst h; exact PinLe.pin_refl b
    · cases hfb : fetchBlock b hf pos.1 with
      | error e => simp [hfb, bind, Except.bind] at h
      | ok q =>
        simp only [hfb, bind, Except.bind] at h
        have h1 := fetchBlock_pinLe hfb
        cases hblk : blockAt q.1 q.2 with
        | error e => simp [hblk] at h
        | ok blk =>
          simp only [hblk] at h
          split at h
          · simp only [Except.ok.injEq] at h; subst h; exact h1
          · split at h
            · cases hbr : blockRemove q.1 q.2 pos.2 with
              | error e => simp [hbr] at h
              | ok b2 =>
                simp only [hbr, Except.ok.injEq] at h
                subst h
                exact h1.pin_trans (blockRemove_pinLe hbr)
            · exact h1.pin_trans (ih _ _ _ h)

/-- A monadic fold whose steps never lower a pin count never lowers a pin count. -/
theorem foldlM_pinLe {α : Type} (step : Pool K V → α → Except Fault (Pool K V))
    (hstep : ∀ b a b1, step b a = .ok b1 → PinLe b b1) :
    ∀ (l : List α) (b b1 : Pool K V), l.foldlM step b = .ok b1 → PinLe b b1 := by
  intro l
  induction l with
  | nil =>
    intro b b1 h
    simp only [List.foldlM, pure, Except.pure, Except.ok.injEq] at h
    subst h; exact PinLe.pin_refl b
  | cons a l ih =>
    intro b b1 h
    simp only [List.foldlM, bind, Except.bind] at h
    cases hs : step b a with
    | error e => simp [hs] at h
    | ok b2 =>
      simp only [hs] at h
      exact (hstep b a b2 hs).pin_trans (ih b2 b1 h)

theorem resizeStep_pinLe (ht : LinearProbeHashTable K V) (hf nf : frame_id_t) (b b1 : Pool K V)
    (i : Nat) (h : resizeStep ht hf nf b i = .ok b1) : PinLe b b1 := by
  unfold resizeStep at h
  cases hh : headerAt b hf with
  | error e => simp [hh, bind, Except.bind] at h
  | ok hd =>
    simp only [hh, bind, Except.bind] at h
    cases h1 : hd.GetBlockPageId i with
    | error e => simp [h1] at h
    | ok id1 =>
      simp only [h1] at h
      cases h2 : hd.GetBlockPageId (i + 1) with
      | error e => simp [h2] at h
      | ok id2 =>
        simp only [h2] at h
        cases hf1 : fetchData b id1 with
        | error e => simp [hf1] at h
        | ok r1 =>
          simp only [hf1] at h
          cases hf2 : fetchData r1.1 id2 with
          | error e => simp [hf2] at h
          | ok r2 =>
            simp only [hf2] at h
            split at h
            · simp at h
            · next b3 hfold =>
              refine (((fetchData_pinLe hf1).1.pin_trans (fetchData_pinLe hf2).1).pin_trans
                (foldlM_pinLe _ ?_ _ _ _ hfold)).pin_trans (headerAdd_pinLe h)
              intro bp j bq hq
              simp only [bind, Except.bind] at hq
              cases hb2 : blockAt bp r2.2 with
              | error e => simp [hb2] at hq
              | ok blk2 =>
                simp only [hb2] at hq
                cases hbi : blockInsert bp r1.2 (ht.num_buckets_ / bp.GetPoolSize + j)
                    (blk2.KeyAt j) (blk2.ValueAt j) with
                | error e => simp [hbi] at hq
                | ok q =>
                  simp only [hbi, Except.ok.injEq] at hq
                  subst hq
                  exact blockInsert_pinLe hbi

theorem Resize_pinLe (ht : LinearProbeHashTable K V) {b : Pool K V} {n : Nat}
    {r : LinearProbeHashTable K V × Pool K V} (h : Resize ht b n = .ok r) : PinLe b r.2 := by
  unfold Resize at h
  cases hfd : fetchData b ht.header_page_id_ with
  | error e => simp [hfd, bind, Except.bind] at h
  | ok r1 =>
    simp only [hfd, bind, Except.bind] at h
    have hn := NewPageImpl_pinLe r1.1
    split at h
    · simp at h
    · next b2 nf new_page_id heq =>
      rw [heq] at hn
      split at h
      · simp at h
      · next b3 hss =>
        split at h
        · simp at h
        · next b4 hfold =>
          simp only [Except.ok.injEq] at h
          subst h
          exact (((fetchData_pinLe hfd).1.pin_trans hn).pin_trans (headerSetSize_pinLe hss)).pin_trans
            (foldlM_pinLe _ (fun bp t bq hq => resizeStep_pinLe ht r1.2 nf bp bq (2 * t) hq) _ _ _ hfold)

end LinearProbeHashTable
end bustub

namespace bustub
namespace LinearProbeHashTable
open BufferPoolManager

variable {K V : Type} [Inhabited K] [Inhabited V] [DecidableEq V]

/-- The pool `c` has no lower pin count than `b` and a higher one on some frame. -/
theorem pinned_of {b b1 c : Pool K V} {f : frame_id_t}
    (h1 : PinLe b b1 ∧ (b.pages_ f).pin_count_ < (b1.pages_ f).pin_count_) (h2 : PinLe b1 c) :
    PinLe b c ∧ ∃ g, (b.pages_ g).pin_count_ < (c.pages_ g).pin_count_ :=
  ⟨h1.1.pin_trans h2, f, Nat.lt_of_lt_of_le h1.2 (h2 f)⟩

theorem GetSize_pins (ht : LinearProbeHashTable K V) {b : Pool K V} {r : Nat × Pool K V}
    (h : GetSize ht b = .ok r) :
    PinLe b r.2 ∧ ∃ g, (b.pages_ g).pin_count_ < (r.2.pages_ g).pin_count_ := by
  unfold GetSize at h
  cases hfd : fetchData b ht.header_page_id_ with
  | error e => simp [hfd, bind, Except.bind] at h
  | ok r1 =>
    simp only [hfd, bind, Except.bind] at h
    cases hh : headerAt r1.1 r1.2 with
    | error e => simp [hh] at h
    | ok hd =>
      simp only [hh, Except.ok.injEq] at h
      subst h
      exact pinned_of (fetchData_pinLe hfd) (PinLe.pin_refl _)

theorem GetValue_pins (ht : LinearProbeHashTable K V) {b : Pool K V} {key : K} {result : List V}
    {r : Bool × List V × Pool K V} (h : GetValue ht b key result = .ok r) :
    PinLe b r.2.2 ∧ ∃ g, (b.pages_ g).pin_count_ < (r.2.2.pages_ g).pin_count_ := by
  unfold GetValue at h
  cases hfd : fetchData b ht.header_page_id_ with
  | error e => simp [hfd, bind, Except.bind] at h
  | ok r1 =>
    simp only [hfd, bind, Except.bind] at h
    cases hs : start ht r1.1 key with
    | error e => simp [hs] at h
    | ok first =>
      simp only [hs] at h
      cases hfb : fetchBlock r1.1 r1.2 first.1 with
      | error e => simp [hfb] at h
      | ok r2 =>
        simp only [hfb] at h
        cases hblk : blockAt r2.1 r2.2 with
        | error e => simp [hblk] at h
        | ok blk =>
          simp only [hblk] at h
          split at h
          · simp only [Except.ok.injEq] at h
            subst h
            exact pinned_of (fetchData_pinLe hfd) (fetchBlock_pinLe hfb)
          · split at h
            · simp at h
            · next r3 hl =>
              simp only [Except.ok.injEq] at h
              subst h
              exact pinned_of (fetchData_pinLe hfd)
                ((fetchBlock_pinLe hfb).pin_trans (getValueLoop_pinLe ht _ _ _ _ _ _ _ _ hl))

theorem Remove_pins (ht : LinearProbeHashTable K V) {b : Pool K V} {key : K} {value : V}
    {r : Bool × Pool K V} (h : Remove ht b key value = .ok r) :
    PinLe b r.2 ∧ ∃ g, (b.pages_ g).pin_count_ < (r.2.pages_ g).pin_count_ := by
  unfold Remove at h
  cases hfd : fetchData b ht.header_page_id_ with
  | error e => simp [hfd, bind, Except.bind] at h
  | ok r1 =>
    simp only [hfd, bind, Except.bind] at h
    cases hs : start ht r1.1 key with
    | error e => simp [hs] at h
    | ok first =>
      simp only [hs] at h
      cases hfb : fetchBlock r1.1 r1.2 first.1 with
      | error e => simp [hfb] at h
      | ok r2 =>
        simp only [hfb] at h
        cases hblk : blockAt r2.1 r2.2 with
        | error e => simp [hblk] at h
        | ok blk =>
          simp only [hblk] at h
          split at h
          · split at h
            · cases hbr : blockRemove r2.1 r2.2 first.2 with
              | error e => simp [hbr] at h
              | ok b3 =>
                simp only [hbr, Except.ok.injEq] at h
                subst h
                exact pinned_of (fetchData_pinLe hfd)
                  ((fetchBlock_pinLe hfb).pin_trans (blockRemove_pinLe hbr))
            · exact pinned_of (fetchData_pinLe hfd)
                ((fetchBlock_pinLe hfb).pin_trans (removeLoop_pinLe ht _ _ _ _ _ _ _ _ h))
          · simp only [Except.ok.injEq] at h
            subst h
            exact pinned_of (fetchData_pinLe hfd) (fetchBlock_pinLe hfb)

theorem insertAux_pins :
    ∀ (n : Nat) (ht : LinearProbeHashTable K V) (b : Pool K V) (key : K) (value : V)
      (r : Bool × LinearProbeHashTable K V × Pool K V),
      insertAux n ht b key value = .ok r →
      PinLe b r.2.2 ∧ ∃ g, (b.pages_ g).pin_count_ < (r.2.2.pages_ g).pin_count_ := by
  intro n
  induction n with
  | zero => intro ht b key value r h; simp [insertAux] at h
  | succ n ih =>
    intro ht b key value r h
    rw [insertAux] at h
    cases hfd : fetchData b ht.header_page_id_ with
    | error e => simp [hfd, bind, Except.bind] at h
    | ok r1 =>
      simp only [hfd, bind, Except.bind] at h
      cases hs : start ht r1.1 key with
      | error e => simp [hs] at h
      | ok first =>
        simp only [hs] at h
        cases hfb : fetchBlock r1.1 r1.2 first.1 with
        | error e => simp [hfb] at h
        | ok r2 =>
          simp only [hfb] at h
          cases hblk : blockAt r2.1 r2.2 with
          | error e => simp [hblk] at h
          | ok blk =>
            simp only [hblk] at h
            split at h
            · cases hbi : blockInsert r2.1 r2.2 first.2 key value with
              | error e => simp [hbi] at h
              | ok q =>
                simp only [hbi, Except.ok.injEq] at h
                subst h
                exact pinned_of (fetchData_pinLe hfd)
                  ((fetchBlock_pinLe hfb).pin_trans (blockInsert_pinLe hbi))
            · split at h
              · simp only [Except.ok.injEq] at h
                subst h
                exact pinned_of (fetchData_pinLe hfd) (fetchBlock_pinLe hfb)
              · cases hl : insertLoop ht r1.2 key value first ht.num_buckets_ r2.1
                    (advance ht r2.1 first) with
                | error e => simp [hl] at h
                | ok r3 =>
                  simp only [hl] at h
                  have h3 := (fetchBlock_pinLe hfb).pin_trans (insertLoop_pinLe ht _ _ _ _ _ _ _ _ hl)
                  split at h
                  · simp only [Except.ok.injEq] at h
                    subst h
                    exact pinned_of (fetchData_pinLe hfd) h3
                  · next pos _ =>
                    split at h
                    · cases hrz : Resize ht r3.1 ht.num_buckets_ with
                      | error e => simp [hrz] at h
                      | ok r4 =>
                        simp only [hrz] at h
                        exact pinned_of (fetchData_pinLe hfd)
                          ((h3.pin_trans (Resize_pinLe ht hrz)).pin_trans (ih _ _ _ _ _ h).1)
                    · cases hbi : blockInsert r3.1 r2.2 pos.2 key value with
                      | error e => simp [hbi] at h
                      | ok q =>
                        simp only [hbi, Except.ok.injEq] at h
                        subst h
                        exact pinned_of (fetchData_pinLe hfd) (h3.pin_trans (blockInsert_pinLe hbi))

end LinearProbeHashTable
end bustub

namespace bustub

namespace BufferPoolManager
variable {D : Type}

theorem FetchPageImpl_pool_size (b : BufferPoolManager D) (p : page_id_t) :
    (b.FetchPageImpl p).1.pool_size_ = b.pool_size_ := by
  unfold FetchPageImpl
  split
  · rfl
  · split
    · rfl
    · split
      · rfl
      · split <;> rfl

end BufferPoolManager

namespace LinearProbeHashTable
open BufferPoolManager

variable {K V : Type} [Inhabited K] [Inhabited V] [DecidableEq V]

/-! ### The probe closes its cycle within the fuel -/

theorem probeIndex_lt {P B : Nat} {pos : Nat × Nat} (h1 : pos.1 < P) (h2 : pos.2 < B) :
    probeIndex B pos < P * B := by
  unfold probeIndex
  calc pos.1 * B + pos.2 < pos.1 * B + B := by omega
    _ = (pos.1 + 1) * B := by ring
    _ ≤ P * B := Nat.mul_le_mul_right B h1

theorem probeIndex_inj {B : Nat} {p q : Nat × Nat} (hp : p.2 < B) (hq : q.2 < B)
    (h : probeIndex B p = probeIndex B q) : p = q := by
  unfold probeIndex at h
  have hB : 0 < B := by omega
  have h1 : (p.1 * B + p.2) / B = p.1 := by
    rw [Nat.add_comm, Nat.add_mul_div_right _ _ hB, Nat.div_eq_of_lt hp, Nat.zero_add]
  have h2 : (q.1 * B + q.2) / B = q.1 := by
    rw [Nat.add_comm, Nat.add_mul_div_right _ _ hB, Nat.div_eq_of_lt hq, Nat.zero_add]
  have h3 : p.1 = q.1 := by rw [← h1, ← h2, h]
  have h4 : p.2 = q.2 := by rw [h3] at h; omega
  exact Prod.ext h3 h4

/-- The slot number after one probe step. -/
theorem probeIndex_advance (ht : LinearProbeHashTable K V) (b : Pool K V) {pos : Nat × Nat}
    (h1 : pos.1 < b.pool_size_) (h2 : pos.2 < ht.num_buckets_ / b.pool_size_) :
    (advance ht b pos).1 < b.pool_size_ ∧ (advance ht b pos).2 < ht.num_buckets_ / b.pool_size_ ∧
    probeIndex (ht.num_buckets_ / b.pool_size_) (advance ht b pos) =
      if probeIndex (ht.num_buckets_ / b.pool_size_) pos + 1
          < b.pool_size_ * (ht.num_buckets_ / b.pool_size_)
      then probeIndex (ht.num_buckets_ / b.pool_size_) pos + 1 else 0 := by
  unfold advance GetPoolSize
  generalize ht.num_buckets_ / b.pool_size_ = B at *
  generalize b.pool_size_ = P at *
  by_cases hlt : pos.2 < B - 1
  · simp only [hlt, if_true]
    refine ⟨h1, by omega, ?_⟩
    have : probeIndex B (pos.1, pos.2 + 1) < P * B := @probeIndex_lt P B (pos.1, pos.2 + 1) h1 (by simp; omega)
    have e : probeIndex B (pos.1, pos.2 + 1) = probeIndex B pos + 1 := by
      simp [probeIndex]; omega
    rw [e] at this ⊢
    simp [this]
  · simp only [hlt, if_false]
    have hB : pos.2 = B - 1 := by omega
    have hP : 0 < P := by omega
    refine ⟨Nat.mod_lt _ hP, by omega, ?_⟩
    by_cases hw : pos.1 + 1 < P
    · rw [Nat.mod_eq_of_lt hw]
      have e : probeIndex B (pos.1 + 1, 0) = probeIndex B pos + 1 := by
        simp only [probeIndex, Nat.add_zero, hB]
        have : (pos.1 + 1) * B = pos.1 * B + B := by ring
        omega
      have : probeIndex B (pos.1 + 1, 0) < P * B := @probeIndex_lt P B (pos.1 + 1, 0) hw (by simp; omega)
      rw [e] at this ⊢
      simp [this]
    · have hP1 : pos.1 + 1 = P := by omega
      rw [hP1, Nat.mod_self]
      have e : probeIndex B pos + 1 = P * B := by
        simp only [probeIndex, hB]
        have : P * B = pos.1 * B + B := by rw [← hP1]; ring
        omega
      rw [e]
      simp [probeIndex]

/-- One probe step from a slot other than the first brings the probe one step closer. -/
theorem probeDist_step {m a i : Nat} (hi : i < m) (ha : a < m) (hne : i ≠ a) :
    probeDist m a (if i + 1 < m then i + 1 else 0) + 1 = probeDist m a i := by
  unfold probeDist
  by_cases h1 : i + 1 < m
  · simp only [h1, if_true]
    split <;> split <;> omega
  · simp only [h1, if_false, Nat.zero_le, if_true]
    split <;> omega

theorem probeDist_lt {m a i : Nat} (hi : i < m) (ha : a < m) : probeDist m a i < m := by
  unfold probeDist; split <;> omega

theorem fetchData_pool_size {b : Pool K V} {p : page_id_t} {r : Pool K V × frame_id_t}
    (h : fetchData b p = .ok r) : r.1.pool_size_ = b.pool_size_ := by
  unfold fetchData at h
  have := FetchPageImpl_pool_size b p
  split at h
  · next b1 f heq =>
    simp only [Except.ok.injEq] at h
    subst h
    rw [heq] at this
    exact this
  · simp at h

theorem fetchData_error {b : Pool K V} {p : page_id_t} {e : Fault}
    (h : fetchData b p = .error e) : e = .nullDeref := by
  unfold fetchData at h
  split at h
  · simp at h
  · simp only [Except.error.injEq] at h; exact h.symm

theorem headerAt_error {b : Pool K V} {f : frame_id_t} {e : Fault}
    (h : headerAt b f = .error e) : e = .badCast := by
  unfold headerAt PageData.asHeader at h
  split at h <;> simp_all

theorem blockAt_error {b : Pool K V} {f : frame_id_t} {e : Fault}
    (h : blockAt b f = .error e) : e = .badCast := by
  unfold blockAt PageData.asBlock at h
  split at h <;> simp_all

theorem getBlockPageId_error {hd : HashTableHeaderPage} {i : Nat} {e : Fault}
    (h : hd.GetBlockPageId i = .error e) : e = .outOfRange := by
  unfold HashTableHeaderPage.GetBlockPageId at h
  split at h <;> simp_all

theorem fetchBlock_error {b : Pool K V} {hf : frame_id_t} {hi : Nat} {e : Fault}
    (h : fetchBlock b hf hi = .error e) : e ≠ .outOfFuel := by
  unfold fetchBlock at h
  cases hh : headerAt b hf with
  | error e1 =>
    simp only [hh, bind, Except.bind, Except.error.injEq] at h
    rw [← h, headerAt_error hh]; decide
  | ok hd =>
    simp only [hh, bind, Except.bind] at h
    cases hid : hd.GetBlockPageId hi with
    | error e1 =>
      simp only [hid, Except.error.injEq] at h
      rw [← h, getBlockPageId_error hid]; decide
    | ok bid =>
      simp only [hid] at h
      rw [fetchData_error h]; decide

theorem fetchBlock_pool_size {b : Pool K V} {hf : frame_id_t} {hi : Nat}
    {r : Pool K V × frame_id_t} (h : fetchBlock b hf hi = .ok r) :
    r.1.pool_size_ = b.pool_size_ := by
  unfold fetchBlock at h
  cases hh : headerAt b hf with
  | error e => simp [hh, bind, Except.bind] at h
  | ok hd =>
    simp only [hh, bind, Except.bind] at h
    cases hid : hd.GetBlockPageId hi with
    | error e => simp [hid] at h
    | ok bid =>
      simp only [hid] at h
      exact fetchData_pool_size h

theorem blockRemove_error {b : Pool K V} {f : frame_id_t} {j : Nat} {e : Fault}
    (h : blockRemove b f j = .error e) : e ≠ .outOfFuel := by
  unfold blockRemove at h
  cases hb : blockAt b f with
  | error e1 =>
    simp only [hb, bind, Except.bind, Except.error.injEq] at h
    rw [← h, blockAt_error hb]; decide
  | ok blk => simp [hb, bind, Except.bind] at h

theorem blockInsert_error {b : Pool K V} {f : frame_id_t} {j : Nat} {k : K} {v : V} {e : Fault}
    (h : blockInsert b f j k v = .error e) : e ≠ .outOfFuel := by
  unfold blockInsert at h
  cases hb : blockAt b f with
  | error e1 =>
    simp only [hb, bind, Except.bind, Except.error.injEq] at h
    rw [← h, blockAt_error hb]; decide
  | ok blk =>
    simp only [hb, bind, Except.bind] at h
    split at h <;> simp at h

/-- What `start` returns lies inside a block, and inside the directory when the pool size
divides the bucket count. -/
theorem start_ok (ht : LinearProbeHashTable K V) (b : Pool K V) (key : K) {first : Nat × Nat}
    (h : start ht b key = .ok first) :
    first.2 < ht.num_buckets_ / b.pool_size_ ∧
      (b.pool_size_ ∣ ht.num_buckets_ → first.1 < b.pool_size_) := by
  unfold start GetPoolSize at h
  split at h
  · simp at h
  · split at h
    · simp at h
    · split at h
      · simp at h
      · next hP hN hB =>
        simp only [Except.ok.injEq] at h
        subst h
        refine ⟨Nat.mod_lt _ (Nat.pos_of_ne_zero hB), ?_⟩
        intro hdvd
        apply Nat.div_lt_of_lt_mul
        have : ht.num_buckets_ / b.pool_size_ * b.pool_size_ = ht.num_buckets_ :=
          Nat.div_mul_cancel hdvd
        rw [this]
        exact Nat.mod_lt _ (Nat.pos_of_ne_zero hN)

end LinearProbeHashTable
end bustub

namespace bustub
namespace LinearProbeHashTable
open BufferPoolManager

variable {K V : Type} [Inhabited K] [Inhabited V] [DecidableEq V]

/-- The measure of a probe position decreases with each probe step. -/
theorem advance_dist (ht : LinearProbeHashTable K V) (b : Pool K V) {P : Nat}
    (hb : b.pool_size_ = P) {first pos : Nat × Nat}
    (hf1 : first.1 < P) (hf2 : first.2 < ht.num_buckets_ / P)
    (h1 : pos.1 < P) (h2 : pos.2 < ht.num_buckets_ / P) (hne : pos ≠ first) :
    (advance ht b pos).1 < P ∧ (advance ht b pos).2 < ht.num_buckets_ / P ∧
      probeDist (P * (ht.num_buckets_ / P)) (probeIndex (ht.num_buckets_ / P) first)
        (probeIndex (ht.num_buckets_ / P) (advance ht b pos)) + 1 =
      probeDist (P * (ht.num_buckets_ / P)) (probeIndex (ht.num_buckets_ / P) first)
        (probeIndex (ht.num_buckets_ / P) pos) := by
  subst hb
  obtain ⟨a1, a2, a3⟩ := probeIndex_advance ht b h1 h2
  refine ⟨a1, a2, ?_⟩
  rw [a3]
  exact probeDist_step (probeIndex_lt h1 h2) (probeIndex_lt hf1 hf2)
    (fun h => hne (probeIndex_inj h2 hf2 h))

theorem getValueLoop_fuel (ht : LinearProbeHashTable K V) (hf : frame_id_t) (key : K)
    (first : Nat × Nat) (P : Nat) (hf1 : first.1 < P) (hf2 : first.2 < ht.num_buckets_ / P) :
    ∀ (fuel : Nat) (b : Pool K V) (pos : Nat × Nat) (result : List V),
      b.pool_size_ = P → pos.1 < P → pos.2 < ht.num_buckets_ / P →
      probeDist (P * (ht.num_buckets_ / P)) (probeIndex (ht.num_buckets_ / P) first)
        (probeIndex (ht.num_buckets_ / P) pos) < fuel →
      getValueLoop ht hf key first fuel b pos result ≠ .error .outOfFuel := by
  intro fuel
  induction fuel with
  | zero => intro b pos result _ _ _ h; omega
  | succ n ih =>
    intro b pos result hb h1 h2 hd
    rw [getValueLoop]
    split
    · simp
    · next hne =>
      cases hfb : fetchBlock b hf pos.1 with
      | error e =>
        simp only [bind, Except.bind, ne_eq, Except.error.injEq]
        exact fetchBlock_error hfb
      | ok q =>
        simp only [bind, Except.bind]
        cases hblk : blockAt q.1 q.2 with
        | error e =>
          simp only [ne_eq, Except.error.injEq]
          rw [blockAt_error hblk]; decide
        | ok blk =>
          simp only
          split
          · simp
          · have hq : q.1.pool_size_ = P := (fetchBlock_pool_size hfb).trans hb
            obtain ⟨a1, a2, a3⟩ := advance_dist ht q.1 hq hf1 hf2 h1 h2 hne
            exact ih _ _ _ hq a1 a2 (by omega)

theorem insertLoop_fuel (ht : LinearProbeHashTable K V) (hf : frame_id_t) (key : K) (value : V)
    (first : Nat × Nat) (P : Nat) (hf1 : first.1 < P) (hf2 : first.2 < ht.num_buckets_ / P) :
    ∀ (fuel : Nat) (b : Pool K V) (pos : Nat × Nat),
      b.pool_size_ = P → pos.1 < P → pos.2 < ht.num_buckets_ / P →
      probeDist (P * (ht.num_buckets_ / P)) (probeIndex (ht.num_buckets_ / P) first)
        (probeIndex (ht.num_buckets_ / P) pos) < fuel →
      insertLoop ht hf key value first fuel b pos ≠ .error .outOfFuel := by
  intro fuel
  induction fuel with
  | zero => intro b pos _ _ _ h; omega
  | succ n ih =>
    intro b pos hb h1 h2 hd
    rw [insertLoop]
    split
    · simp
    · next hne =>
      cases hfb : fetchBlock b hf pos.1 with
      | error e =>
        simp only [bind, Except.bind, ne_eq, Except.error.injEq]
        exact fetchBlock_error hfb
      | ok q =>
        simp only [bind, Except.bind]
        cases hblk : blockAt q.1 q.2 with
        | error e =>
          simp only [ne_eq, Except.error.injEq]
          rw [blockAt_error hblk]; decide
        | ok blk =>
          simp only
          split
          · simp
          · split
            · simp
            · have hq : q.1.pool_size_ = P := (fetchBlock_pool_size hfb).trans hb
              obtain ⟨a1, a2, a3⟩ := advance_dist ht q.1 hq hf1 hf2 h1 h2 hne
              exact ih _ _ hq a1 a2 (by omega)

theorem removeLoop_fuel (ht : LinearProbeHashTable K V) (hf : frame_id_t) (key : K) (value : V)
    (first : Nat × Nat) (P : Nat) (hf1 : first.1 < P) (hf2 : first.2 < ht.num_buckets_ / P) :
    ∀ (fuel : Nat) (b : Pool K V) (pos : Nat × Nat),
      b.pool_size_ = P → pos.1 < P → pos.2 < ht.num_buckets_ / P →
      probeDist (P * (ht.num_buckets_ / P)) (probeIndex (ht.num_buckets_ / P) first)
        (probeIndex (ht.num_buckets_ / P) pos) < fuel →
      removeLoop ht hf key value first fuel b pos ≠ .error .outOfFuel := by
  intro fuel
  induction fuel with
  | zero => intro b pos _ _ _ h; omega
  | succ n ih =>
    intro b pos hb h1 h2 hd
    rw [removeLoop]
    split
    · simp
    · next hne =>
      cases hfb : fetchBlock b hf pos.1 with
      | error e =>
        simp only [bind, Except.bind, ne_eq, Except.error.injEq]
        exact fetchBlock_error hfb
      | ok q =>
        simp only [bind, Except.bind]
        cases hblk : blockAt q.1 q.2 with
        | error e =>
          simp only [ne_eq, Except.error.injEq]
          rw [blockAt_error hblk]; decide
        | ok blk =>
          simp only
          split
          · simp
          · split
            · cases hbr : blockRemove q.1 q.2 pos.2 with
              | error e =>
                simp only [ne_eq, Except.error.injEq]
                exact blockRemove_error hbr
              | ok b2 => simp
            · have hq : q.1.pool_size_ = P := (fetchBlock_pool_size hfb).trans hb
              obtain ⟨a1, a2, a3⟩ := advance_dist ht q.1 hq hf1 hf2 h1 h2 hne
              exact ih _ _ hq a1 a2 (by omega)

/-- The fuel `num_buckets_` covers the whole probe cycle from the step after `first`. -/
theorem advance_first_dist (ht : LinearProbeHashTable K V) (b : Pool K V) {P : Nat}
    (hb : b.pool_size_ = P) {first : Nat × Nat}
    (hf1 : first.1 < P) (hf2 : first.2 < ht.num_buckets_ / P) :
    (advance ht b first).1 < P ∧ (advance ht b first).2 < ht.num_buckets_ / P ∧
      probeDist (P * (ht.num_buckets_ / P)) (probeIndex (ht.num_buckets_ / P) first)
        (probeIndex (ht.num_buckets_ / P) (advance ht b first)) < ht.num_buckets_ := by
  subst hb
  obtain ⟨a1, a2, _⟩ := probeIndex_advance ht b hf1 hf2
  refine ⟨a1, a2, ?_⟩
  exact Nat.lt_of_lt_of_le (probeDist_lt (probeIndex_lt a1 a2) (probeIndex_lt hf1 hf2))
    (Nat.mul_div_le _ _)

/-- `GetValue` never runs out of fuel when its starting header index is below the pool size
(so always when the pool size divides the bucket count). -/
theorem GetValue_fuel (ht : LinearProbeHashTable K V) (b : Pool K V) (key : K) (result : List V)
    (hstart : ∀ first, start ht b key = .ok first → first.1 < b.pool_size_) :
    GetValue ht b key result ≠ .error .outOfFuel := by
  unfold GetValue
  cases hfd : fetchData b ht.header_page_id_ with
  | error e =>
    simp only [bind, Except.bind, ne_eq, Except.error.injEq]
    rw [fetchData_error hfd]; decide
  | ok r1 =>
    have hp1 := fetchData_pool_size hfd
    simp only [bind, Except.bind]
    cases hs : start ht r1.1 key with
    | error e =>
      simp only [ne_eq, Except.error.injEq]
      unfold start at hs
      split at hs
      · simp only [Except.error.injEq] at hs; rw [← hs]; decide
      · split at hs
        · simp only [Except.error.injEq] at hs; rw [← hs]; decide
        · split at hs
          · simp only [Except.error.injEq] at hs; rw [← hs]; decide
          · simp at hs
    | ok first =>
      simp only
      have hs' : start ht b key = .ok first := by rw [← start_pool ht hp1]; exact hs
      have hf1 : first.1 < r1.1.pool_size_ := by rw [hp1]; exact hstart first hs'
      have hf2 := (start_ok ht r1.1 key hs).1
      cases hfb : fetchBlock r1.1 r1.2 first.1 with
      | error e =>
        simp only [ne_eq, Except.error.injEq]
        exact fetchBlock_error hfb
      | ok r2 =>
        simp only
        cases hblk : blockAt r2.1 r2.2 with
        | error e =>
          simp only [ne_eq, Except.error.injEq]
          rw [blockAt_error hblk]; decide
        | ok blk =>
          simp only
          split
          · simp
          · have hq : r2.1.pool_size_ = r1.1.pool_size_ := fetchBlock_pool_size hfb
            obtain ⟨a1, a2, a3⟩ := advance_first_dist ht r2.1 hq hf1 hf2
            have := getValueLoop_fuel ht r1.2 key first r1.1.pool_size_ hf1 hf2 ht.num_buckets_ r2.1
              (advance ht r2.1 first)
              (if keyMatch ht blk first.2 key then result ++ [blk.ValueAt first.2] else result)
              hq a1 a2 a3
            split
            · next e he => intro h; simp only [Except.error.injEq] at h; subst h; exact this he
            · simp

end LinearProbeHashTable
end bustub

namespace bustub
namespace LinearProbeHashTable
open BufferPoolManager

variable {K V : Type} [Inhabited K] [Inhabited V] [DecidableEq V]

theorem start_error (ht : LinearProbeHashTable K V) (b : Pool K V) (key : K) {e : Fault}
    (hs : start ht b key = .error e) : e ≠ .outOfFuel := by
  unfold start at hs
  split at hs
  · simp only [Except.error.injEq] at hs; rw [← hs]; decide
  · split at hs
    · simp only [Except.error.injEq] at hs; rw [← hs]; decide
    · split at hs
      · simp only [Except.error.injEq] at hs; rw [← hs]; decide
      · simp at hs

/-- `Remove` never runs out of fuel when its starting header index is below the pool
size. -/
theorem Remove_fuel (ht : LinearProbeHashTable K V) (b : Pool K V) (key : K) (value : V)
    (hstart : ∀ first, start ht b key = .ok first → first.1 < b.pool_size_) :
    Remove ht b key value ≠ .error .outOfFuel := by
  unfold Remove
  cases hfd : fetchData b ht.header_page_id_ with
  | error e =>
    simp only [bind, Except.bind, ne_eq, Except.error.injEq]
    rw [fetchData_error hfd]; decide
  | ok r1 =>
    have hp1 := fetchData_pool_size hfd
    simp only [bind, Except.bind]
    cases hs : start ht r1.1 key with
    | error e =>
      simp only [ne_eq, Except.error.injEq]
      exact start_error ht _ key hs
    | ok first =>
      simp only
      have hs' : start ht b key = .ok first := by rw [← start_pool ht hp1]; exact hs
      have hf1 : first.1 < r1.1.pool_size_ := by rw [hp1]; exact hstart first hs'
      have hf2 := (start_ok ht r1.1 key hs).1
      cases hfb : fetchBlock r1.1 r1.2 first.1 with
      | error e =>
        simp only [ne_eq, Except.error.injEq]
        exact fetchBlock_error hfb
      | ok r2 =>
        simp only
        cases hblk : blockAt r2.1 r2.2 with
        | error e =>
          simp only [ne_eq, Except.error.injEq]
          rw [blockAt_error hblk]; decide
        | ok blk =>
          simp only
          split
          · split
            · cases hbr : blockRemove r2.1 r2.2 first.2 with
              | error e =>
                simp only [ne_eq, Except.error.injEq]
                exact blockRemove_error hbr
              | ok b2 => simp
            · have hq : r2.1.pool_size_ = r1.1.pool_size_ := fetchBlock_pool_size hfb
              obtain ⟨a1, a2, a3⟩ := advance_first_dist ht r2.1 hq hf1 hf2
              exact removeLoop_fuel ht r1.2 key value first r1.1.pool_size_ hf1 hf2 ht.num_buckets_
                r2.1 (advance ht r2.1 first) hq a1 a2 a3
          · simp

/-- On an exhausted pool `Insert` never runs out of fuel when its starting header index is
below the pool size. -/
theorem Insert_fuel (ht : LinearProbeHashTable K V) {b : Pool K V} (hb : Exhausted b) (key : K)
    (value : V) (hstart : ∀ first, start ht b key = .ok first → first.1 < b.pool_size_) :
    Insert ht b key value ≠ .error .outOfFuel := by
  unfold Insert
  rw [insertAux]
  cases hfd : fetchData b ht.header_page_id_ with
  | error e =>
    simp only [bind, Except.bind, ne_eq, Except.error.injEq]
    rw [fetchData_error hfd]; decide
  | ok r1 =>
    have hp1 := fetchData_pool_size hfd
    have hb1 := fetchData_exhausted_out hb hfd
    simp only [bind, Except.bind]
    cases hs : start ht r1.1 key with
    | error e =>
      simp only [ne_eq, Except.error.injEq]
      exact start_error ht _ key hs
    | ok first =>
      simp only
      have hs' : start ht b key = .ok first := by rw [← start_pool ht hp1]; exact hs
      have hf1 : first.1 < r1.1.pool_size_ := by rw [hp1]; exact hstart first hs'
      have hf2 := (start_ok ht r1.1 key hs).1
      cases hfb : fetchBlock r1.1 r1.2 first.1 with
      | error e =>
        simp only [ne_eq, Except.error.injEq]
        exact fetchBlock_error hfb
      | ok r2 =>
        simp only
        have hb2 : Exhausted r2.1 := by
          unfold fetchBlock at hfb
          cases hh : headerAt r1.1 r1.2 with
          | error e => simp [hh, bind, Except.bind] at hfb
          | ok hd =>
            simp only [hh, bind, Except.bind] at hfb
            cases hid : hd.GetBlockPageId first.1 with
            | error e => simp [hid] at hfb
            | ok bid =>
              simp only [hid] at hfb
              exact fetchData_exhausted_out hb1 hfb
        cases hblk : blockAt r2.1 r2.2 with
        | error e =>
          simp only [ne_eq, Except.error.injEq]
          rw [blockAt_error hblk]; decide
        | ok blk =>
          simp only
          split
          · cases hbi : blockInsert r2.1 r2.2 first.2 key value with
            | error e =>
              simp only [ne_eq, Except.error.injEq]
              exact blockInsert_error hbi
            | ok q => simp
          · split
            · simp
            · have hq : r2.1.pool_size_ = r1.1.pool_size_ := fetchBlock_pool_size hfb
              obtain ⟨a1, a2, a3⟩ := advance_first_dist ht r2.1 hq hf1 hf2
              have hloop := insertLoop_fuel ht r1.2 key value first r1.1.pool_size_ hf1 hf2
                ht.num_buckets_ r2.1 (advance ht r2.1 first) hq a1 a2 a3
              cases hl : insertLoop ht r1.2 key value first ht.num_buckets_ r2.1
                  (advance ht r2.1 first) with
              | error e =>
                simp only [ne_eq, Except.error.injEq]
                intro he; subst he; exact hloop hl
              | ok r3 =>
                simp only
                have hb3 : Exhausted r3.1 :=
                  (insertLoop_samePages ht r1.2 key value first _ _ _ _ hb2 hl).exhausted hb2
                split
                · simp
                · next pos _ =>
                  split
                  · simp [Resize_exhausted ht hb3]
                  · cases hbi : blockInsert r3.1 r2.2 pos.2 key value with
                    | error e =>
                      simp only [ne_eq, Except.error.injEq]
                      exact blockInsert_error hbi
                    | ok q => simp

end LinearProbeHashTable
end bustub

namespace bustub

/-! ## The buffer pool: `UnpinPageImpl` -/

theorem ClockReplacer.Unpin_ok_of_room (r : ClockReplacer) (f : frame_id_t)
    (h : f ∈ r.lst ∨ r.lst.length < r.num_page) : ∃ r1, r.Unpin f = .ok r1 := by
  unfold ClockReplacer.Unpin
  by_cases hm : f ∈ r.lst
  · simp only [hm, not_true_eq_false, false_and, if_false]
    split <;> exact ⟨_, rfl⟩
  · rcases h with h | h
    · exact absurd h hm
    · simp only [hm, not_false_eq_true, h, and_self, if_true]
      exact ⟨_, rfl⟩

namespace BufferPoolManager
variable {D : Type}

/-- What a returning `UnpinPageImpl` on a resident, pinned page does. -/
theorem UnpinPageImpl_ok {b : BufferPoolManager D} {p : page_id_t} {f : frame_id_t} {d r : Bool}
    {b1 : BufferPoolManager D} (hf : b.find p = some f) (hpin : 0 < (b.pages_ f).pin_count_)
    (hu : b.UnpinPageImpl p d = .ok (r, b1)) :
    r = true ∧ b1.page_table_ = b.page_table_ ∧ b1.free_list_ = b.free_list_ ∧
      b1.disk_manager_ = b.disk_manager_ ∧
      b1.pages_ = Function.update b.pages_ f
        { b.pages_ f with
          pin_count_ := (b.pages_ f).pin_count_ - 1
          is_dirty_ := ((b.pages_ f).is_dirty_ || d) } := by
  have h1 : ¬ (b.pages_ f).pin_count_ < 1 := by omega
  simp only [UnpinPageImpl, hf, h1, if_false] at hu
  split at hu
  · exact absurd hu (by simp)
  · simp only [Except.ok.injEq, Prod.mk.injEq] at hu
    obtain ⟨rfl, rfl⟩ := hu
    refine ⟨rfl, rfl, rfl, rfl, ?_⟩
    cases d <;> simp

/-- A fetch of a resident page changes neither the page table nor a dirty flag. -/
theorem FetchPageImpl_resident {b : BufferPoolManager D} {p : page_id_t} {f : frame_id_t}
    (hf : b.find p = some f) :
    (b.FetchPageImpl p).1.page_table_ = b.page_table_ ∧
    ∀ g, ((b.FetchPageImpl p).1.pages_ g).is_dirty_ = (b.pages_ g).is_dirty_ := by
  unfold FetchPageImpl
  split
  · simp
  · simp only [hf]
    refine ⟨trivial, fun g => ?_⟩
    by_cases hg : g = f
    · subst hg; simp
    · simp [Function.update_noteq hg]

/-- C9. `UnpinPageImpl` has OR-semantics on the dirty flag.  For a resident page `p` in
frame `f` with a positive pin count: (1) a returning `Unpin(p, d)` returns `true` and leaves
the dirty flag equal to the old flag OR `d`; (2) the call does return whenever the replacer
tracks `f` or has room for it (which holds whenever the frame is not yet tracked and fewer
than `num_page` frames are); (3) after `Unpin(p, true)`, `Fetch(p)`, `Unpin(p, false)` the page
is still resident in `f` and dirty; (4), (5) when `Fetch` of a non-resident page or `NewPage`
takes a dirty frame from the replacer, the frame's bytes are on disk under the frame's
page id afterwards. -/
theorem unpin_dirty_or [Inhabited D] (b : BufferPoolManager D) (p : page_id_t) (f : frame_id_t)
    (hres : b.find p = some f) (hpin : 0 < (b.pages_ f).pin_count_) :
    (∀ d r b1, b.UnpinPageImpl p d = .ok (r, b1) →
        r = true ∧ (b1.pages_ f).is_dirty_ = ((b.pages_ f).is_dirty_ || d)) ∧
    (∀ d, (f ∈ b.replacer_.lst ∨ b.replacer_.lst.length < b.replacer_.num_page) →
        ∃ b1, b.UnpinPageImpl p d = .ok (true, b1)) ∧
    (∀ r1 b1 r3 b3, b.UnpinPageImpl p true = .ok (r1, b1) →
        (b1.FetchPageImpl p).1.UnpinPageImpl p false = .ok (r3, b3) →
        b3.find p = some f ∧ (b3.pages_ f).is_dirty_ = true) ∧
    (∀ (c : BufferPoolManager D) q g, q ≠ INVALID_PAGE_ID → c.find q = none →
        c.free_list_ = [] → c.replacer_.Victim.1 = some g → (c.pages_ g).is_dirty_ = true →
        (c.FetchPageImpl q).2 = some g ∧
        (c.FetchPageImpl q).1.disk_manager_.store (c.pages_ g).page_id_ = (c.pages_ g).data_) ∧
    (∀ (c : BufferPoolManager D) g,
        c.free_list_ = [] → c.replacer_.Victim.1 = some g → (c.pages_ g).is_dirty_ = true →
        (∃ n, c.NewPageImpl.2 = some (g, n)) ∧
        c.NewPageImpl.1.disk_manager_.store (c.pages_ g).page_id_ = (c.pages_ g).data_) := by
  refine ⟨?_, ?_, ?_, ?_, ?_⟩
  · intro d r b1 hu
    obtain ⟨hr, -, -, -, hp⟩ := UnpinPageImpl_ok hres hpin hu
    exact ⟨hr, by simp [hp]⟩
  · intro d hroom
    have h1 : ¬ (b.pages_ f).pin_count_ < 1 := by omega
    obtain ⟨r1, hr1⟩ := ClockReplacer.Unpin_ok_of_room _ f hroom
    simp only [UnpinPageImpl, hres, h1, if_false]
    split
    · next e he =>
      split at he
      · rw [hr1] at he; exact absurd he (by simp)
      · exact absurd he (by simp)
    · exact ⟨_, rfl⟩
  · intro r1 b1 r3 b3 h1 h3
    obtain ⟨-, ht1, -, -, hp1⟩ := UnpinPageImpl_ok hres hpin h1
    have hf1 : b1.find p = some f := by simpa [find, ht1] using hres
    obtain ⟨ht2, hd2⟩ := FetchPageImpl_resident hf1
    have hf2 : (b1.FetchPageImpl p).1.find p = some f := by simpa [find, ht2] using hf1
    have hdirty2 : (((b1.FetchPageImpl p).1).pages_ f).is_dirty_ = true := by
      rw [hd2, hp1]; simp
    have hfind3 : b3.find p = some f := by
      simp only [UnpinPageImpl, hf2] at h3
      split at h3
      · simp only [Except.ok.injEq, Prod.mk.injEq] at h3
        rw [← h3.2]; exact hf2
      · split at h3
        · exact absurd h3 (by simp)
        · simp only [Except.ok.injEq, Prod.mk.injEq] at h3
          rw [← h3.2]; simpa [find] using hf2
    refine ⟨hfind3, ?_⟩
    simp only [UnpinPageImpl, hf2] at h3
    split at h3
    · simp only [Except.ok.injEq, Prod.mk.injEq] at h3
      rw [← h3.2]; exact hdirty2
    · split at h3
      · exact absurd h3 (by simp)
      · simp only [Except.ok.injEq, Prod.mk.injEq] at h3
        rw [← h3.2]; simp [hdirty2]
  · intro c q g hq hnone hfree hv hd
    unfold FetchPageImpl
    simp only [hq, if_false, hnone, hfree]
    cases hvv : c.replacer_.Victim with
    | mk o r =>
      rw [hvv] at hv
      simp only at hv
      subst hv
      simp [hd, DiskManager.WritePage, DiskManager.ReadPage]
  · intro c g hfree hv hd
    unfold NewPageImpl
    simp only [hfree]
    cases hvv : c.replacer_.Victim with
    | mk o r =>
      rw [hvv] at hv
      simp only at hv
      subst hv
      simp [hd, DiskManager.WritePage, DiskManager.AllocatePage]

/-- C10. `UnpinPageImpl` fails atomically: for a page that is not resident, or whose frame
has pin count 0, it returns `false` for either value of the flag and the whole pool state
(page table, free list, replacer, frames, disk) is the state before the call.  For a
resident page with pin count 1, a returning `Unpin(p, false)` returns `true` and the next
`Unpin(p, false)` returns `false` without changing the state; the first call does return
whenever the replacer tracks the frame or has room for it. -/
theorem unpin_fails_atomically (b : BufferPoolManager D) (p : page_id_t) (d : Bool) :
    ((b.find p = none ∨ ∃ f, b.find p = some f ∧ (b.pages_ f).pin_count_ = 0) →
        b.UnpinPageImpl p d = .ok (false, b)) ∧
    (∀ f, b.find p = some f → (b.pages_ f).pin_count_ = 1 →
        (∀ r b1, b.UnpinPageImpl p false = .ok (r, b1) →
            r = true ∧ b1.UnpinPageImpl p false = .ok (false, b1)) ∧
        ((f ∈ b.replacer_.lst ∨ b.replacer_.lst.length < b.replacer_.num_page) →
            ∃ b1, b.UnpinPageImpl p false = .ok (true, b1))) := by
  refine ⟨?_, ?_⟩
  · rintro (h | ⟨f, h, h0⟩)
    · simp [BufferPoolManager.UnpinPageImpl, h]
    · simp [BufferPoolManager.UnpinPageImpl, h, h0]
  · intro f hf h1
    refine ⟨?_, ?_⟩
    · intro r b1 hu
      simp only [BufferPoolManager.UnpinPageImpl, hf, h1, lt_self_iff_false, if_false,
        Nat.sub_self, if_true] at hu
      cases hr : b.replacer_.Unpin f with
      | error e => simp [hr] at hu
      | ok r1 =>
        simp only [hr, Except.ok.injEq, Prod.mk.injEq] at hu
        obtain ⟨rfl, rfl⟩ := hu
        refine ⟨rfl, ?_⟩
        simp [BufferPoolManager.UnpinPageImpl, BufferPoolManager.find] at hf ⊢
        simp [hf]
    · intro hroom
      obtain ⟨r1, hr1⟩ := ClockReplacer.Unpin_ok_of_room _ f hroom
      simp only [BufferPoolManager.UnpinPageImpl, hf, h1, lt_self_iff_false, if_false,
        Nat.sub_self, if_true, hr1]
      exact ⟨_, rfl⟩

end BufferPoolManager

/-- C9 at a concrete pool, `pool2`: page 0 is resident in frame 0 with pin count 1, and
`Unpin(0, true)` returns `true`. -/
theorem unpin_dirty_or_witness :
    pool2.find 0 = some 0 ∧ 0 < (pool2.pages_ 0).pin_count_ ∧
      ∃ b1, pool2.UnpinPageImpl 0 true = .ok (true, b1) :=
  ⟨rfl, by decide,
    (BufferPoolManager.unpin_dirty_or pool2 0 0 rfl (by decide)).2.1 true (Or.inr (by decide))⟩

/-- C10 at a concrete pool, `pool2`: page 7 is not resident and `Unpin(7, true)` returns `false`
leaving the pool as it is; page 0 has pin count 1 and two calls `Unpin(0, false)` return
`true`, then `false`. -/
theorem unpin_fails_atomically_witness :
    (pool2.find 7 = none ∧ pool2.UnpinPageImpl 7 true = .ok (false, pool2)) ∧
    (pool2.find 0 = some 0 ∧ (pool2.pages_ 0).pin_count_ = 1 ∧
      ∃ b1, pool2.UnpinPageImpl 0 false = .ok (true, b1) ∧
        b1.UnpinPageImpl 0 false = .ok (false, b1)) :=
  ⟨⟨rfl, (BufferPoolManager.unpin_fails_atomically pool2 7 true).1 (Or.inl rfl)⟩,
    rfl, rfl,
    match ((BufferPoolManager.unpin_fails_atomically pool2 0 false).2 0 rfl rfl).2
        (Or.inr (by decide)) with
    | ⟨b1, hb1⟩ =>
      ⟨b1, hb1,
        (((BufferPoolManager.unpin_fails_atomically pool2 0 false).2 0 rfl rfl).1 true b1 hb1).2⟩⟩

end bustub

namespace bustub
namespace LinearProbeHashTable
open BufferPoolManager

variable {K V : Type} [Inhabited K] [Inhabited V] [DecidableEq V]

/-! ## The hash table: the claims -/

/-- C3. `Insert` is idempotent on pairs.  In every reachable state, if `Insert(k, v)`
returns `true` then a second `Insert(k, v)` right after it returns `false`, leaves the table
object as it is and changes nothing in the pool but pin counts (the bytes of every page,
the page table and the disk are the same), so `GetValue(k)` returns the same flag and the
same list of values as after the first `Insert`.  The comparator is assumed to find `k`
equal to itself. -/
theorem insert_twice_returns_false {ht : LinearProbeHashTable K V} {b : Pool K V}
    (hr : Reachable ht b) (k : K) (v : V) (hcmp : ht.comparator_ k k = 0)
    {ht1 : LinearProbeHashTable K V} {b1 : Pool K V}
    (h : ht.Insert b k v = .ok (true, ht1, b1)) :
    ∃ b2, ht1.Insert b1 k v = .ok (false, ht1, b2) ∧ SamePages b1 b2 ∧
      ∀ result, (ht1.GetValue b2 k result).map (fun r => (r.1, r.2.1)) =
        (ht1.GetValue b1 k result).map (fun r => (r.1, r.2.1)) := by
  have hb := hr.pool_exhausted
  unfold Insert at h
  obtain ⟨hht, hb1, b2, hins, hsp⟩ := insertAux_twice ht hb k v hcmp _ h
  subst hht
  exact ⟨b2, hins _, hsp, fun result => GetValue_congr _ hb1 hsp k result⟩

/-- C4 (as amended).  In every reachable state: (1) when `GetValue` returns, its flag is the
occupied bit of the starting slot of the key, read in the state before the call, and a
`false` flag comes with an untouched result list; (2) when the header page and the starting
block page are resident and the starting slot is unoccupied, `GetValue` does return `false`
with the result list as it was; (3) the call never runs out of fuel when its starting
header index is below the pool size. -/
theorem getValue_flag_is_start_occupancy {ht : LinearProbeHashTable K V} {b : Pool K V}
    (hr : Reachable ht b) (key : K) (result : List V) :
    (∀ r res b1, ht.GetValue b key result = .ok (r, res, b1) →
      ∃ hf first g blk, b.find ht.header_page_id_ = some hf ∧ start ht b key = .ok first ∧
        probeRead b hf first.1 = .ok (g, blk) ∧ r = blk.IsOccupied first.2 ∧
        (r = false → res = result)) ∧
    (∀ hf first g blk, ht.header_page_id_ ≠ INVALID_PAGE_ID →
      b.find ht.header_page_id_ = some hf → start ht b key = .ok first →
      probeRead b hf first.1 = .ok (g, blk) → blk.IsOccupied first.2 = false →
      ∃ b1, ht.GetValue b key result = .ok (false, result, b1)) ∧
    ((∀ first, start ht b key = .ok first → first.1 < b.pool_size_) →
      ht.GetValue b key result ≠ .error .outOfFuel) := by
  have hb := hr.pool_exhausted
  refine ⟨?_, ?_, GetValue_fuel ht b key result⟩
  · intro r res b1 h
    rw [GetValue_eq ht hb] at h
    cases hfd : fetchData b ht.header_page_id_ with
    | error e => simp [hfd, bind, Except.bind] at h
    | ok r1 =>
      obtain ⟨_, hfind, _⟩ := fetchData_ok hb hfd
      have hsp1 := fetchData_samePages hb hfd
      simp only [hfd, bind, Except.bind] at h
      cases hs : start ht r1.1 key with
      | error e => simp [hs] at h
      | ok first =>
        simp only [hs] at h
        cases hp : probeRead r1.1 r1.2 first.1 with
        | error e => simp [hp] at h
        | ok r2 =>
          simp only [hp] at h
          refine ⟨r1.2, first, r2.1, r2.2, hfind, by rw [← start_congr ht hsp1]; exact hs,
            by rw [← probeRead_congr hsp1]; exact hp, ?_⟩
          by_cases hocc : r2.2.IsOccupied first.2 = true
          · simp only [hocc, Bool.not_true, Bool.false_eq_true, if_false] at h
            split at h
            · simp at h
            · simp only [Except.ok.injEq, Prod.mk.injEq] at h
              exact ⟨by rw [hocc]; exact h.1.symm, fun hf => by rw [← h.1] at hf; simp at hf⟩
          · have hocc1 : r2.2.IsOccupied first.2 = false := by simpa using hocc
            simp only [hocc1, Bool.not_false, if_true, Except.ok.injEq, Prod.mk.injEq] at h
            exact ⟨by rw [hocc1]; exact h.1.symm, fun _ => h.2.1.symm⟩
  · intro hf first g blk hinv hfind hs hp hocc
    rw [GetValue_eq ht hb, fetchData_of_find hb hinv hfind]
    have hsp1 := samePages_pinFrame b hf
    simp only [bind, Except.bind, start_congr ht hsp1, hs, probeRead_congr hsp1, hp, hocc,
      Bool.not_false, if_true]
    exact ⟨_, rfl⟩

/-- C8 (as amended).  No hash-table operation unpins a page: whenever `GetValue`, `Insert`,
`Remove` or `GetSize` returns, no frame has a lower pin count than before the call and some
frame (the one the header page was fetched into) has a higher one. -/
theorem operations_never_unpin (ht : LinearProbeHashTable K V) (b : Pool K V) :
    (∀ key result r, ht.GetValue b key result = .ok r →
      PinLe b r.2.2 ∧ ∃ g, (b.pages_ g).pin_count_ < (r.2.2.pages_ g).pin_count_) ∧
    (∀ key value r, ht.Insert b key value = .ok r →
      PinLe b r.2.2 ∧ ∃ g, (b.pages_ g).pin_count_ < (r.2.2.pages_ g).pin_count_) ∧
    (∀ key value r, ht.Remove b key value = .ok r →
      PinLe b r.2 ∧ ∃ g, (b.pages_ g).pin_count_ < (r.2.pages_ g).pin_count_) ∧
    (∀ r, ht.GetSize b = .ok r →
      PinLe b r.2 ∧ ∃ g, (b.pages_ g).pin_count_ < (r.2.pages_ g).pin_count_) :=
  ⟨fun _ _ _ h => GetValue_pins ht h, fun _ _ _ h => insertAux_pins _ ht b _ _ _ h,
    fun _ _ _ h => Remove_pins ht h, fun _ h => GetSize_pins ht h⟩

end LinearProbeHashTable

open LinearProbeHashTable BufferPoolManager

/-- The constructor returns on `pool3`, with the value `table6`. -/
theorem table6_built :
    LinearProbeHashTable.new pool3 IntComparator 6 (fun _ => 1) (fun _ => INVALID_PAGE_ID) =
      .ok (table6.1, table6.2) := rfl

theorem table6_reachable : Reachable table6.1 table6.2 :=
  Reachable.construct 3 6 IntComparator (fun _ => 1) (fun _ => INVALID_PAGE_ID) _ _ table6_built

/-- C3 at a concrete table: `table6` is reachable, `Insert(10, 100)` on it returns `true`, and the
second `Insert(10, 100)` returns `false`. -/
theorem insert_twice_returns_false_witness :
    Reachable table6.1 table6.2 ∧ table6.1.comparator_ 10 10 = 0 ∧
      table6.1.Insert table6.2 10 100 = .ok (true, table6a.2.1, table6a.2.2) ∧
      ∃ b2, table6a.2.1.Insert table6a.2.2 10 100 = .ok (false, table6a.2.1, b2) ∧
        SamePages table6a.2.2 b2 ∧
        ∀ result, (table6a.2.1.GetValue b2 10 result).map (fun r => (r.1, r.2.1)) =
          (table6a.2.1.GetValue table6a.2.2 10 result).map (fun r => (r.1, r.2.1)) :=
  ⟨table6_reachable, rfl, rfl,
    insert_twice_returns_false table6_reachable 10 100 rfl
      (rfl : table6.1.Insert table6.2 10 100 = .ok (true, table6a.2.1, table6a.2.2))⟩

/-- C4 (as amended) at a concrete table: on the reachable `table6`, whose slots are all unoccupied,
`GetValue(5)` returns `false` with an empty result list. -/
theorem getValue_flag_is_start_occupancy_witness :
    Reachable table6.1 table6.2 ∧
      ∃ b1, table6.1.GetValue table6.2 5 [] = .ok (false, [], b1) :=
  ⟨table6_reachable,
    (getValue_flag_is_start_occupancy table6_reachable 5 []).2.1 0 (0, 1) 1
      HashTableBlockPage.zeroed (by decide) rfl rfl rfl rfl⟩

/-- C8 (as amended) at a concrete table: `GetSize` on `table6` returns 3 and leaves a frame with a
higher pin count. -/
theorem operations_never_unpin_witness :
    ∃ b1, table6.1.GetSize table6.2 = .ok (3, b1) ∧ PinLe table6.2 b1 ∧
      ∃ g, (table6.2.pages_ g).pin_count_ < (b1.pages_ g).pin_count_ :=
  ⟨_, rfl, (operations_never_unpin table6.1 table6.2).2.2.2 _ rfl⟩

end bustub

namespace bustub
open LinearProbeHashTable BufferPoolManager

/-! ## The hash table: evaluations at concrete inputs -/

/-- C1 (code defect).  Pool of 3 frames, `num_buckets = 6` (2 slots per block), every key
hashing to 1, so every probe starts at slot 1 of block 0.  `Insert(10, 100)` fills that
slot.  `Insert(20, 200)` probes on to slot 0 of block 1, finds it unoccupied, leaves the
loop, and then inserts through the pointer to block 0 declared before the loop: the pair
lands in slot 0 of block 0 and the call returns `true`.  `GetValue(20)` probes slot 1 of
block 0, then the unoccupied slot 0 of block 1, and stops: the result list is empty. -/
theorem insert_true_getValue_misses :
    (do
      let (ht, b) ← LinearProbeHashTable.new pool3 IntComparator 6 (fun _ => 1)
        (fun _ => INVALID_PAGE_ID)
      let (r1, ht, b) ← ht.Insert b 10 100
      let (r2, ht, b) ← ht.Insert b 20 200
      let (g, res, _) ← ht.GetValue b 20 []
      pure (r1, r2, g, res) : Except Fault (Bool × Bool × Bool × List Int)) =
    .ok (true, true, true, []) := rfl

/-- C2 (code defect).  Pool of 3 frames, `num_buckets = 9` (3 slots per block); the third
directory entry, which the constructor appends from the unassigned `block_page_id`, holds
the id 2 of the second block page.  Keys 1 and 2 hash to 2 (start: slot 2 of block 0), keys
3, 4, 5 to 3, 4, 5 (slots 0, 1, 2 of block 1).  Two calls `Insert(2, 5)` each leave the loop
in block 1 and store the pair through the pointer to block 0, in slots 0 and 1, and both
return `true`.  Once every slot is occupied, `Insert(2, 5)` returns `false`, `Remove(2, 5)`
returns `true`, and `GetValue(2)` still returns the value 5. -/
theorem remove_true_getValue_still_finds :
    (do
      let (ht, b) ← LinearProbeHashTable.new pool3 IntComparator 9
        (fun k => if k = 3 then 3 else if k = 4 then 4 else if k = 5 then 5 else 2) (fun _ => 2)
      let (r1, ht, b) ← ht.Insert b 1 1
      let (r2, ht, b) ← ht.Insert b 2 5
      let (r3, ht, b) ← ht.Insert b 3 0
      let (r4, ht, b) ← ht.Insert b 2 5
      let (r5, ht, b) ← ht.Insert b 4 0
      let (r6, ht, b) ← ht.Insert b 5 0
      let (r7, ht, b) ← ht.Insert b 2 5
      let (rm, b) ← ht.Remove b 2 5
      let (g, res, _) ← ht.GetValue b 2 []
      pure ([r1, r2, r3, r4, r5, r6, r7], rm, g, res) :
        Except Fault (List Bool × Bool × Bool × List Int)) =
    .ok ([true, true, true, true, true, true, false], true, true, [5]) := by decide!

/-- C4 (counterexample).  On the table the constructor builds (pool of 3 frames,
`num_buckets = 6`) every fetch of `GetValue(5)` succeeds and the call returns `false`: the
starting slot is unoccupied. -/
theorem getValue_unoccupied_start_returns_false :
    (do
      let (ht, b) ← LinearProbeHashTable.new pool3 IntComparator 6 (fun _ => 1)
        (fun _ => INVALID_PAGE_ID)
      let (g, res, _) ← ht.GetValue b 5 []
      pure (g, res) : Except Fault (Bool × List Int)) = .ok (false, []) := rfl

/-- C5 (code defect).  Pool of 3 frames, `num_buckets = 9` (3 slots per block), every key
hashing to 2 (start: slot 2 of block 0).  `Insert(1, 1)` fills the starting slot;
`Insert(2, 2)` leaves the loop at slot 0 of block 1 and stores the pair in slot 0 of block 0;
`Insert(3, 3)` leaves the loop at the same place, finds slot 0 of block 0 occupied and
returns `false`.  `Remove(2, 2)` returns `false`, and `GetValue(3)` is empty. -/
theorem collision_scenario_loses_third_key :
    (do
      let (ht, b) ← LinearProbeHashTable.new pool3 IntComparator 9 (fun _ => 2)
        (fun _ => INVALID_PAGE_ID)
      let (r1, ht, b) ← ht.Insert b 1 1
      let (r2, ht, b) ← ht.Insert b 2 2
      let (r3, ht, b) ← ht.Insert b 3 3
      let (rm, b) ← ht.Remove b 2 2
      let (_, res2, b) ← ht.GetValue b 2 []
      let (_, res3, _) ← ht.GetValue b 3 []
      pure ([r1, r2, r3], rm, res2, res3) :
        Except Fault (List Bool × Bool × List Int × List Int)) =
    .ok ([true, true, false], false, [], []) := rfl

/-- C6 (code defect).  Pool of 3 frames, `num_buckets = 3` (1 slot per block), key `k`
hashing to `k`.  After `Insert(0, 0)` and `Insert(1, 1)` the call `GetSize()` returns 3.
`Insert(2, 2)` dereferences `nullptr`: when the unassigned third directory entry holds the
id 2 of the second block page, the probe finds every slot occupied and `Resize` gets no
frame for its new header page; when it holds `INVALID_PAGE_ID`, the fetch of the block page
already fails. -/
theorem resize_dereferences_null :
    (do
      let (ht, b) ← LinearProbeHashTable.new pool3 IntComparator 3 (fun k => k.toNat)
        (fun _ => 2)
      let (r1, ht, b) ← ht.Insert b 0 0
      let (r2, ht, b) ← ht.Insert b 1 1
      let (n, b) ← ht.GetSize b
      pure (r1, r2, n, (ht.Insert b 2 2).map (fun r => r.1)) :
        Except Fault (Bool × Bool × Nat × Except Fault Bool)) =
      .ok (true, true, 3, .error .nullDeref) ∧
    (do
      let (ht, b) ← LinearProbeHashTable.new pool3 IntComparator 3 (fun k => k.toNat)
        (fun _ => INVALID_PAGE_ID)
      let (r1, ht, b) ← ht.Insert b 0 0
      let (r2, ht, b) ← ht.Insert b 1 1
      let (n, b) ← ht.GetSize b
      pure (r1, r2, n, (ht.Insert b 2 2).map (fun r => r.1)) :
        Except Fault (Bool × Bool × Nat × Except Fault Bool)) =
      .ok (true, true, 3, .error .nullDeref) := ⟨rfl, rfl⟩

/-- C7 (code defect).  The constructor stores the pool size in the header page and the
bucket-count target in `num_buckets_`: on a pool of 3 frames with `num_buckets = 6`,
`GetSize()` returns 3 while the address computation uses `hash % 6`. -/
theorem getSize_is_pool_size_after_construction :
    (do
      let (ht, b) ← LinearProbeHashTable.new pool3 IntComparator 6 (fun _ => 1)
        (fun _ => INVALID_PAGE_ID)
      let (n, _) ← ht.GetSize b
      pure (n, ht.num_buckets_) : Except Fault (Nat × Nat)) = .ok (3, 6) := rfl

/-- C8 (counterexample).  On the table the constructor builds on a pool of 3 frames the
header page 0 sits in frame 0 with pin count 1; after `GetSize()` the pin count is 2. -/
theorem getSize_leaves_header_pinned :
    (do
      let (ht, b) ← LinearProbeHashTable.new pool3 IntComparator 6 (fun _ => 1)
        (fun _ => INVALID_PAGE_ID)
      let (_, b1) ← ht.GetSize b
      pure (ht.header_page_id_, (b.pages_ 0).page_id_, (b.pages_ 0).pin_count_,
        (b1.pages_ 0).pin_count_) : Except Fault (Int × Int × Nat × Nat)) =
    .ok (0, 0, 1, 2) := rfl

end bustub

namespace bustub

namespace BufferPoolManager

variable {D : Type}

theorem lookup_cons_ne {t : List (page_id_t × frame_id_t)} {k q : page_id_t} (v : frame_id_t)
    (h : q ≠ k) : List.lookup q ((k, v) :: t) = List.lookup q t := by
  have hb : (q == k) = false := by simpa using h
  rw [List.lookup_cons, hb]

theorem lookup_cons_self (t : List (page_id_t × frame_id_t)) (k : page_id_t) (v : frame_id_t) :
    List.lookup k ((k, v) :: t) = some v := by
  have hb : (k == k) = true := by simp
  rw [List.lookup_cons, hb]

theorem lookup_tableErase (t : List (page_id_t × frame_id_t)) (p q : page_id_t) :
    (tableErase t p).lookup q = if q = p then none else t.lookup q := by
  induction t with
  | nil => simp [tableErase]
  | cons e t ih =>
    obtain ⟨k, v⟩ := e
    unfold tableErase at ih ⊢
    by_cases hk : k = p
    · subst hk
      rw [List.filter_cons_of_neg (by simp), ih]
      by_cases hq : q = k
      · simp [hq]
      · rw [if_neg hq, if_neg hq, lookup_cons_ne v hq]
    · rw [List.filter_cons_of_pos (by simpa using hk)]
      by_cases hq : q = k
      · subst hq
        rw [lookup_cons_self, lookup_cons_self, if_neg hk]
      · rw [lookup_cons_ne v hq, lookup_cons_ne v hq, ih]

theorem lookup_tableSet (t : List (page_id_t × frame_id_t)) (p q : page_id_t)
    (f : frame_id_t) :
    (tableSet t p f).lookup q = if q = p then some f else t.lookup q := by
  unfold tableSet
  by_cases hq : q = p
  · subst hq
    rw [lookup_cons_self, if_pos rfl]
  · rw [lookup_cons_ne f hq, lookup_tableErase, if_neg hq, if_neg hq]

end BufferPoolManager

namespace ClockReplacer

theorem Pin_lst (r : ClockReplacer) (f : frame_id_t) : (r.Pin f).lst = r.lst.erase f := by
  unfold Pin
  by_cases h : f ∈ r.lst
  · simp only [h, if_true]
    exact List.eraseIdx_indexOf_eq_erase f r.lst
  · simp [h, List.erase_of_not_mem h]

theorem Pin_num_page (r : ClockReplacer) (f : frame_id_t) : (r.Pin f).num_page = r.num_page := by
  unfold Pin
  split <;> rfl

theorem Pin_of_not_mem (r : ClockReplacer) (f : frame_id_t) (h : f ∉ r.lst) : r.Pin f = r := by
  unfold Pin
  simp [h]

theorem Pin_hash (r : ClockReplacer) (f : frame_id_t) (h : f ∈ r.lst) :
    (r.Pin f).hash = Function.update r.hash f false := by
  unfold Pin
  simp [h]

theorem sweep_lst (fuel : Nat) (r r1 : ClockReplacer) (h : sweep fuel r = .ok r1) :
    r1.lst = r.lst ∧ r1.num_page = r.num_page := by
  induction fuel generalizing r with
  | zero => simp [sweep] at h
  | succ n ih =>
    unfold sweep at h
    by_cases hh : r.hash r.temp = true
    · simp only [hh, if_true] at h
      split at h
      · cases h
      · have h3 := ih _ h
        exact h3
    · simp only [hh] at h
      cases h
      exact ⟨rfl, rfl⟩

theorem nodup_set {l : List frame_id_t} (hl : l.Nodup) (i : Nat) (f : frame_id_t)
    (hf : f ∉ l) : (l.set i f).Nodup := by
  induction l generalizing i with
  | nil => simp
  | cons a l ih =>
    cases i with
    | zero =>
      simp only [List.set_cons_zero, List.nodup_cons] at hl ⊢
      exact ⟨fun h => hf (List.mem_cons_of_mem _ h), hl.2⟩
    | succ i =>
      simp only [List.set_cons_succ, List.nodup_cons] at hl ⊢
      refine ⟨fun h => ?_, ih hl.2 i (fun h => hf (List.mem_cons_of_mem _ h))⟩
      rcases List.mem_or_eq_of_mem_set h with h | h
      · exact hl.1 h
      · exact hf (h ▸ List.mem_cons_self _ _)

/-- What a returning `Unpin(f)` leaves tracked: every frame it tracks afterwards was
tracked before or is `f`, and the tracked frames stay distinct. -/
theorem Unpin_lst (r r1 : ClockReplacer) (f : frame_id_t) (h : r.Unpin f = .ok r1) :
    (∀ g ∈ r1.lst, g ∈ r.lst ∨ g = f) ∧ (r.lst.Nodup → r1.lst.Nodup) ∧
      r1.num_page = r.num_page := by
  unfold Unpin at h
  split at h
  · rename_i h1
    cases h
    refine ⟨fun g hg => by simpa using hg, fun hn => ?_, rfl⟩
    exact List.Nodup.append hn (List.nodup_singleton f) (by simpa using h1.1)
  · split at h
    · rename_i h2
      split at h
      · cases h
      · split at h
        · cases h
        · rename_i r2 hs
          cases h
          obtain ⟨e1, e2⟩ := sweep_lst _ _ _ hs
          simp only at e1
          refine ⟨fun g hg => ?_, fun hn => ?_, e2⟩
          · rcases List.mem_or_eq_of_mem_set hg with hg | hg
            · exact Or.inl (e1 ▸ hg)
            · exact Or.inr hg
          · exact nodup_set (e1 ▸ hn) _ _ (e1 ▸ h2)
    · split at h <;> cases h <;> exact ⟨fun g hg => Or.inl hg, fun hn => hn, rfl⟩

theorem Unpin_of_room (r : ClockReplacer) (f : frame_id_t) (h1 : f ∉ r.lst)
    (h2 : r.lst.length < r.num_page) :
    r.Unpin f = .ok { r with lst := r.lst ++ [f], ref := (r.lst ++ [f]).indexOf f,
                             hash := Function.update r.hash f true } := by
  unfold Unpin
  simp [h1, h2]

/-- Distinct frames below `n`, none of them `f < n`, are fewer than `n`. -/
theorem length_lt_of_nodup {l : List frame_id_t} {n : Nat} (hl : l.Nodup)
    (hlt : ∀ x ∈ l, x < n) {f : frame_id_t} (hf : f < n) (hfl : f ∉ l) : l.length < n := by
  have h1 : (f :: l).Nodup := List.nodup_cons.mpr ⟨hfl, hl⟩
  have h2 : (f :: l).toFinset ⊆ Finset.range n := by
    intro x hx
    simp only [List.toFinset_cons, Finset.mem_insert, List.mem_toFinset] at hx
    rcases hx with hx | hx
    · exact Finset.mem_range.mpr (hx ▸ hf)
    · exact Finset.mem_range.mpr (hlt x hx)
  have h3 := Finset.card_le_card h2
  rw [List.toFinset_card_of_nodup h1, Finset.card_range] at h3
  simpa using h3

end ClockReplacer

end bustub

namespace bustub

namespace BufferPoolManager

variable {D : Type}

theorem wellFormed_new [Inhabited D] (pool_size : Nat) (disk : DiskManager D)
    (hd : 0 ≤ disk.next_page_id_) : (BufferPoolManager.new pool_size disk).WellFormed where
  repl_cap := rfl
  free_nodup := List.nodup_range pool_size
  free_lt := fun f hf => List.mem_range.mp hf
  lst_nodup := List.nodup_nil
  lst_lt := fun f hf => by cases hf
  disjoint := fun f _ hf => by cases hf
  free_pin := fun _ _ => rfl
  lst_pin := fun _ _ => rfl
  cover := fun f hf _ => Or.inl (List.mem_range.mpr hf)
  table_lt := fun p f hf => by simp [find, BufferPoolManager.new] at hf
  table_free := fun p f hf => by simp [find, BufferPoolManager.new] at hf
  table_id := fun p f hf => by simp [find, BufferPoolManager.new] at hf
  free_id := fun _ _ => rfl
  no_invalid := rfl
  alloc := hd

/-- A pool that keeps the lists, the page ids and the pin counts of a well-formed pool and
has no page-table entry that pool lacks is well formed. -/
theorem wellFormed_of_same {b c : BufferPoolManager D} (h : b.WellFormed)
    (hps : c.pool_size_ = b.pool_size_) (hr : c.replacer_ = b.replacer_)
    (hfl : c.free_list_ = b.free_list_)
    (htab : ∀ x f, c.find x = some f → b.find x = some f)
    (hpin : ∀ g, (c.pages_ g).pin_count_ = (b.pages_ g).pin_count_)
    (hid : ∀ g, (c.pages_ g).page_id_ = (b.pages_ g).page_id_)
    (hd : c.disk_manager_.next_page_id_ = b.disk_manager_.next_page_id_) : c.WellFormed where
  repl_cap := by rw [hr, hps]; exact h.repl_cap
  free_nodup := hfl ▸ h.free_nodup
  free_lt := fun f hf => hps ▸ h.free_lt f (hfl ▸ hf)
  lst_nodup := hr ▸ h.lst_nodup
  lst_lt := fun f hf => hps ▸ h.lst_lt f (hr ▸ hf)
  disjoint := fun f hf => by rw [hr]; exact h.disjoint f (hfl ▸ hf)
  free_pin := fun f hf => by rw [hpin]; exact h.free_pin f (hfl ▸ hf)
  lst_pin := fun f hf => by rw [hpin]; exact h.lst_pin f (hr ▸ hf)
  cover := fun f hf hp => by
    rw [hfl, hr]
    exact h.cover f (hps ▸ hf) (hpin f ▸ hp)
  table_lt := fun p f hf => hps ▸ h.table_lt p f (htab p f hf)
  table_free := fun p f hf => by rw [hfl]; exact h.table_free p f (htab p f hf)
  table_id := fun p f hf => by rw [hid]; exact h.table_id p f (htab p f hf)
  free_id := fun f hf => by rw [hid]; exact h.free_id f (hfl ▸ hf)
  no_invalid := by
    cases hc : c.find INVALID_PAGE_ID with
    | none => rfl
    | some f => have := htab _ _ hc; rw [h.no_invalid] at this; cases this
  alloc := hd ▸ h.alloc

/-- Taking the head of the free list for the page `q` keeps the pool well formed. -/
theorem wellFormed_take_free {b c : BufferPoolManager D} (h : b.WellFormed)
    {f : frame_id_t} {rest : List frame_id_t} (hfree : b.free_list_ = f :: rest)
    {q : page_id_t} (hq : q ≠ INVALID_PAGE_ID)
    (hps : c.pool_size_ = b.pool_size_) (hr : c.replacer_ = b.replacer_)
    (hfl : c.free_list_ = rest)
    (htab : ∀ x, c.find x = if x = q then some f else b.find x)
    (hpg : ∀ g, g ≠ f → c.pages_ g = b.pages_ g)
    (hpin : (c.pages_ f).pin_count_ = (b.pages_ f).pin_count_ + 1)
    (hid : (c.pages_ f).page_id_ = q)
    (hd : 0 ≤ c.disk_manager_.next_page_id_) : c.WellFormed := by
  have hnd : f ∉ rest ∧ rest.Nodup := List.nodup_cons.mp (hfree ▸ h.free_nodup)
  have hmem : ∀ g, g ∈ rest → g ∈ b.free_list_ := fun g hg => hfree ▸ List.mem_cons_of_mem _ hg
  have hne : ∀ g, g ∈ rest → g ≠ f := fun g hg e => hnd.1 (e ▸ hg)
  have hf : f ∈ b.free_list_ := hfree ▸ List.mem_cons_self _ _
  refine
    { repl_cap := by rw [hr, hps]; exact h.repl_cap
      free_nodup := hfl ▸ hnd.2
      free_lt := fun g hg => hps ▸ h.free_lt g (hmem g (hfl ▸ hg))
      lst_nodup := hr ▸ h.lst_nodup
      lst_lt := fun g hg => hps ▸ h.lst_lt g (hr ▸ hg)
      disjoint := fun g hg => by rw [hr]; exact h.disjoint g (hmem g (hfl ▸ hg))
      free_pin := fun g hg => by
        rw [hpg g (hne g (hfl ▸ hg))]; exact h.free_pin g (hmem g (hfl ▸ hg))
      lst_pin := fun g hg => by
        have hg1 : g ∈ b.replacer_.lst := hr ▸ hg
        have : g ≠ f := fun e => h.disjoint f hf (e ▸ hg1)
        rw [hpg g this]; exact h.lst_pin g hg1
      cover := fun g hg hp => by
        have hgf : g ≠ f := fun e => by rw [e, hpin] at hp; omega
        rw [hpg g hgf] at hp
        rcases h.cover g (hps ▸ hg) hp with h1 | h1
        · rw [hfree] at h1
          rcases List.mem_cons.mp h1 with h2 | h2
          · exact absurd h2 hgf
          · exact Or.inl (hfl ▸ h2)
        · exact Or.inr (hr ▸ h1)
      table_lt := fun x g hx => by
        rw [htab] at hx
        split at hx
        · cases hx; exact hps ▸ h.free_lt f hf
        · exact hps ▸ h.table_lt x g hx
      table_free := fun x g hx => by
        rw [htab] at hx
        rw [hfl]
        split at hx
        · cases hx; exact hnd.1
        · exact fun hg => h.table_free x g hx (hmem g hg)
      table_id := fun x g hx => by
        rw [htab] at hx
        split at hx
        · rename_i e; cases hx; rw [hid, e]
        · have : g ≠ f := fun e => h.table_free x g hx (e ▸ hf)
          rw [hpg g this]; exact h.table_id x g hx
      free_id := fun g hg => by
        rw [hpg g (hne g (hfl ▸ hg))]; exact h.free_id g (hmem g (hfl ▸ hg))
      no_invalid := by
        rw [htab, if_neg (Ne.symm hq)]; exact h.no_invalid
      alloc := hd }

/-- Taking the front frame of the replacer for the page `q` keeps the pool well formed. -/
theorem wellFormed_take_victim {b c : BufferPoolManager D} (h : b.WellFormed)
    {f : frame_id_t} {rest : List frame_id_t} (hlst : b.replacer_.lst = f :: rest)
    {q : page_id_t} (hq : q ≠ INVALID_PAGE_ID)
    (hps : c.pool_size_ = b.pool_size_) (hr : c.replacer_.lst = rest)
    (hcap : c.replacer_.num_page = b.replacer_.num_page)
    (hfl : c.free_list_ = b.free_list_)
    (htab : ∀ x, c.find x =
      if x = q then some f else if x = (b.pages_ f).page_id_ then none else b.find x)
    (hpg : ∀ g, g ≠ f → c.pages_ g = b.pages_ g)
    (hpin : (c.pages_ f).pin_count_ = (b.pages_ f).pin_count_ + 1)
    (hid : (c.pages_ f).page_id_ = q)
    (hd : 0 ≤ c.disk_manager_.next_page_id_) : c.WellFormed := by
  have hnd : f ∉ rest ∧ rest.Nodup := List.nodup_cons.mp (hlst ▸ h.lst_nodup)
  have hmem : ∀ g, g ∈ rest → g ∈ b.replacer_.lst := fun g hg =>
    hlst ▸ List.mem_cons_of_mem _ hg
  have hne : ∀ g, g ∈ rest → g ≠ f := fun g hg e => hnd.1 (e ▸ hg)
  have hf : f ∈ b.replacer_.lst := hlst ▸ List.mem_cons_self _ _
  have hff : f ∉ b.free_list_ := fun hg => h.disjoint f hg hf
  refine
    { repl_cap := by rw [hcap, hps]; exact h.repl_cap
      free_nodup := hfl ▸ h.free_nodup
      free_lt := fun g hg => hps ▸ h.free_lt g (hfl ▸ hg)
      lst_nodup := hr ▸ hnd.2
      lst_lt := fun g hg => hps ▸ h.lst_lt g (hmem g (hr ▸ hg))
      disjoint := fun g hg hg1 => h.disjoint g (hfl ▸ hg) (hmem g (hr ▸ hg1))
      free_pin := fun g hg => by
        have hg1 : g ∈ b.free_list_ := hfl ▸ hg
        have : g ≠ f := fun e => hff (e ▸ hg1)
        rw [hpg g this]; exact h.free_pin g hg1
      lst_pin := fun g hg => by
        rw [hpg g (hne g (hr ▸ hg))]; exact h.lst_pin g (hmem g (hr ▸ hg))
      cover := fun g hg hp => by
        have hgf : g ≠ f := fun e => by rw [e, hpin] at hp; omega
        rw [hpg g hgf] at hp
        rcases h.cover g (hps ▸ hg) hp with h1 | h1
        · exact Or.inl (hfl ▸ h1)
        · rw [hlst] at h1
          rcases List.mem_cons.mp h1 with h2 | h2
          · exact absurd h2 hgf
          · exact Or.inr (hr ▸ h2)
      table_lt := fun x g hx => by
        rw [htab] at hx
        split at hx
        · cases hx; exact hps ▸ h.lst_lt f hf
        · split at hx
          · cases hx
          · exact hps ▸ h.table_lt x g hx
      table_free := fun x g hx => by
        rw [htab] at hx
        rw [hfl]
        split at hx
        · cases hx; exact hff
        · split at hx
          · cases hx
          · exact h.table_free x g hx
      table_id := fun x g hx => by
        rw [htab] at hx
        split at hx
        · rename_i e; cases hx; rw [hid, e]
        · split at hx
          · cases hx
          · rename_i hxo
            have : g ≠ f := fun e => hxo ((h.table_id x g hx).symm.trans (by rw [e]))
            rw [hpg g this]; exact h.table_id x g hx
      free_id := fun g hg => by
        have hg1 : g ∈ b.free_list_ := hfl ▸ hg
        have : g ≠ f := fun e => hff (e ▸ hg1)
        rw [hpg g this]; exact h.free_id g hg1
      no_invalid := by
        rw [htab, if_neg (Ne.symm hq)]
        split
        · rfl
        · exact h.no_invalid
      alloc := hd }

end BufferPoolManager

end bustub

namespace bustub

namespace ClockReplacer

theorem Victim_some {r r1 : ClockReplacer} {f : frame_id_t} (h : r.Victim = (some f, r1)) :
    ∃ rest, r.lst = f :: rest ∧ r1.lst = rest ∧ r1.num_page = r.num_page ∧
      r1.hash = Function.update r.hash f false ∧ r1.ref = r.ref := by
  unfold Victim at h
  split at h
  · cases h
  · rename_i g rest hl
    cases h
    exact ⟨rest, hl, rfl, rfl, rfl, rfl⟩

theorem Victim_none {r r1 : ClockReplacer} (h : r.Victim = (none, r1)) :
    r.lst = [] ∧ r1 = r := by
  unfold Victim at h
  split at h
  · rename_i hl
    cases h
    exact ⟨hl, rfl⟩
  · cases h

end ClockReplacer

namespace BufferPoolManager

variable {D : Type}

theorem wellFormed_fetch (b : BufferPoolManager D) (p : page_id_t) (h : b.WellFormed) :
    (b.FetchPageImpl p).1.WellFormed := by
  unfold FetchPageImpl
  by_cases hp : p = INVALID_PAGE_ID
  · rw [if_pos hp]; exact h
  · rw [if_neg hp]
    cases hf : b.find p with
    | some f =>
      simp only
      have hff : f ∉ b.free_list_ := h.table_free p f hf
      have hmem : ∀ g, g ∈ b.replacer_.lst.erase f → g ∈ b.replacer_.lst ∧ g ≠ f :=
        fun g hg => ⟨List.mem_of_mem_erase hg, fun e =>
          (List.Nodup.mem_erase_iff h.lst_nodup).mp hg |>.1 e⟩
      refine
        { repl_cap := by simpa [ClockReplacer.Pin_num_page] using h.repl_cap
          free_nodup := h.free_nodup
          free_lt := h.free_lt
          lst_nodup := by
            show (b.replacer_.Pin f).lst.Nodup
            rw [ClockReplacer.Pin_lst]; exact h.lst_nodup.erase f
          lst_lt := fun g hg => by
            have hg1 : g ∈ (b.replacer_.Pin f).lst := hg
            rw [ClockReplacer.Pin_lst] at hg1
            exact h.lst_lt g (hmem g hg1).1
          disjoint := fun g hg hg1 => by
            have hg2 : g ∈ (b.replacer_.Pin f).lst := hg1
            rw [ClockReplacer.Pin_lst] at hg2
            exact h.disjoint g hg (hmem g hg2).1
          free_pin := fun g hg => by
            have : g ≠ f := fun e => hff (e ▸ hg)
            show (Function.update b.pages_ f _ g).pin_count_ = 0
            rw [Function.update_noteq this]; exact h.free_pin g hg
          lst_pin := fun g hg => by
            have hg1 : g ∈ (b.replacer_.Pin f).lst := hg
            rw [ClockReplacer.Pin_lst] at hg1
            show (Function.update b.pages_ f _ g).pin_count_ = 0
            rw [Function.update_noteq (hmem g hg1).2]; exact h.lst_pin g (hmem g hg1).1
          cover := fun g hg hpin => by
            have hpin1 : (Function.update b.pages_ f
              { b.pages_ f with pin_count_ := (b.pages_ f).pin_count_ + 1 } g).pin_count_ = 0 :=
              hpin
            have hgf : g ≠ f := fun e => by
              rw [e, Function.update_same] at hpin1
              simp at hpin1
            rw [Function.update_noteq hgf] at hpin1
            rcases h.cover g hg hpin1 with h1 | h1
            · exact Or.inl h1
            · refine Or.inr ?_
              show g ∈ (b.replacer_.Pin f).lst
              rw [ClockReplacer.Pin_lst]
              exact (List.mem_erase_of_ne hgf).mpr h1
          table_lt := h.table_lt
          table_free := h.table_free
          table_id := fun x g hx => by
            show (Function.update b.pages_ f _ g).page_id_ = x
            by_cases hgf : g = f
            · rw [hgf, Function.update_same]
              exact h.table_id x f (hgf ▸ hx)
            · rw [Function.update_noteq hgf]; exact h.table_id x g hx
          free_id := fun g hg => by
            have : g ≠ f := fun e => hff (e ▸ hg)
            show (Function.update b.pages_ f _ g).page_id_ = _
            rw [Function.update_noteq this]; exact h.free_id g hg
          no_invalid := h.no_invalid
          alloc := h.alloc }
    | none =>
      simp only
      cases hfl : b.free_list_ with
      | cons f rest =>
        simp only
        refine wellFormed_take_free h hfl hp rfl rfl rfl
          (fun x => lookup_tableSet _ _ _ _) (fun g hg => Function.update_noteq hg _ _)
          ?_ ?_ h.alloc
        · show (Function.update b.pages_ f _ f).pin_count_ = _
          rw [Function.update_same]
        · show (Function.update b.pages_ f _ f).page_id_ = _
          rw [Function.update_same]
      | nil =>
        simp only
        cases hv : b.replacer_.Victim with
        | mk o r =>
          cases o with
          | none => exact h
          | some f =>
            simp only
            obtain ⟨rest, h1, h2, h3, -, -⟩ := ClockReplacer.Victim_some hv
            refine wellFormed_take_victim h h1 hp rfl h2 h3 hfl.symm
              (fun x => ?_) (fun g hg => Function.update_noteq hg _ _) ?_ ?_ ?_
            · show List.lookup x (tableSet (tableErase b.page_table_ _) p f) = _
              rw [lookup_tableSet, lookup_tableErase]; rfl
            · show (Function.update b.pages_ f _ f).pin_count_ = _
              rw [Function.update_same]
            · show (Function.update b.pages_ f _ f).page_id_ = _
              rw [Function.update_same]
            · show 0 ≤ (if (b.pages_ f).is_dirty_ = true then _ else _ :
                DiskManager D).next_page_id_
              split
              · exact h.alloc
              · exact h.alloc

theorem wellFormed_newPage [Inhabited D] (b : BufferPoolManager D) (h : b.WellFormed) :
    b.NewPageImpl.1.WellFormed := by
  have h0 : (0 : Int) ≤ b.disk_manager_.next_page_id_ := h.alloc
  have hne : b.disk_manager_.next_page_id_ ≠ INVALID_PAGE_ID := by
    intro e
    rw [e] at h0
    exact absurd h0 (by decide)
  unfold NewPageImpl
  cases hfl : b.free_list_ with
  | cons f rest =>
    simp only
    refine wellFormed_take_free h hfl hne rfl rfl rfl
      (fun x => lookup_tableSet _ _ _ _) (fun g hg => Function.update_noteq hg _ _)
      ?_ ?_ ?_
    · show (Function.update b.pages_ f _ f).pin_count_ = _
      rw [Function.update_same]
    · show (Function.update b.pages_ f _ f).page_id_ = _
      rw [Function.update_same]
      rfl
    · show (0 : Int) ≤ b.disk_manager_.next_page_id_ + 1
      omega
  | nil =>
    simp only
    cases hv : b.replacer_.Victim with
    | mk o r =>
      cases o with
      | none => exact h
      | some f =>
        simp only
        obtain ⟨rest, h1, h2, h3, -, -⟩ := ClockReplacer.Victim_some hv
        have hnx : ∀ d : DiskManager D,
            d = (if (b.pages_ f).is_dirty_ = true then
              b.disk_manager_.WritePage (b.pages_ f).page_id_ (b.pages_ f).data_
              else b.disk_manager_) → d.next_page_id_ = b.disk_manager_.next_page_id_ := by
          intro d hd
          rw [hd]
          split <;> rfl
        refine wellFormed_take_victim (q := b.disk_manager_.next_page_id_) h h1 hne rfl h2 h3
          hfl.symm
          (fun x => ?_) (fun g hg => ?_) ?_ ?_ ?_
        · show List.lookup x (tableSet (tableErase b.page_table_ _) _ f) = _
          rw [lookup_tableSet, lookup_tableErase, DiskManager.AllocatePage, hnx _ rfl]; rfl
        · show Function.update (Function.update b.pages_ f _) f _ g = _
          rw [Function.update_noteq hg, Function.update_noteq hg]
        · show (Function.update (Function.update b.pages_ f _) f _ f).pin_count_ = _
          rw [Function.update_same]
          show (Function.update b.pages_ f _ f).pin_count_ + 1 = _
          rw [Function.update_same]
        · show (Function.update (Function.update b.pages_ f _) f _ f).page_id_ = _
          rw [Function.update_same, DiskManager.AllocatePage, hnx _ rfl]
        · rw [DiskManager.AllocatePage]
          show (0 : Int) ≤ _ + 1
          rw [hnx _ rfl]
          omega

end BufferPoolManager

end bustub

namespace bustub

namespace BufferPoolManager

variable {D : Type}

/-- In a well-formed pool the replacer has room for a pinned frame of the page table. -/
theorem replacer_room {b : BufferPoolManager D} (h : b.WellFormed) {p : page_id_t}
    {f : frame_id_t} (hf : b.find p = some f) (hpin : (b.pages_ f).pin_count_ ≠ 0) :
    f ∉ b.replacer_.lst ∧ b.replacer_.lst.length < b.replacer_.num_page := by
  have h1 : f ∉ b.replacer_.lst := fun hm => hpin (h.lst_pin f hm)
  refine ⟨h1, ?_⟩
  rw [h.repl_cap]
  exact ClockReplacer.length_lt_of_nodup h.lst_nodup h.lst_lt (h.table_lt p f hf) h1

/-- What a returning `UnpinPageImpl` does to a well-formed pool: on a page that is not
resident or has pin count zero nothing; otherwise the pin count of the frame drops by
one, the dirty flag is or-ed with the argument, and the frame is appended to the frames
the replacer tracks when the count reaches zero. -/
theorem unpin_cases {b b1 : BufferPoolManager D} (h : b.WellFormed) {p : page_id_t}
    {is_dirty r : Bool} (hu : b.UnpinPageImpl p is_dirty = .ok (r, b1)) :
    (r = false ∧ b1 = b) ∨
    ∃ f, b.find p = some f ∧ 0 < (b.pages_ f).pin_count_ ∧ r = true ∧
      b1.pool_size_ = b.pool_size_ ∧ b1.page_table_ = b.page_table_ ∧
      b1.free_list_ = b.free_list_ ∧ b1.disk_manager_ = b.disk_manager_ ∧
      b1.replacer_.num_page = b.replacer_.num_page ∧
      b1.replacer_.lst =
        (if (b.pages_ f).pin_count_ = 1 then b.replacer_.lst ++ [f] else b.replacer_.lst) ∧
      (∀ g, g ≠ f → b1.pages_ g = b.pages_ g) ∧
      (b1.pages_ f).pin_count_ = (b.pages_ f).pin_count_ - 1 ∧
      (b1.pages_ f).page_id_ = (b.pages_ f).page_id_ ∧
      (b1.pages_ f).data_ = (b.pages_ f).data_ ∧
      (b1.pages_ f).is_dirty_ = ((b.pages_ f).is_dirty_ || is_dirty) := by
  unfold UnpinPageImpl at hu
  cases hf : b.find p with
  | none =>
    rw [hf] at hu
    cases hu
    exact Or.inl ⟨rfl, rfl⟩
  | some f =>
    rw [hf] at hu
    simp only at hu
    by_cases hlt : (b.pages_ f).pin_count_ < 1
    · rw [if_pos hlt] at hu
      cases hu
      exact Or.inl ⟨rfl, rfl⟩
    · rw [if_neg hlt] at hu
      have hpos : 0 < (b.pages_ f).pin_count_ := by omega
      obtain ⟨hn, hroom⟩ := replacer_room h hf (by omega)
      refine Or.inr ⟨f, rfl, hpos, ?_⟩
      by_cases h1 : (b.pages_ f).pin_count_ = 1
      · have e0 : (b.pages_ f).pin_count_ - 1 = 0 := by omega
        rw [if_pos e0, ClockReplacer.Unpin_of_room _ _ hn hroom] at hu
        simp only at hu
        cases hu
        refine ⟨rfl, rfl, rfl, rfl, rfl, rfl, by rw [if_pos h1], ?_, ?_, ?_, ?_, ?_⟩
        · intro g hg
          exact Function.update_noteq hg _ _
        · show (Function.update b.pages_ f _ f).pin_count_ = _
          rw [Function.update_same]
          cases is_dirty <;> rfl
        · show (Function.update b.pages_ f _ f).page_id_ = _
          rw [Function.update_same]
          cases is_dirty <;> rfl
        · show (Function.update b.pages_ f _ f).data_ = _
          rw [Function.update_same]
          cases is_dirty <;> rfl
        · show (Function.update b.pages_ f _ f).is_dirty_ = _
          rw [Function.update_same]
          cases is_dirty <;> simp
      · have e0 : ¬ (b.pages_ f).pin_count_ - 1 = 0 := by omega
        rw [if_neg e0] at hu
        simp only at hu
        cases hu
        refine ⟨rfl, rfl, rfl, rfl, rfl, rfl, by rw [if_neg h1], ?_, ?_, ?_, ?_, ?_⟩
        · intro g hg
          exact Function.update_noteq hg _ _
        · show (Function.update b.pages_ f _ f).pin_count_ = _
          rw [Function.update_same]
          cases is_dirty <;> rfl
        · show (Function.update b.pages_ f _ f).page_id_ = _
          rw [Function.update_same]
          cases is_dirty <;> rfl
        · show (Function.update b.pages_ f _ f).data_ = _
          rw [Function.update_same]
          cases is_dirty <;> rfl
        · show (Function.update b.pages_ f _ f).is_dirty_ = _
          rw [Function.update_same]
          cases is_dirty <;> simp

theorem wellFormed_unpin {b b1 : BufferPoolManager D} (h : b.WellFormed) {p : page_id_t}
    {is_dirty r : Bool} (hu : b.UnpinPageImpl p is_dirty = .ok (r, b1)) : b1.WellFormed := by
  rcases unpin_cases h hu with ⟨-, e⟩ | ⟨f, hf, hpos, -, hps, htab, hfl, hd, hcap, hlst, hpg, hpin,
    hid, -, -⟩
  · rw [e]; exact h
  have hff : f ∉ b.free_list_ := h.table_free p f hf
  have hfl1 : f ∉ b.replacer_.lst := fun hm => by have := h.lst_pin f hm; omega
  have hfind : ∀ x, b1.find x = b.find x := fun x => by unfold find; rw [htab]
  have hmem : ∀ g, g ∈ b1.replacer_.lst →
      (g ∈ b.replacer_.lst ∧ g ≠ f) ∨ (g = f ∧ (b.pages_ f).pin_count_ = 1) := by
    intro g hg
    rw [hlst] at hg
    split at hg
    · rename_i h1
      rcases List.mem_append.mp hg with h2 | h2
      · exact Or.inl ⟨h2, fun e => hfl1 (e ▸ h2)⟩
      · exact Or.inr ⟨by simpa using h2, h1⟩
    · exact Or.inl ⟨hg, fun e => hfl1 (e ▸ hg)⟩
  refine
    { repl_cap := by rw [hcap, hps]; exact h.repl_cap
      free_nodup := hfl ▸ h.free_nodup
      free_lt := fun g hg => hps ▸ h.free_lt g (hfl ▸ hg)
      lst_nodup := by
        rw [hlst]
        split
        · exact List.Nodup.append h.lst_nodup (List.nodup_singleton f) (by simpa using hfl1)
        · exact h.lst_nodup
      lst_lt := fun g hg => by
        rw [hps]
        rcases hmem g hg with h1 | h1
        · exact h.lst_lt g h1.1
        · rw [h1.1]; exact h.table_lt p f hf
      disjoint := fun g hg hg1 => by
        rw [hfl] at hg
        rcases hmem g hg1 with h1 | h1
        · exact h.disjoint g hg h1.1
        · exact hff (h1.1 ▸ hg)
      free_pin := fun g hg => by
        rw [hfl] at hg
        have : g ≠ f := fun e => hff (e ▸ hg)
        rw [hpg g this]; exact h.free_pin g hg
      lst_pin := fun g hg => by
        rcases hmem g hg with h1 | h1
        · rw [hpg g h1.2]; exact h.lst_pin g h1.1
        · rw [h1.1, hpin, h1.2]
      cover := fun g hg hp => by
        rw [hfl, hlst]
        by_cases hgf : g = f
        · subst hgf
          rw [hpin] at hp
          have : (b.pages_ g).pin_count_ = 1 := by omega
          rw [if_pos this]
          exact Or.inr (List.mem_append_right _ (List.mem_singleton_self g))
        · rw [hpg g hgf] at hp
          rcases h.cover g (hps ▸ hg) hp with h1 | h1
          · exact Or.inl h1
          · refine Or.inr ?_
            split
            · exact List.mem_append_left _ h1
            · exact h1
      table_lt := fun x g hx => hps ▸ h.table_lt x g (hfind x ▸ hx)
      table_free := fun x g hx => by rw [hfl]; exact h.table_free x g (hfind x ▸ hx)
      table_id := fun x g hx => by
        rw [hfind] at hx
        by_cases hgf : g = f
        · rw [hgf, hid]; exact h.table_id x f (hgf ▸ hx)
        · rw [hpg g hgf]; exact h.table_id x g hx
      free_id := fun g hg => by
        rw [hfl] at hg
        have : g ≠ f := fun e => hff (e ▸ hg)
        rw [hpg g this]; exact h.free_id g hg
      no_invalid := by rw [hfind]; exact h.no_invalid
      alloc := hd ▸ h.alloc }

theorem wellFormed_flush (b : BufferPoolManager D) (p : page_id_t) (h : b.WellFormed) :
    (b.FlushPageImpl p).2.WellFormed := by
  unfold FlushPageImpl
  split
  · exact h
  · split
    · exact h
    · rename_i f hf
      refine wellFormed_of_same h rfl rfl rfl (fun _ _ hx => hx) (fun g => ?_) (fun g => ?_) rfl
      · show (Function.update b.pages_ f _ g).pin_count_ = _
        by_cases hg : g = f
        · rw [hg, Function.update_same]
        · rw [Function.update_noteq hg]
      · show (Function.update b.pages_ f _ g).page_id_ = _
        by_cases hg : g = f
        · rw [hg, Function.update_same]
        · rw [Function.update_noteq hg]

/-- A returning `FlushAllPagesImpl` found the page table empty and changed nothing. -/
theorem FlushAllPagesImpl_ok {b b1 : BufferPoolManager D}
    (h : b.FlushAllPagesImpl = .ok b1) : b1 = b ∧ b.page_table_ = [] := by
  unfold FlushAllPagesImpl at h
  split at h
  · rename_i ht
    cases h
    exact ⟨rfl, ht⟩
  · cases h

theorem wellFormed_flushAll {b b1 : BufferPoolManager D} (h : b.WellFormed)
    (hf : b.FlushAllPagesImpl = .ok b1) : b1.WellFormed := by
  rw [(FlushAllPagesImpl_ok hf).1]
  exact h

theorem wellFormed_writeData (b : BufferPoolManager D) (f : frame_id_t) (d : D)
    (h : b.WellFormed) : (b.writeData f d).WellFormed := by
  refine wellFormed_of_same h rfl rfl rfl (fun _ _ hx => hx) (fun g => ?_) (fun g => ?_) rfl
  · show (Function.update b.pages_ f _ g).pin_count_ = _
    by_cases hg : g = f
    · rw [hg, Function.update_same]
    · rw [Function.update_noteq hg]
  · show (Function.update b.pages_ f _ g).page_id_ = _
    by_cases hg : g = f
    · rw [hg, Function.update_same]
    · rw [Function.update_noteq hg]

end BufferPoolManager

end bustub

namespace bustub

namespace BufferPoolManager

variable {D : Type}

theorem wellFormed_delete [Inhabited D] (b : BufferPoolManager D) (p : page_id_t)
    (h : b.WellFormed) : (b.DeletePageImpl p).2.WellFormed := by
  unfold DeletePageImpl
  cases hf : b.find p with
  | none =>
    exact wellFormed_of_same h rfl rfl rfl (fun _ _ hx => hx) (fun _ => rfl) (fun _ => rfl) rfl
  | some f =>
    simp only
    by_cases hpin : (b.pages_ f).pin_count_ > 0
    · rw [if_pos hpin]; exact h
    · rw [if_neg hpin]
      have hp0 : (b.pages_ f).pin_count_ = 0 := by omega
      have hff : f ∉ b.free_list_ := h.table_free p f hf
      have hid : (b.pages_ f).page_id_ = p := h.table_id p f hf
      have hmem : ∀ g, g ∈ (b.replacer_.Pin f).lst → g ∈ b.replacer_.lst ∧ g ≠ f := by
        intro g hg
        rw [ClockReplacer.Pin_lst] at hg
        exact ⟨List.mem_of_mem_erase hg, fun e =>
          ((List.Nodup.mem_erase_iff h.lst_nodup).mp hg).1 e⟩
      have hfind : ∀ x g, List.lookup x (tableErase b.page_table_ (b.pages_ f).page_id_) = some g →
          x ≠ p ∧ b.find x = some g := by
        intro x g hx
        rw [lookup_tableErase, hid] at hx
        split at hx
        · cases hx
        · rename_i hxp
          exact ⟨hxp, hx⟩
      have hgf : ∀ x g, x ≠ p → b.find x = some g → g ≠ f := fun x g hxp hx e =>
        hxp ((h.table_id x g hx).symm.trans (e ▸ hid))
      refine
        { repl_cap := by
            show (b.replacer_.Pin f).num_page = _
            rw [ClockReplacer.Pin_num_page]; exact h.repl_cap
          free_nodup := by
            show (b.free_list_ ++ [f]).Nodup
            exact List.Nodup.append h.free_nodup (List.nodup_singleton f) (by simpa using hff)
          free_lt := fun g hg => by
            have hg1 : g ∈ b.free_list_ ++ [f] := hg
            rcases List.mem_append.mp hg1 with h1 | h1
            · exact h.free_lt g h1
            · rw [List.mem_singleton.mp h1]; exact h.table_lt p f hf
          lst_nodup := by
            show (b.replacer_.Pin f).lst.Nodup
            rw [ClockReplacer.Pin_lst]; exact h.lst_nodup.erase f
          lst_lt := fun g hg => h.lst_lt g (hmem g hg).1
          disjoint := fun g hg hg1 => by
            have hg2 : g ∈ b.free_list_ ++ [f] := hg
            rcases List.mem_append.mp hg2 with h1 | h1
            · exact h.disjoint g h1 (hmem g hg1).1
            · exact (hmem g hg1).2 (List.mem_singleton.mp h1)
          free_pin := fun g hg => by
            have hg2 : g ∈ b.free_list_ ++ [f] := hg
            show (Function.update b.pages_ f _ g).pin_count_ = 0
            by_cases e : g = f
            · rw [e, Function.update_same]; exact hp0
            · rw [Function.update_noteq e]
              rcases List.mem_append.mp hg2 with h1 | h1
              · exact h.free_pin g h1
              · exact absurd (List.mem_singleton.mp h1) e
          lst_pin := fun g hg => by
            show (Function.update b.pages_ f _ g).pin_count_ = 0
            rw [Function.update_noteq (hmem g hg).2]; exact h.lst_pin g (hmem g hg).1
          cover := fun g hg hp => by
            show g ∈ b.free_list_ ++ [f] ∨ g ∈ (b.replacer_.Pin f).lst
            by_cases e : g = f
            · exact Or.inl (List.mem_append_right _ (e ▸ List.mem_singleton_self g))
            · have hp1 : (Function.update b.pages_ f
                { b.pages_ f with page_id_ := INVALID_PAGE_ID, is_dirty_ := false,
                                  data_ := default } g).pin_count_ = 0 := hp
              rw [Function.update_noteq e] at hp1
              rcases h.cover g hg hp1 with h1 | h1
              · exact Or.inl (List.mem_append_left _ h1)
              · refine Or.inr ?_
                rw [ClockReplacer.Pin_lst]
                exact (List.mem_erase_of_ne e).mpr h1
          table_lt := fun x g hx => h.table_lt x g (hfind x g hx).2
          table_free := fun x g hx hg => by
            have hg2 : g ∈ b.free_list_ ++ [f] := hg
            obtain ⟨h1, h2⟩ := hfind x g hx
            rcases List.mem_append.mp hg2 with h3 | h3
            · exact h.table_free x g h2 h3
            · exact hgf x g h1 h2 (List.mem_singleton.mp h3)
          table_id := fun x g hx => by
            obtain ⟨h1, h2⟩ := hfind x g hx
            show (Function.update b.pages_ f _ g).page_id_ = x
            rw [Function.update_noteq (hgf x g h1 h2)]; exact h.table_id x g h2
          free_id := fun g hg => by
            have hg2 : g ∈ b.free_list_ ++ [f] := hg
            show (Function.update b.pages_ f _ g).page_id_ = _
            by_cases e : g = f
            · rw [e, Function.update_same]
            · rw [Function.update_noteq e]
              rcases List.mem_append.mp hg2 with h1 | h1
              · exact h.free_id g h1
              · exact absurd (List.mem_singleton.mp h1) e
          no_invalid := by
            show List.lookup _ (tableErase b.page_table_ (b.pages_ f).page_id_) = none
            rw [lookup_tableErase]
            split
            · rfl
            · exact h.no_invalid
          alloc := h.alloc }

/-- Every state of a buffer pool is well formed. -/
theorem PoolReachable.wellFormed [Inhabited D] {b : BufferPoolManager D}
    (h : PoolReachable b) : b.WellFormed := by
  induction h with
  | construct pool_size disk hd => exact wellFormed_new pool_size disk hd
  | fetch b p _ ih => exact wellFormed_fetch b p ih
  | unpin b b1 p d r _ hu ih => exact wellFormed_unpin ih hu
  | flush b p _ ih => exact wellFormed_flush b p ih
  | newPage b _ ih => exact wellFormed_newPage b ih
  | delete b p _ ih => exact wellFormed_delete b p ih
  | flushAll b b1 _ hf ih => exact wellFormed_flushAll ih hf
  | write b f d _ ih => exact wellFormed_writeData b f d ih

end BufferPoolManager

end bustub

namespace bustub

namespace BufferPoolManager

variable {D : Type}

/-! ## The buffer pool: taking a frame -/

/-- The disk manager that `FetchPageImpl` and `NewPageImpl` leave after the write-back of
the frame `g` they took from the replacer. -/
theorem writeBack_next (b : BufferPoolManager D) (g : frame_id_t) :
    (if (b.pages_ g).is_dirty_ = true then
        b.disk_manager_.WritePage (b.pages_ g).page_id_ (b.pages_ g).data_
      else b.disk_manager_).next_page_id_ = b.disk_manager_.next_page_id_ := by
  split <;> rfl

theorem NewPageImpl_free [Inhabited D] {b : BufferPoolManager D} {f : frame_id_t}
    {rest : List frame_id_t} (hfl : b.free_list_ = f :: rest) :
    b.NewPageImpl =
      ({ b with
          free_list_ := rest
          disk_manager_ := b.disk_manager_.AllocatePage.2
          page_table_ := tableSet b.page_table_ b.disk_manager_.next_page_id_ f
          pages_ := Function.update b.pages_ f
            { data_ := default
              page_id_ := b.disk_manager_.next_page_id_
              is_dirty_ := true
              pin_count_ := (b.pages_ f).pin_count_ + 1 } },
        some (f, b.disk_manager_.next_page_id_)) := by
  unfold NewPageImpl
  rw [hfl]
  rfl

theorem NewPageImpl_victim [Inhabited D] {b : BufferPoolManager D} {f : frame_id_t}
    {r : ClockReplacer} (hfl : b.free_list_ = []) (hv : b.replacer_.Victim = (some f, r)) :
    b.NewPageImpl =
      ({ b with
          replacer_ := r
          disk_manager_ :=
            (if (b.pages_ f).is_dirty_ = true then
              b.disk_manager_.WritePage (b.pages_ f).page_id_ (b.pages_ f).data_
            else b.disk_manager_).AllocatePage.2
          page_table_ := tableSet (tableErase b.page_table_ (b.pages_ f).page_id_)
            b.disk_manager_.next_page_id_ f
          pages_ := Function.update b.pages_ f
            { data_ := default
              page_id_ := b.disk_manager_.next_page_id_
              is_dirty_ := true
              pin_count_ := (b.pages_ f).pin_count_ + 1 } },
        some (f, b.disk_manager_.next_page_id_)) := by
  unfold NewPageImpl
  rw [hfl, hv]
  simp only [DiskManager.AllocatePage, writeBack_next, Function.update_same,
    Function.update_idem]

theorem NewPageImpl_none [Inhabited D] {b : BufferPoolManager D}
    (hfl : b.free_list_ = []) (hl : b.replacer_.lst = []) : b.NewPageImpl = (b, none) :=
  NewPageImpl_exhausted ⟨hfl, hl⟩

theorem FetchPageImpl_free {b : BufferPoolManager D} {p : page_id_t} {f : frame_id_t}
    {rest : List frame_id_t} (hp : p ≠ INVALID_PAGE_ID) (hn : b.find p = none)
    (hfl : b.free_list_ = f :: rest) :
    b.FetchPageImpl p =
      ({ b with
          free_list_ := rest
          page_table_ := tableSet b.page_table_ p f
          pages_ := Function.update b.pages_ f
            { b.pages_ f with
              data_ := b.disk_manager_.ReadPage p
              page_id_ := p
              pin_count_ := (b.pages_ f).pin_count_ + 1 } },
        some f) := by
  unfold FetchPageImpl
  rw [if_neg hp, hn, hfl]

theorem FetchPageImpl_victim {b : BufferPoolManager D} {p : page_id_t} {f : frame_id_t}
    {r : ClockReplacer} (hp : p ≠ INVALID_PAGE_ID) (hn : b.find p = none)
    (hfl : b.free_list_ = []) (hv : b.replacer_.Victim = (some f, r)) :
    b.FetchPageImpl p =
      ({ b with
          replacer_ := r
          disk_manager_ :=
            if (b.pages_ f).is_dirty_ = true then
              b.disk_manager_.WritePage (b.pages_ f).page_id_ (b.pages_ f).data_
            else b.disk_manager_
          page_table_ := tableSet (tableErase b.page_table_ (b.pages_ f).page_id_) p f
          pages_ := Function.update b.pages_ f
            { b.pages_ f with
              is_dirty_ := false
              data_ :=
                (if (b.pages_ f).is_dirty_ = true then
                  b.disk_manager_.WritePage (b.pages_ f).page_id_ (b.pages_ f).data_
                else b.disk_manager_).ReadPage p
              page_id_ := p
              pin_count_ := (b.pages_ f).pin_count_ + 1 } },
        some f) := by
  unfold FetchPageImpl
  rw [if_neg hp, hn, hfl, hv]

theorem FetchPageImpl_none {b : BufferPoolManager D} {p : page_id_t}
    (hn : b.find p = none) (hfl : b.free_list_ = []) (hl : b.replacer_.lst = []) :
    b.FetchPageImpl p = (b, none) := by
  rw [FetchPageImpl_exhausted ⟨hfl, hl⟩, hn]
  split <;> rfl

theorem newPages_lists [Inhabited D] (k : Nat) (b : BufferPoolManager D)
    (h : b.replacer_.lst = []) :
    (newPages k b).replacer_.lst = [] ∧ (newPages k b).free_list_ = b.free_list_.drop k := by
  induction k generalizing b with
  | zero => exact ⟨h, rfl⟩
  | succ k ih =>
    obtain ⟨h1, h2⟩ := NewPageImpl_lists b h
    obtain ⟨h3, h4⟩ := ih b.NewPageImpl.1 h1
    refine ⟨h3, ?_⟩
    show (newPages k b.NewPageImpl.1).free_list_ = _
    rw [h4, h2, List.drop_tail]

end BufferPoolManager

end bustub

namespace bustub

namespace BufferPoolManager

variable {D : Type}

/-! ## The buffer pool: the claims on exhaustion, the frame classes, `NewPage`, `DeletePage` -/

/-- C11 (pinned exhaustion).  On a new pool of `n` frames, over any disk manager, each of
the first `n` calls of `NewPage` in a row (with no `Unpin`) succeeds, the call numbered `k`
taking the frame `k`; in the pool `b` they leave, a further `NewPage` returns `nullptr` and
`Fetch` of any page that is not resident returns `nullptr`, and either call leaves the whole
pool (page table, free list, replacer, frames and disk manager) as it is.  The statement
holds for every `n`, the case `n = 0` included. -/
theorem pinned_exhaustion [Inhabited D] (n : Nat) (disk : DiskManager D) :
    (∀ k, k < n →
      ∃ q, (newPages k (BufferPoolManager.new n disk)).NewPageImpl.2 = some (k, q)) ∧
    (newPages n (BufferPoolManager.new n disk)).NewPageImpl =
      (newPages n (BufferPoolManager.new n disk), none) ∧
    (∀ p, (newPages n (BufferPoolManager.new n disk)).find p = none →
      (newPages n (BufferPoolManager.new n disk)).FetchPageImpl p =
        (newPages n (BufferPoolManager.new n disk), none)) := by
  have hl : ∀ k, (newPages k (BufferPoolManager.new n disk)).replacer_.lst = [] ∧
      (newPages k (BufferPoolManager.new n disk)).free_list_ = (List.range n).drop k :=
    fun k => newPages_lists k _ rfl
  have hn : (newPages n (BufferPoolManager.new n disk)).free_list_ = [] := by
    rw [(hl n).2]
    exact List.drop_eq_nil_of_le (by simp)
  refine ⟨fun k hk => ?_, NewPageImpl_none hn (hl n).1, fun p hp =>
    FetchPageImpl_none hp hn (hl n).1⟩
  have hd : (List.range n).drop k = k :: (List.range n).drop (k + 1) := by
    rw [List.drop_eq_getElem_cons (by simpa using hk)]
    simp
  exact ⟨_, congrArg Prod.snd (NewPageImpl_free ((hl k).2.trans hd))⟩

end BufferPoolManager

/-- C11 on a pool of two frames over an empty disk: after two calls of `NewPage`, a third
one returns `nullptr` and so does `Fetch` of page 7, which is not resident. -/
theorem pinned_exhaustion_witness :
    (BufferPoolManager.newPages 2 (BufferPoolManager.new 2
      (DiskManager.fresh : DiskManager Nat))).find 7 = none ∧
    (BufferPoolManager.newPages 2 (BufferPoolManager.new 2
      (DiskManager.fresh : DiskManager Nat))).NewPageImpl.2 = none ∧
    ((BufferPoolManager.newPages 2 (BufferPoolManager.new 2
      (DiskManager.fresh : DiskManager Nat))).FetchPageImpl 7).2 = none :=
  ⟨rfl, congrArg Prod.snd (BufferPoolManager.pinned_exhaustion 2 DiskManager.fresh).2.1,
    congrArg Prod.snd ((BufferPoolManager.pinned_exhaustion 2 DiskManager.fresh).2.2 7 rfl)⟩

end bustub

namespace bustub

namespace BufferPoolManager

variable {D : Type}

theorem mem_pinnedFrames (b : BufferPoolManager D) (f : frame_id_t) :
    f ∈ b.pinnedFrames ↔ f < b.pool_size_ ∧ 0 < (b.pages_ f).pin_count_ := by
  unfold pinnedFrames
  rw [List.mem_filter, List.mem_range, decide_eq_true_iff]

/-- In a well-formed pool the free list, the pinned frames and the frames the replacer
tracks are, together, the frames of the pool, each once. -/
theorem classes_perm {b : BufferPoolManager D} (h : b.WellFormed) :
    (b.free_list_ ++ b.pinnedFrames ++ b.replacer_.lst).Perm (List.range b.pool_size_) := by
  have hp : b.pinnedFrames.Nodup := (List.nodup_range _).filter _
  have h1 : (b.free_list_ ++ b.pinnedFrames).Nodup := by
    refine List.Nodup.append h.free_nodup hp ?_
    intro f hf hf1
    have := h.free_pin f hf
    have := ((mem_pinnedFrames b f).mp hf1).2
    omega
  have h2 : (b.free_list_ ++ b.pinnedFrames ++ b.replacer_.lst).Nodup := by
    refine List.Nodup.append h1 h.lst_nodup ?_
    intro f hf hf1
    rcases List.mem_append.mp hf with h3 | h3
    · exact h.disjoint f h3 hf1
    · have := h.lst_pin f hf1
      have := ((mem_pinnedFrames b f).mp h3).2
      omega
  refine (List.perm_ext_iff_of_nodup h2 (List.nodup_range _)).mpr fun f => ?_
  rw [List.mem_append, List.mem_append, List.mem_range, mem_pinnedFrames]
  constructor
  · rintro ((h3 | h3) | h3)
    · exact h.free_lt f h3
    · exact h3.1
    · exact h.lst_lt f h3
  · intro hf
    by_cases hpin : (b.pages_ f).pin_count_ = 0
    · rcases h.cover f hf hpin with h3 | h3
      · exact Or.inl (Or.inl h3)
      · exact Or.inr h3
    · exact Or.inl (Or.inr ⟨hf, by omega⟩)

/-- C15 (frame partition).  In every state of the buffer pool: (1) each frame of the pool
is in exactly one of three classes (at least one, and no two of them): on the free list;
pinned, that is with a positive pin count and not tracked by the replacer; tracked by the
replacer with pin count zero; (2) the free list and the replacer hold no frame twice and
only frames of the pool, and the sizes of the three classes add up to `pool_size_`;
(3) the frame that `Fetch` of a page that is not resident, or `NewPage`, takes for the page
had pin count zero before the call. -/
theorem frame_partition [Inhabited D] (b : BufferPoolManager D) (hr : PoolReachable b) :
    (∀ f, f < b.pool_size_ →
      (f ∈ b.free_list_ ∨ (0 < (b.pages_ f).pin_count_ ∧ f ∉ b.replacer_.lst) ∨
        (f ∈ b.replacer_.lst ∧ (b.pages_ f).pin_count_ = 0)) ∧
      ¬ (f ∈ b.free_list_ ∧ (0 < (b.pages_ f).pin_count_ ∧ f ∉ b.replacer_.lst)) ∧
      ¬ (f ∈ b.free_list_ ∧ (f ∈ b.replacer_.lst ∧ (b.pages_ f).pin_count_ = 0)) ∧
      ¬ ((0 < (b.pages_ f).pin_count_ ∧ f ∉ b.replacer_.lst) ∧
        (f ∈ b.replacer_.lst ∧ (b.pages_ f).pin_count_ = 0))) ∧
    (b.free_list_.Nodup ∧ b.replacer_.lst.Nodup ∧
      (∀ f ∈ b.free_list_, f < b.pool_size_) ∧ (∀ f ∈ b.replacer_.lst, f < b.pool_size_) ∧
      b.free_list_.length + b.pinnedFrames.length + b.replacer_.Size = b.pool_size_) ∧
    (∀ p f, b.find p = none → (b.FetchPageImpl p).2 = some f → (b.pages_ f).pin_count_ = 0) ∧
    (∀ f q, b.NewPageImpl.2 = some (f, q) → (b.pages_ f).pin_count_ = 0) := by
  have h := hr.wellFormed
  refine ⟨fun f hf => ⟨?_, ?_, ?_, ?_⟩, ⟨h.free_nodup, h.lst_nodup, h.free_lt, h.lst_lt, ?_⟩,
    fun p f hp hfetch => ?_, fun f q hnew => ?_⟩
  · by_cases hpin : (b.pages_ f).pin_count_ = 0
    · rcases h.cover f hf hpin with h1 | h1
      · exact Or.inl h1
      · exact Or.inr (Or.inr ⟨h1, hpin⟩)
    · exact Or.inr (Or.inl ⟨by omega, fun hm => hpin (h.lst_pin f hm)⟩)
  · rintro ⟨h1, h2, -⟩
    have := h.free_pin f h1
    omega
  · rintro ⟨h1, h2, -⟩
    exact h.disjoint f h1 h2
  · rintro ⟨⟨-, h1⟩, h2, -⟩
    exact h1 h2
  · have := (classes_perm h).length_eq
    rw [List.length_append, List.length_append, List.length_range] at this
    exact this
  · by_cases hinv : p = INVALID_PAGE_ID
    · unfold FetchPageImpl at hfetch
      rw [if_pos hinv] at hfetch
      cases hfetch
    · cases hfl : b.free_list_ with
      | cons g rest =>
        rw [FetchPageImpl_free hinv hp hfl] at hfetch
        cases hfetch
        exact h.free_pin f (hfl ▸ List.mem_cons_self _ _)
      | nil =>
        cases hv : b.replacer_.Victim with
        | mk o r =>
          cases o with
          | none =>
            rw [FetchPageImpl_none hp hfl (ClockReplacer.Victim_none hv).1] at hfetch
            cases hfetch
          | some g =>
            rw [FetchPageImpl_victim hinv hp hfl hv] at hfetch
            cases hfetch
            obtain ⟨rest, h1, -⟩ := ClockReplacer.Victim_some hv
            exact h.lst_pin f (h1 ▸ List.mem_cons_self _ _)
  · cases hfl : b.free_list_ with
    | cons g rest =>
      rw [NewPageImpl_free hfl] at hnew
      cases hnew
      exact h.free_pin f (hfl ▸ List.mem_cons_self _ _)
    | nil =>
      cases hv : b.replacer_.Victim with
      | mk o r =>
        cases o with
        | none =>
          rw [NewPageImpl_none hfl (ClockReplacer.Victim_none hv).1] at hnew
          cases hnew
        | some g =>
          rw [NewPageImpl_victim hfl hv] at hnew
          cases hnew
          obtain ⟨rest, h1, -⟩ := ClockReplacer.Victim_some hv
          exact h.lst_pin f (h1 ▸ List.mem_cons_self _ _)

end BufferPoolManager

/-- The pool `pool2` is a state of the buffer pool. -/
theorem pool2_reachable : BufferPoolManager.PoolReachable pool2 :=
  BufferPoolManager.PoolReachable.newPage _
    (BufferPoolManager.PoolReachable.construct 2 DiskManager.fresh (by decide))

/-- C15 at the pool `pool2`: of its two frames, frame 0 is pinned and frame 1 is on the
free list; the class sizes are 1, 1 and 0; and `NewPage` takes frame 1, whose pin count
is zero. -/
theorem frame_partition_witness :
    BufferPoolManager.PoolReachable pool2 ∧
    pool2.free_list_.length + pool2.pinnedFrames.length + pool2.replacer_.Size =
      pool2.pool_size_ ∧
    pool2.NewPageImpl.2 = some (1, 1) ∧ (pool2.pages_ 1).pin_count_ = 0 :=
  ⟨pool2_reachable, (BufferPoolManager.frame_partition pool2 pool2_reachable).2.1.2.2.2.2, rfl,
    (BufferPoolManager.frame_partition pool2 pool2_reachable).2.2.2 1 1 rfl⟩

end bustub

namespace bustub

namespace BufferPoolManager

variable {D : Type}

/-- C16 (`NewPage` postcondition).  In every state of the buffer pool in which the free
list is not empty or the replacer tracks a frame, `NewPage` succeeds: it returns a frame
`f` and writes to `*page_id` the id `new_id` that `AllocatePage` hands out; `f` is the head
of the free list when that list is not empty, and otherwise the frame `Victim` returns
(the free list loses its head, or the replacer its victim); afterwards the frame has
zeroed data, page id `new_id`, the dirty flag set and pin count exactly 1, the page table
maps `new_id` to `f`, the page the frame held before (when it is not `new_id`) is no
longer in the page table, and the disk manager has moved on to the next id. -/
theorem newPage_postcondition [Inhabited D] (b : BufferPoolManager D) (hr : PoolReachable b)
    (hne : b.free_list_ ≠ [] ∨ b.replacer_.lst ≠ []) :
    ∃ f, b.NewPageImpl.2 = some (f, b.disk_manager_.AllocatePage.1) ∧
      (∀ g rest, b.free_list_ = g :: rest → f = g ∧ b.NewPageImpl.1.free_list_ = rest ∧
        b.NewPageImpl.1.replacer_ = b.replacer_) ∧
      (b.free_list_ = [] → b.replacer_.Victim.1 = some f ∧
        b.NewPageImpl.1.replacer_ = b.replacer_.Victim.2 ∧ b.NewPageImpl.1.free_list_ = []) ∧
      b.NewPageImpl.1.pages_ f =
        { page_id_ := b.disk_manager_.AllocatePage.1, pin_count_ := 1, is_dirty_ := true,
          data_ := default } ∧
      b.NewPageImpl.1.find b.disk_manager_.AllocatePage.1 = some f ∧
      ((b.pages_ f).page_id_ ≠ b.disk_manager_.AllocatePage.1 →
        b.NewPageImpl.1.find (b.pages_ f).page_id_ = none) ∧
      b.NewPageImpl.1.disk_manager_.next_page_id_ = b.disk_manager_.AllocatePage.1 + 1 := by
  have h := hr.wellFormed
  have hnew : b.disk_manager_.AllocatePage.1 = b.disk_manager_.next_page_id_ := rfl
  rw [hnew]
  cases hfl : b.free_list_ with
  | cons g rest =>
    have hg : g ∈ b.free_list_ := hfl ▸ List.mem_cons_self _ _
    rw [NewPageImpl_free hfl]
    refine ⟨g, rfl, ?_, ?_, ?_, ?_, ?_, rfl⟩
    · intro g1 rest1 e
      cases e
      exact ⟨rfl, rfl, rfl⟩
    · intro e
      cases e
    · show Function.update b.pages_ g _ g = _
      rw [Function.update_same, h.free_pin g hg]
    · show List.lookup _ (tableSet b.page_table_ _ g) = _
      rw [lookup_tableSet, if_pos rfl]
    · intro hold
      show List.lookup _ (tableSet b.page_table_ _ g) = _
      rw [lookup_tableSet, if_neg hold, h.free_id g hg]
      exact h.no_invalid
  | nil =>
    have hl : b.replacer_.lst ≠ [] := by
      rcases hne with h1 | h1
      · exact absurd hfl h1
      · exact h1
    cases hv : b.replacer_.Victim with
    | mk o r =>
      cases o with
      | none => exact absurd (ClockReplacer.Victim_none hv).1 hl
      | some g =>
        obtain ⟨rest, h1, -⟩ := ClockReplacer.Victim_some hv
        have hg : g ∈ b.replacer_.lst := h1 ▸ List.mem_cons_self _ _
        rw [NewPageImpl_victim hfl hv]
        refine ⟨g, rfl, ?_, ?_, ?_, ?_, ?_, ?_⟩
        · intro g1 rest1 e
          cases e
        · intro _
          exact ⟨rfl, rfl, hfl⟩
        · show Function.update b.pages_ g _ g = _
          rw [Function.update_same, h.lst_pin g hg]
        · show List.lookup _ (tableSet _ _ g) = _
          rw [lookup_tableSet, if_pos rfl]
        · intro hold
          show List.lookup _ (tableSet (tableErase b.page_table_ _) _ g) = _
          rw [lookup_tableSet, if_neg hold, lookup_tableErase, if_pos rfl]
        · show (_ : DiskManager D).next_page_id_ + 1 = _
          rw [writeBack_next]

/-- C17 (`DeletePage`).  In every state of the buffer pool and for every page id `p`:
(1) if `p` is not resident, `Delete(p)` returns `true` and leaves the frames, the page
table, the free list and the replacer as they are; (2) if `p` is resident with a positive
pin count, it returns `false` and leaves the whole pool as it is; (3) if `p` is resident in
the frame `f` with pin count zero, it returns `true`, `p` is no longer in the page table
(the other entries stay), `f` is appended to the back of the free list with page id
`INVALID_PAGE_ID`, pin count 0, the dirty flag clear and zeroed data (the other frames
stay), and the replacer no longer tracks `f` (it tracks the other frames as before). -/
theorem delete_semantics [Inhabited D] (b : BufferPoolManager D) (hr : PoolReachable b)
    (p : page_id_t) :
    (b.find p = none →
      (b.DeletePageImpl p).1 = true ∧ (b.DeletePageImpl p).2.pages_ = b.pages_ ∧
      (b.DeletePageImpl p).2.page_table_ = b.page_table_ ∧
      (b.DeletePageImpl p).2.free_list_ = b.free_list_ ∧
      (b.DeletePageImpl p).2.replacer_ = b.replacer_ ∧
      (b.DeletePageImpl p).2.pool_size_ = b.pool_size_) ∧
    (∀ f, b.find p = some f → 0 < (b.pages_ f).pin_count_ →
      b.DeletePageImpl p = (false, b)) ∧
    (∀ f, b.find p = some f → (b.pages_ f).pin_count_ = 0 →
      (b.DeletePageImpl p).1 = true ∧ (b.DeletePageImpl p).2.find p = none ∧
      (∀ x, x ≠ p → (b.DeletePageImpl p).2.find x = b.find x) ∧
      (b.DeletePageImpl p).2.free_list_ = b.free_list_ ++ [f] ∧
      (b.DeletePageImpl p).2.pages_ f =
        { page_id_ := INVALID_PAGE_ID, pin_count_ := 0, is_dirty_ := false,
          data_ := default } ∧
      (∀ g, g ≠ f → (b.DeletePageImpl p).2.pages_ g = b.pages_ g) ∧
      f ∉ (b.DeletePageImpl p).2.replacer_.lst ∧
      (b.DeletePageImpl p).2.replacer_.lst = b.replacer_.lst.erase f) := by
  have h := hr.wellFormed
  refine ⟨fun hn => ?_, fun f hf hpin => ?_, fun f hf hpin => ?_⟩
  · unfold DeletePageImpl
    rw [hn]
    exact ⟨rfl, rfl, rfl, rfl, rfl, rfl⟩
  · unfold DeletePageImpl
    rw [hf]
    simp only [gt_iff_lt, hpin, if_true]
  · have hnp : ¬ (b.pages_ f).pin_count_ > 0 := by omega
    have hid : (b.pages_ f).page_id_ = p := h.table_id p f hf
    unfold DeletePageImpl
    rw [hf]
    simp only [hnp, if_false]
    refine ⟨trivial, ?_, fun x hx => ?_, trivial, ?_, fun g hg => ?_, ?_, ?_⟩
    · show List.lookup p (tableErase b.page_table_ _) = none
      rw [lookup_tableErase, hid, if_pos rfl]
    · show List.lookup x (tableErase b.page_table_ _) = _
      rw [lookup_tableErase, hid, if_neg hx]
      rfl
    · show Function.update b.pages_ f _ f = _
      rw [Function.update_same, hpin]
    · show Function.update b.pages_ f _ g = _
      rw [Function.update_noteq hg]
    · show f ∉ (b.replacer_.Pin f).lst
      rw [ClockReplacer.Pin_lst]
      exact fun hm => ((List.Nodup.mem_erase_iff h.lst_nodup).mp hm).1 rfl
    · show (b.replacer_.Pin f).lst = _
      rw [ClockReplacer.Pin_lst]

end BufferPoolManager

/-- C16 at the pool `pool2`, whose free list holds frame 1: `NewPage` takes frame 1 for
the new page 1 and leaves it with zeroed data, dirty and pinned once. -/
theorem newPage_postcondition_witness :
    BufferPoolManager.PoolReachable pool2 ∧ pool2.free_list_ = [1] ∧
    ∃ f, pool2.NewPageImpl.2 = some (f, 1) ∧
      pool2.NewPageImpl.1.pages_ f =
        { page_id_ := 1, pin_count_ := 1, is_dirty_ := true, data_ := 0 } :=
  ⟨pool2_reachable, rfl,
    match BufferPoolManager.newPage_postcondition pool2 pool2_reachable (Or.inl (by decide)) with
    | ⟨f, h1, _, _, h2, _⟩ => ⟨f, h1, h2⟩⟩

/-- The pool `pool2u` is a state of the buffer pool. -/
theorem pool2u_reachable : BufferPoolManager.PoolReachable pool2u :=
  BufferPoolManager.PoolReachable.unpin pool2 pool2u 0 false true pool2_reachable rfl

/-- C17 at concrete pools: in `pool2` page 7 is not resident and `Delete(7)` returns
`true`, page 0 is pinned and `Delete(0)` returns `false`; in `pool2u` page 0 is resident in
frame 0 with pin count zero, `Delete(0)` returns `true` and puts frame 0 at the back of the
free list. -/
theorem delete_semantics_witness :
    (pool2.find 7 = none ∧ (pool2.DeletePageImpl 7).1 = true) ∧
    (pool2.find 0 = some 0 ∧ 0 < (pool2.pages_ 0).pin_count_ ∧
      (pool2.DeletePageImpl 0).1 = false) ∧
    (pool2u.find 0 = some 0 ∧ (pool2u.pages_ 0).pin_count_ = 0 ∧
      (pool2u.DeletePageImpl 0).1 = true ∧ (pool2u.DeletePageImpl 0).2.find 0 = none ∧
      (pool2u.DeletePageImpl 0).2.free_list_ = [1, 0]) :=
  ⟨⟨rfl, ((BufferPoolManager.delete_semantics pool2 pool2_reachable 7).1 rfl).1⟩,
    ⟨rfl, by decide,
      congrArg Prod.fst
        ((BufferPoolManager.delete_semantics pool2 pool2_reachable 0).2.1 0 rfl (by decide))⟩,
    ⟨rfl, rfl,
      ((BufferPoolManager.delete_semantics pool2u pool2u_reachable 0).2.2 0 rfl rfl).1,
      ((BufferPoolManager.delete_semantics pool2u pool2u_reachable 0).2.2 0 rfl rfl).2.1,
      ((BufferPoolManager.delete_semantics pool2u pool2u_reachable 0).2.2 0 rfl rfl).2.2.2.1⟩⟩

end bustub

namespace bustub

namespace BufferPoolManager

variable {D : Type}

/-! ## The buffer pool: write-back on eviction -/

end BufferPoolManager

end bustub

namespace bustub

namespace BufferPoolManager

variable {D : Type}

/-! ## The buffer pool: `FlushAllPages` -/

/-- On a pool with a resident page the loop of `FlushAllPagesImpl` uses the iterator of the
entry it has erased. -/
theorem FlushAllPagesImpl_resident {b : BufferPoolManager D} {p : page_id_t} {f : frame_id_t}
    (h : b.find p = some f) : b.FlushAllPagesImpl = .error .invalidIterator := by
  unfold FlushAllPagesImpl
  split
  · rename_i ht
    unfold find at h
    rw [ht] at h
    cases h
  · rfl

end BufferPoolManager

/-- C13 (`FlushAllPages` does not evict) fails in the code.  The first round of the loop of
`FlushAllPagesImpl` erases the page-table entry the iterator stands on and then reads
`iter->first` through that iterator, so on every pool with a resident page the call is
undefined behaviour: there is no state after the call in which the page table is the same
and the resident pages are still resident.  On `pool2`, where page 0 is resident in frame 0,
dirty and pinned once, the call is the fault `invalidIterator`; only on a pool with an
empty page table (as a new pool) does the call return, changing nothing. -/
theorem flushAll_uses_erased_iterator :
    (∀ (D : Type) (b : BufferPoolManager D) (p : page_id_t) (f : frame_id_t),
      b.find p = some f → b.FlushAllPagesImpl = .error .invalidIterator) ∧
    (pool2.find 0 = some 0 ∧ (pool2.pages_ 0).is_dirty_ = true ∧
      (pool2.pages_ 0).pin_count_ = 1 ∧
      pool2.FlushAllPagesImpl = .error .invalidIterator) ∧
    (BufferPoolManager.new 2 (DiskManager.fresh : DiskManager Nat)).FlushAllPagesImpl =
      .ok (BufferPoolManager.new 2 DiskManager.fresh) :=
  ⟨fun _ _ _ _ h => BufferPoolManager.FlushAllPagesImpl_resident h,
    ⟨rfl, rfl, rfl, rfl⟩, rfl⟩

/-- C14, as the claim states it, fails in the code.  On a new pool of two frames over an
empty disk, `Fetch(0)` loads page 0, which the disk manager has not handed out yet, into
frame 0; `NewPage` then takes frame 1 and is handed the id 0.  In the state this leaves,
a state of the buffer pool, the frames 0 and 1 both hold page 0, and the page table maps
page 0 to frame 1 only: frame 0 holds a page that the page table does not map to it. -/
theorem newPage_reuses_resident_id :
    BufferPoolManager.PoolReachable
        ((BufferPoolManager.new 2 (DiskManager.fresh : DiskManager Nat)).FetchPageImpl
          0).1.NewPageImpl.1 ∧
      ((BufferPoolManager.new 2 (DiskManager.fresh : DiskManager Nat)).FetchPageImpl 0).2 =
        some 0 ∧
      ((BufferPoolManager.new 2 (DiskManager.fresh : DiskManager Nat)).FetchPageImpl
        0).1.NewPageImpl.2 = some (1, 0) ∧
      ((((BufferPoolManager.new 2 (DiskManager.fresh : DiskManager Nat)).FetchPageImpl
        0).1.NewPageImpl.1).pages_ 0).page_id_ = 0 ∧
      ((((BufferPoolManager.new 2 (DiskManager.fresh : DiskManager Nat)).FetchPageImpl
        0).1.NewPageImpl.1).pages_ 1).page_id_ = 0 ∧
      (0 : page_id_t) ≠ INVALID_PAGE_ID ∧
      (((BufferPoolManager.new 2 (DiskManager.fresh : DiskManager Nat)).FetchPageImpl
        0).1.NewPageImpl.1).find 0 = some 1 :=
  ⟨BufferPoolManager.PoolReachable.newPage _
      (BufferPoolManager.PoolReachable.fetch _ 0
        (BufferPoolManager.PoolReachable.construct 2 DiskManager.fresh (by decide))),
    by decide!, by decide!, by decide!, by decide!, by decide, by decide!⟩

end bustub

namespace bustub

namespace ClockReplacer

/-! ## The replacer: `Victim` and `Pin` -/

/-- The frames a replacer tracks are distinct in every state. -/
theorem ReplacerReachable.nodup {r : ClockReplacer} (h : ReplacerReachable r) : r.lst.Nodup := by
  induction h with
  | construct n => exact List.nodup_nil
  | step r r1 c out _ hc ih =>
    cases c with
    | victim =>
      have hv : r.Victim = (out, r1) := Except.ok.inj hc
      cases out with
      | none => rw [(Victim_none hv).2]; exact ih
      | some f =>
        obtain ⟨rest, hl, h2, -⟩ := Victim_some hv
        rw [h2]
        exact (List.nodup_cons.mp (hl ▸ ih)).2
    | pin f =>
      have hv : (none, r.Pin f) = (out, r1) := Except.ok.inj hc
      cases hv
      rw [Pin_lst]
      exact ih.erase f
    | unpin f =>
      change Except.map _ (r.Unpin f) = _ at hc
      cases hu : r.Unpin f with
      | error e => rw [hu] at hc; cases hc
      | ok r2 =>
        rw [hu] at hc
        cases hc
        exact (Unpin_lst r _ f hu).2.1 ih

/-- A call other than `Unpin(f)` on a replacer that does not track `f` does not return
`f` and leaves `f` untracked. -/
theorem call_untracked {r r1 : ClockReplacer} {c : Call} {out : Option frame_id_t}
    {f : frame_id_t} (hf : f ∉ r.lst) (hc : r.call c = .ok (out, r1)) (hne : c ≠ .unpin f) :
    out ≠ some f ∧ f ∉ r1.lst := by
  cases c with
  | victim =>
    have hv : r.Victim = (out, r1) := Except.ok.inj hc
    cases out with
    | none => rw [(Victim_none hv).2]; exact ⟨by simp, hf⟩
    | some g =>
      obtain ⟨rest, hl, h2, -⟩ := Victim_some hv
      rw [hl] at hf
      rw [h2]
      refine ⟨fun e => ?_, fun hm => hf (List.mem_cons_of_mem _ hm)⟩
      cases e
      exact hf (List.mem_cons_self _ _)
  | pin g =>
    have hv : (none, r.Pin g) = (out, r1) := Except.ok.inj hc
    cases hv
    rw [Pin_lst]
    exact ⟨by simp, fun hm => hf (List.mem_of_mem_erase hm)⟩
  | unpin g =>
    change Except.map _ (r.Unpin g) = _ at hc
    cases hu : r.Unpin g with
    | error e => rw [hu] at hc; cases hc
    | ok r2 =>
      rw [hu] at hc
      cases hc
      refine ⟨by simp, fun hm => ?_⟩
      rcases (Unpin_lst r _ g hu).1 f hm with h1 | h1
      · exact hf h1
      · exact hne (by rw [h1])

theorem runCalls_untracked (cs : List Call) {r r1 : ClockReplacer}
    {outs : List (Option frame_id_t)} {f : frame_id_t} (hf : f ∉ r.lst)
    (hcs : Call.unpin f ∉ cs) (hrun : r.runCalls cs = .ok (outs, r1)) :
    some f ∉ outs ∧ f ∉ r1.lst := by
  induction cs generalizing r outs with
  | nil =>
    cases hrun
    exact ⟨by simp, hf⟩
  | cons c cs ih =>
    unfold runCalls at hrun
    cases hc : r.call c with
    | error e => rw [hc] at hrun; cases hrun
    | ok x =>
      obtain ⟨out, r2⟩ := x
      rw [hc] at hrun
      simp only at hrun
      cases hr2 : r2.runCalls cs with
      | error e => rw [hr2] at hrun; cases hrun
      | ok y =>
        obtain ⟨outs2, r3⟩ := y
        rw [hr2] at hrun
        cases hrun
        have hne : c ≠ .unpin f := fun e => hcs (e ▸ List.mem_cons_self _ _)
        obtain ⟨h1, h2⟩ := call_untracked hf hc hne
        obtain ⟨h3, h4⟩ := ih h2 (fun hm => hcs (List.mem_cons_of_mem _ hm)) hr2
        refine ⟨fun hm => ?_, h4⟩
        rcases List.mem_cons.mp hm with h5 | h5
        · exact h1 h5.symm
        · exact h3 h5

/-- C18, as the claim states it, fails in the code.  On `replacer3` (capacity 3, the
frames 0, 1, 2 tracked, every reference bit set) `Victim` returns frame 0 and clears the
bit of frame 0 only: the frames 1 and 2 stay tracked with their reference bits still
set. -/
theorem victim_leaves_reference_bits :
    replacer3.num_page = 3 ∧ replacer3.lst = [0, 1, 2] ∧
    replacer3.hash 0 = true ∧ replacer3.hash 1 = true ∧ replacer3.hash 2 = true ∧
    replacer3.Victim.1 = some 0 ∧ replacer3.Victim.2.lst = [1, 2] ∧
    replacer3.Victim.2.hash 0 = false ∧
    replacer3.Victim.2.hash 1 = true ∧ replacer3.Victim.2.hash 2 = true := by
  decide

/-- C18 as amended.  `Victim` on a replacer that tracks no frame returns `false` and
leaves the replacer as it is; on any other replacer it makes no sweep: it removes and
returns the frame at the front of the tracked frames, whatever the reference bits and the
hand are, clears the reference bit of that frame, and leaves the order and the reference
bits of the other frames, the hand and the capacity as they are. -/
theorem victim_takes_front (r : ClockReplacer) :
    (r.lst = [] → r.Victim = (none, r)) ∧
    (∀ f rest, r.lst = f :: rest →
      r.Victim.1 = some f ∧ r.Victim.2.lst = rest ∧ r.Victim.2.hash f = false ∧
      (∀ g, g ≠ f → r.Victim.2.hash g = r.hash g) ∧
      r.Victim.2.ref = r.ref ∧ r.Victim.2.num_page = r.num_page) := by
  constructor
  · intro h
    unfold Victim
    rw [h]
  · intro f rest h
    unfold Victim
    rw [h]
    exact ⟨rfl, rfl, Function.update_same _ _ _, fun g hg => Function.update_noteq hg _ _,
      rfl, rfl⟩

/-- C19 (`Pin` of the replacer).  In every state `r` of the replacer and for every frame
`f`: (1) if `f` is tracked, `Pin(f)` removes it: the tracked frames afterwards are the
former ones without `f`, in the same order, `Size` drops by exactly 1, the reference bit of
`f` is clear and the bits of the other frames are as before; (2) if `f` is not tracked,
`Pin(f)` leaves the replacer as it is; (3) after `Pin(f)`, in any sequence of calls that
holds no `Unpin(f)`, no `Victim` returns `f`, and `f` is still not tracked at the end. -/
theorem pin_semantics (r : ClockReplacer) (hr : ReplacerReachable r) (f : frame_id_t) :
    (f ∈ r.lst →
      (r.Pin f).lst = r.lst.filter (fun g => decide (g ≠ f)) ∧ f ∉ (r.Pin f).lst ∧
      (r.Pin f).Size + 1 = r.Size ∧ (r.Pin f).hash f = false ∧
      ∀ g, g ≠ f → (r.Pin f).hash g = r.hash g) ∧
    (f ∉ r.lst → r.Pin f = r) ∧
    (∀ cs outs r1, Call.unpin f ∉ cs → (r.Pin f).runCalls cs = .ok (outs, r1) →
      some f ∉ outs ∧ f ∉ r1.lst) := by
  have hn := hr.nodup
  have hnot : f ∉ (r.Pin f).lst := by
    rw [Pin_lst]
    exact fun hm => ((List.Nodup.mem_erase_iff hn).mp hm).1 rfl
  refine ⟨fun hf => ⟨?_, hnot, ?_, ?_, fun g hg => ?_⟩, Pin_of_not_mem r f,
    fun cs outs r1 hcs hrun => runCalls_untracked cs hnot hcs hrun⟩
  · rw [Pin_lst, List.Nodup.erase_eq_filter hn]
    refine List.filter_congr fun x _ => ?_
    by_cases hx : x = f <;> simp [hx]
  · unfold Size
    rw [Pin_lst, List.length_erase_of_mem hf]
    have : 0 < r.lst.length := List.length_pos_of_mem hf
    omega
  · rw [Pin_hash r f hf, Function.update_same]
  · rw [Pin_hash r f hf, Function.update_noteq hg]

end ClockReplacer

/-- C18 as amended, on `replacer3`: `Victim` returns frame 0, the front of the tracked
frames, and the reference bit of frame 1 is as before. -/
theorem victim_takes_front_witness :
    replacer3.lst = [0, 1, 2] ∧ replacer3.Victim.1 = some 0 ∧
    replacer3.Victim.2.hash 1 = replacer3.hash 1 :=
  ⟨rfl, ((ClockReplacer.victim_takes_front replacer3).2 0 [1, 2] rfl).1,
    ((ClockReplacer.victim_takes_front replacer3).2 0 [1, 2] rfl).2.2.2.1 1 (by decide)⟩

/-- The replacer `replacer3` is a state of the replacer. -/
theorem replacer3_reachable : ClockReplacer.ReplacerReachable replacer3 :=
  ClockReplacer.ReplacerReachable.step _ replacer3 (.unpin 2) none
    (ClockReplacer.ReplacerReachable.step _ _ (.unpin 1) none
      (ClockReplacer.ReplacerReachable.step _ _ (.unpin 0) none
        (ClockReplacer.ReplacerReachable.construct 3) rfl) rfl) rfl

/-- C19 on `replacer3`, which tracks the frames 0, 1, 2: `Pin(1)` leaves the frames 0 and
2 tracked, and the two `Victim` calls that follow return the frames 0 and 2, not 1;
frame 7 is not tracked and `Pin(7)` changes nothing. -/
theorem pin_semantics_witness :
    ClockReplacer.ReplacerReachable replacer3 ∧ 1 ∈ replacer3.lst ∧
    (replacer3.Pin 1).lst = [0, 2] ∧ 7 ∉ replacer3.lst ∧ replacer3.Pin 7 = replacer3 ∧
    ((replacer3.Pin 1).runCalls [.victim, .victim]).map Prod.fst = .ok [some 0, some 2] ∧
    some 1 ∉ [some 0, some 2] :=
  ⟨replacer3_reachable, by decide,
    ((ClockReplacer.pin_semantics replacer3 replacer3_reachable 1).1 (by decide)).1,
    by decide, (ClockReplacer.pin_semantics replacer3 replacer3_reachable 7).2.1 (by decide),
    rfl,
    ((ClockReplacer.pin_semantics replacer3 replacer3_reachable 1).2.2 [.victim, .victim]
      [some 0, some 2] ((replacer3.Pin 1).Victim.2.Victim.2) (by decide) rfl).1⟩

end bustub

namespace bustub

namespace HashTableBlockPage

variable {K V : Type}

/-! ## The block page: `Insert` and `Remove` -/

/-- C20 (`Insert` of the block page).  For every block page and slot `i`: (1) if slot `i`
is occupied, `Insert(i, k, v)` returns `false` and leaves the page as it is; (2) otherwise
it returns `true`, and afterwards `IsOccupied(i)` and `IsReadable(i)` are true, `KeyAt(i)`
is `k`, `ValueAt(i)` is `v`, and the occupied bit, the readable bit and the entry of every
other slot are as before; a `Remove(i)` after it makes `IsReadable(i)` false, keeps
`IsOccupied(i)` true, and leaves the entries, the occupied bits and the readable bits of
the other slots as they are. -/
theorem block_insert_semantics (blk : HashTableBlockPage K V) (i : Nat) (k : K) (v : V) :
    (blk.IsOccupied i = true → blk.Insert i k v = (false, blk)) ∧
    (blk.IsOccupied i = false →
      (blk.Insert i k v).1 = true ∧
      (blk.Insert i k v).2.IsOccupied i = true ∧ (blk.Insert i k v).2.IsReadable i = true ∧
      (blk.Insert i k v).2.KeyAt i = k ∧ (blk.Insert i k v).2.ValueAt i = v ∧
      (∀ j, j ≠ i →
        (blk.Insert i k v).2.IsOccupied j = blk.IsOccupied j ∧
        (blk.Insert i k v).2.IsReadable j = blk.IsReadable j ∧
        (blk.Insert i k v).2.KeyAt j = blk.KeyAt j ∧
        (blk.Insert i k v).2.ValueAt j = blk.ValueAt j) ∧
      ((blk.Insert i k v).2.Remove i).IsReadable i = false ∧
      ((blk.Insert i k v).2.Remove i).IsOccupied i = true ∧
      ((blk.Insert i k v).2.Remove i).array_ = (blk.Insert i k v).2.array_ ∧
      ((blk.Insert i k v).2.Remove i).occupied_ = (blk.Insert i k v).2.occupied_ ∧
      ∀ j, j ≠ i →
        ((blk.Insert i k v).2.Remove i).IsReadable j = (blk.Insert i k v).2.IsReadable j) := by
  constructor
  · intro h
    unfold Insert
    rw [show blk.occupied_ i = true from h]
    rfl
  · intro h
    have h0 : blk.occupied_ i = false := h
    have hi : blk.Insert i k v =
        (true,
          { occupied_ := Function.update blk.occupied_ i true
            array_ := Function.update blk.array_ i (k, v)
            readable_ := Function.update blk.readable_ i true }) := by
      unfold Insert
      rw [h0]
      rfl
    rw [hi]
    refine ⟨rfl, ?_, ?_, ?_, ?_, fun j hj => ⟨?_, ?_, ?_, ?_⟩, ?_, ?_, rfl, rfl, fun j hj => ?_⟩
    · show Function.update blk.occupied_ i true i = true
      rw [Function.update_same]
    · show Function.update blk.readable_ i true i = true
      rw [Function.update_same]
    · show (Function.update blk.array_ i (k, v) i).1 = k
      rw [Function.update_same]
    · show (Function.update blk.array_ i (k, v) i).2 = v
      rw [Function.update_same]
    · show Function.update blk.occupied_ i true j = _
      rw [Function.update_noteq hj]
      rfl
    · show Function.update blk.readable_ i true j = _
      rw [Function.update_noteq hj]
      rfl
    · show (Function.update blk.array_ i (k, v) j).1 = _
      rw [Function.update_noteq hj]
      rfl
    · show (Function.update blk.array_ i (k, v) j).2 = _
      rw [Function.update_noteq hj]
      rfl
    · show Function.update (Function.update blk.readable_ i true) i false i = false
      rw [Function.update_same]
    · show Function.update blk.occupied_ i true i = true
      rw [Function.update_same]
    · show Function.update (Function.update blk.readable_ i true) i false j = _
      rw [Function.update_noteq hj]
      rfl

end HashTableBlockPage

/-- C20 on an all-zero block page with integer keys and values: slot 3 is not occupied,
`Insert(3, 10, 100)` returns `true` and stores the pair, a second `Insert(3, 11, 110)`
returns `false`, and `Remove(3)` leaves the slot occupied and not readable. -/
theorem block_insert_semantics_witness :
    (HashTableBlockPage.zeroed : HashTableBlockPage Int Int).IsOccupied 3 = false ∧
    ((HashTableBlockPage.zeroed : HashTableBlockPage Int Int).Insert 3 10 100).1 = true ∧
    ((HashTableBlockPage.zeroed : HashTableBlockPage Int Int).Insert 3 10 100).2.KeyAt 3 = 10 ∧
    ((HashTableBlockPage.zeroed : HashTableBlockPage Int Int).Insert 3 10 100).2.IsOccupied 3 =
      true ∧
    (((HashTableBlockPage.zeroed : HashTableBlockPage Int Int).Insert 3 10 100).2.Insert 3 11
      110).1 = false ∧
    (((HashTableBlockPage.zeroed : HashTableBlockPage Int Int).Insert 3 10 100).2.Remove
      3).IsReadable 3 = false :=
  ⟨rfl,
    ((HashTableBlockPage.block_insert_semantics HashTableBlockPage.zeroed 3 10 100).2 rfl).1,
    ((HashTableBlockPage.block_insert_semantics HashTableBlockPage.zeroed 3 10 100).2
      rfl).2.2.2.1,
    ((HashTableBlockPage.block_insert_semantics HashTableBlockPage.zeroed 3 10 100).2 rfl).2.1,
    congrArg Prod.fst
      ((HashTableBlockPage.block_insert_semantics
        ((HashTableBlockPage.zeroed : HashTableBlockPage Int Int).Insert 3 10 100).2 3 11 110).1
        rfl),
    ((HashTableBlockPage.block_insert_semantics HashTableBlockPage.zeroed 3 10 100).2
      rfl).2.2.2.2.2.2.1⟩

end bustub

namespace bustub

namespace ClockReplacer

/-! ## The replacer: the tracked frames, the hand and the sweep of `Unpin` -/

theorem sizePred_of_pos {c : Nat} (h1 : 1 ≤ c) (h2 : c < 18446744073709551616) : sizePred c = c - 1 := by
  unfold sizePred
  omega

/-- Clearing the set reference bit of a tracked frame leaves one tracked frame fewer with
its bit set. -/
theorem filter_update_length {l : List frame_id_t} (hl : l.Nodup) (h : frame_id_t → Bool)
    {a : frame_id_t} (ha : a ∈ l) (hha : h a = true) :
    (l.filter (Function.update h a false)).length + 1 = (l.filter h).length := by
  induction l with
  | nil => cases ha
  | cons x l ih =>
    obtain ⟨hx, hl1⟩ := List.nodup_cons.mp hl
    by_cases e : x = a
    · subst e
      have h1 : l.filter (Function.update h x false) = l.filter h := by
        refine List.filter_congr fun y hy => ?_
        have : y ≠ x := fun e => hx (e ▸ hy)
        rw [Function.update_noteq this]
      rw [List.filter_cons_of_neg (by rw [Function.update_same]; simp),
        List.filter_cons_of_pos hha, h1, List.length_cons]
    · have ha1 : a ∈ l := by
        rcases List.mem_cons.mp ha with h2 | h2
        · exact absurd h2.symm e
        · exact h2
      have hux : Function.update h a false x = h x := Function.update_noteq e _ _
      by_cases hhx : h x = true
      · rw [List.filter_cons_of_pos (by rw [hux]; exact hhx), List.filter_cons_of_pos hhx,
          List.length_cons, List.length_cons, ih hl1 ha1]
      · rw [List.filter_cons_of_neg (by rw [hux]; exact hhx), List.filter_cons_of_neg hhx,
          ih hl1 ha1]

/-- The sweep of `Unpin` on a full replacer: started on a tracked frame at a valid hand,
it returns as soon as its fuel exceeds the number of tracked frames with a set bit, stays
within the tracked frames, and changes neither them nor the capacity. -/
theorem sweep_ok (fuel : Nat) (r : ClockReplacer) (hn : r.lst.Nodup)
    (hfull : r.lst.length = r.num_page) (h1 : 1 ≤ r.num_page)
    (h2 : r.num_page < 18446744073709551616)
    (hmem : r.temp ∈ r.lst) (href : r.ref < r.lst.length)
    (hfuel : (r.lst.filter r.hash).length < fuel) :
    ∃ r1, sweep fuel r = .ok r1 ∧ r1.lst = r.lst ∧ r1.num_page = r.num_page ∧
      r1.ref < r.lst.length := by
  induction fuel generalizing r with
  | zero => omega
  | succ n ih =>
    unfold sweep
    by_cases hh : r.hash r.temp = true
    · rw [if_pos hh]
      have hex : ∃ i, (if r.ref < sizePred r.num_page then r.ref + 1 else 0) = i ∧
          i < r.lst.length := by
        refine ⟨_, rfl, ?_⟩
        rw [sizePred_of_pos h1 h2]
        split <;> omega
      obtain ⟨i, hdef, hi⟩ := hex
      simp only
      rw [hdef, List.getElem?_eq_getElem hi]
      simp only
      have hcount := filter_update_length hn r.hash hmem hh
      have hlt : (r.lst.filter (Function.update r.hash r.temp false)).length < n := by
        omega
      exact ih ⟨r.num_page, r.lst, Function.update r.hash r.temp false, i, r.lst.get ⟨i, hi⟩⟩
        hn hfull h1 h2 (List.get_mem _ _ _) hi hlt
    · rw [if_neg hh]
      exact ⟨r, rfl, rfl, rfl, href⟩

/-- `Unpin` of an untracked frame on a full replacer (capacity between 1 and the largest
`size_t`) with distinct tracked frames and a valid hand: the read `lst[ref]` is in
bounds, the sweep returns within `num_page + 1` rounds, and the call returns a replacer in
which one tracked frame is replaced by the new one. -/
theorem Unpin_full {r : ClockReplacer} {f : frame_id_t} (hn : r.lst.Nodup)
    (hfull : r.lst.length = r.num_page) (h1 : 1 ≤ r.num_page)
    (h2 : r.num_page < 18446744073709551616) (href : r.ref < r.lst.length) (hf : f ∉ r.lst) :
    ∃ t r2, r.lst[r.ref]? = some t ∧ sweep (r.num_page + 1) { r with temp := t } = .ok r2 ∧
      r2.ref < r.lst.length ∧ r2.num_page = r.num_page ∧
      r.Unpin f = .ok { r2 with hash := Function.update r2.hash f true,
                                lst := r.lst.set r2.ref f,
                                ref := (r.lst.set r2.ref f).indexOf f } := by
  have hcount : (r.lst.filter r.hash).length < r.lst.length + 1 :=
    Nat.lt_succ_of_le (List.length_filter_le _ _)
  obtain ⟨r2, e1, e2, e3, e4⟩ :=
    sweep_ok (r.lst.length + 1) ⟨r.num_page, r.lst, r.hash, r.ref, r.lst.get ⟨r.ref, href⟩⟩
      hn hfull h1 h2 (List.get_mem _ _ _) href hcount
  have e2' : r2.lst = r.lst := e2
  have e1' : sweep (r.num_page + 1) ⟨r.num_page, r.lst, r.hash, r.ref, r.lst.get ⟨r.ref, href⟩⟩
      = .ok r2 :=
    (congrArg (fun k => sweep (k + 1)
      ⟨r.num_page, r.lst, r.hash, r.ref, r.lst.get ⟨r.ref, href⟩⟩) hfull).symm.trans e1
  refine ⟨r.lst.get ⟨r.ref, href⟩, r2, List.getElem?_eq_getElem href, e1', e4, e3, ?_⟩
  unfold Unpin
  have hlt : ¬ r.lst.length < r.num_page := by omega
  rw [if_neg (fun h => hlt h.2), if_pos hf, List.getElem?_eq_getElem href]
  simp only
  rw [List.get_eq_getElem] at e1
  rw [e1]
  simp only [e2']

end ClockReplacer

end bustub

namespace bustub

namespace ClockReplacer

theorem call_num_page {r r1 : ClockReplacer} {c : Call} {out : Option frame_id_t}
    (hc : r.call c = .ok (out, r1)) : r1.num_page = r.num_page := by
  cases c with
  | victim =>
    have hv : r.Victim = (out, r1) := Except.ok.inj hc
    cases out with
    | none => rw [(Victim_none hv).2]
    | some f =>
      obtain ⟨rest, -, -, h3, -⟩ := Victim_some hv
      exact h3
  | pin f =>
    have hv : (none, r.Pin f) = (out, r1) := Except.ok.inj hc
    cases hv
    exact Pin_num_page r f
  | unpin f =>
    change Except.map _ (r.Unpin f) = _ at hc
    cases hu : r.Unpin f with
    | error e => rw [hu] at hc; cases hc
    | ok r2 =>
      rw [hu] at hc
      cases hc
      exact (Unpin_lst r _ f hu).2.2

/-- A returning call keeps the tracked frames distinct and within the capacity, and the
hand a valid index whenever the replacer is full. -/
theorem call_safe {r r1 : ClockReplacer} {c : Call} {out : Option frame_id_t}
    (hn : r.lst.Nodup) (hlen : r.lst.length ≤ r.num_page)
    (href : r.lst.length = r.num_page → r.ref < r.lst.length) (h1 : 1 ≤ r.num_page)
    (h2 : r.num_page < 18446744073709551616) (hc : r.call c = .ok (out, r1)) :
    r1.lst.Nodup ∧ r1.lst.length ≤ r1.num_page ∧
      (r1.lst.length = r1.num_page → r1.ref < r1.lst.length) := by
  have hnum := call_num_page hc
  rw [hnum]
  cases c with
  | victim =>
    have hv : r.Victim = (out, r1) := Except.ok.inj hc
    cases out with
    | none => rw [(Victim_none hv).2]; exact ⟨hn, hlen, href⟩
    | some f =>
      obtain ⟨rest, hl, h3, -⟩ := Victim_some hv
      rw [h3]
      rw [hl] at hn hlen
      have hlen1 : rest.length + 1 ≤ r.num_page := by simpa using hlen
      exact ⟨(List.nodup_cons.mp hn).2, by omega, fun e => by omega⟩
  | pin f =>
    have hv : (none, r.Pin f) = (out, r1) := Except.ok.inj hc
    cases hv
    by_cases hf : f ∈ r.lst
    · rw [Pin_lst]
      have hl := List.length_erase_of_mem hf
      have hpos : 0 < r.lst.length := List.length_pos_of_mem hf
      exact ⟨hn.erase f, by omega, fun e => by omega⟩
    · rw [Pin_of_not_mem r f hf]
      exact ⟨hn, hlen, href⟩
  | unpin f =>
    change Except.map _ (r.Unpin f) = _ at hc
    cases hu : r.Unpin f with
    | error e => rw [hu] at hc; cases hc
    | ok r2 =>
      rw [hu] at hc
      cases hc
      refine ⟨(Unpin_lst r _ f hu).2.1 hn, ?_⟩
      by_cases hf : f ∈ r.lst
      · have hr1 : r1.lst = r.lst ∧ r1.ref = r.lst.indexOf f := by
          unfold Unpin at hu
          rw [if_neg (fun h => h.1 hf), if_neg (fun h => h hf)] at hu
          split at hu <;> cases hu <;> exact ⟨rfl, rfl⟩
        rw [hr1.1, hr1.2]
        exact ⟨hlen, fun _ => List.indexOf_lt_length.mpr hf⟩
      · by_cases hroom : r.lst.length < r.num_page
        · rw [Unpin_of_room r f hf hroom] at hu
          cases hu
          refine ⟨?_, fun _ => ?_⟩
          · show (r.lst ++ [f]).length ≤ _
            rw [List.length_append, List.length_singleton]
            omega
          · show (r.lst ++ [f]).indexOf f < (r.lst ++ [f]).length
            exact List.indexOf_lt_length.mpr (List.mem_append_right _ (List.mem_singleton_self f))
        · have hfull : r.lst.length = r.num_page := by omega
          obtain ⟨t, r2, -, -, h5, -, h7⟩ := Unpin_full hn hfull h1 h2 (href hfull) hf
          rw [h7] at hu
          cases hu
          refine ⟨?_, fun _ => ?_⟩
          · show (r.lst.set r2.ref f).length ≤ _
            rw [List.length_set]
            exact hlen
          · show (r.lst.set r2.ref f).indexOf f < (r.lst.set r2.ref f).length
            exact List.indexOf_lt_length.mpr (List.mem_set _ _ h5 _)

/-- In every state of a replacer of capacity between 1 and the largest `size_t`, the
tracked frames are distinct and no more than the capacity, and the hand is a valid index
whenever the replacer is full. -/
theorem ReplacerReachable.safe {r : ClockReplacer} (h : ReplacerReachable r)
    (h1 : 1 ≤ r.num_page) (h2 : r.num_page < 18446744073709551616) :
    r.lst.Nodup ∧ r.lst.length ≤ r.num_page ∧
      (r.lst.length = r.num_page → r.ref < r.lst.length) := by
  induction h with
  | construct n =>
    refine ⟨List.nodup_nil, Nat.zero_le _, fun e => ?_⟩
    have e1 : (0 : Nat) = n := e
    have h3 : 1 ≤ n := h1
    omega
  | step r r1 c out _ hc ih =>
    have hnum := call_num_page hc
    obtain ⟨ihn, ihl, ihr⟩ := ih (hnum ▸ h1) (hnum ▸ h2)
    exact call_safe ihn ihl ihr (hnum ▸ h1) (hnum ▸ h2) hc

/-- C23 (structural safety of the replacer).  In every state of a replacer whose capacity
`num_page` is at least 1 (and a `size_t`): (1) the tracked frames are distinct; (2) `Size`
is at most the capacity; (3) when the replacer is full the hand `ref` is a valid index of
the tracked frames; (4) `Unpin` of an untracked frame on the full replacer reads `lst[ref]`
in bounds, its sweep returns within `num_page + 1` rounds, with the hand at a valid index,
and the call returns a replacer in which the frame at the hand is replaced by the new
frame, all other positions being as before, so that `Size` is still the capacity. -/
theorem replacer_structural_safety (r : ClockReplacer) (hr : ReplacerReachable r)
    (h1 : 1 ≤ r.num_page) (h2 : r.num_page < 2 ^ 64) :
    r.lst.Nodup ∧ r.Size ≤ r.num_page ∧ (r.Size = r.num_page → r.ref < r.lst.length) ∧
    ∀ f, f ∉ r.lst → r.Size = r.num_page →
      ∃ t r2 r1, r.lst[r.ref]? = some t ∧
        sweep (r.num_page + 1) { r with temp := t } = .ok r2 ∧ r2.ref < r.lst.length ∧
        r.Unpin f = .ok r1 ∧ r1.lst = r.lst.set r2.ref f ∧ f ∈ r1.lst ∧
        r1.Size = r.num_page ∧ r1.num_page = r.num_page := by
  have h2' : r.num_page < 18446744073709551616 := by
    have e : (2 : Nat) ^ 64 = 18446744073709551616 := by norm_num
    rw [e] at h2
    exact h2
  obtain ⟨hn, hlen, href⟩ := hr.safe h1 h2'
  refine ⟨hn, hlen, href, fun f hf hfull => ?_⟩
  obtain ⟨t, r2, e1, e2, e3, e4, e5⟩ := Unpin_full hn hfull h1 h2' (href hfull) hf
  refine ⟨t, r2, _, e1, e2, e3, e5, rfl, List.mem_set _ _ e3 _, ?_, e4⟩
  show (r.lst.set r2.ref f).length = _
  rw [List.length_set]
  exact hfull

end ClockReplacer

/-- C23 on `replacer3`, a full replacer of capacity 3 that tracks the frames 0, 1, 2 with
the hand at index 2: `Unpin(7)` returns, replaces the frame at index 2 by frame 7, and
`Size` stays 3. -/
theorem replacer_structural_safety_witness :
    ClockReplacer.ReplacerReachable replacer3 ∧ replacer3.num_page = 3 ∧
    replacer3.lst = [0, 1, 2] ∧ replacer3.ref = 2 ∧ replacer3.lst.Nodup ∧
    (replacer3.Unpin 7).map (fun r => (r.lst, r.Size)) = .ok ([0, 1, 7], 3) ∧
    ∃ r1, replacer3.Unpin 7 = .ok r1 ∧ r1.Size = replacer3.num_page :=
  ⟨replacer3_reachable, rfl, rfl, rfl,
    (ClockReplacer.replacer_structural_safety replacer3 replacer3_reachable (by decide)
      (by decide)).1,
    rfl,
    match (ClockReplacer.replacer_structural_safety replacer3 replacer3_reachable (by decide)
      (by decide)).2.2.2 7 (by decide) rfl with
    | ⟨_, _, r1, _, _, _, h4, _, _, h7, _⟩ => ⟨r1, h4, h7⟩⟩

end bustub

namespace bustub
open LinearProbeHashTable BufferPoolManager

/-! ## The hash table: placement and the starting address at concrete inputs -/

/-- C21 (code defect).  Pool of 3 frames, `num_buckets = 6` (2 slots per block), every key
hashing to 1, after `Insert(10, 100)`.  Before `Insert(20, 200)` the probe sequence of the
key starts at slot 1 of block 0, which is occupied, and goes on to slot 0 of block 1, the
first unoccupied slot of the sequence; slot 0 of block 0 is unoccupied too, and is not
that slot.  `Insert(20, 200)` returns `true` with no `Resize`; afterwards slot 0 of block 0
is occupied and holds the pair `(20, 200)`, and slot 0 of block 1 is still unoccupied.
The three lists of the result are: the starting position and the position after it; the
flags, in order: the result of `Insert(10, 100)`, the occupied bits before the second call
of slot 1 of block 0, of slot 0 of block 1 and of slot 0 of block 0, the result of
`Insert(20, 200)`, `num_buckets_` is still 6, the header page id is the same, and after
the call the occupied and readable bits of slot 0 of block 0, then those of slot 0 of
block 1; the key and the value in slot 0 of block 0 after the call. -/
theorem insert_stores_in_starting_block :
    (do
      let (ht, b) ← LinearProbeHashTable.new pool3 IntComparator 6 (fun _ => 1)
        (fun _ => INVALID_PAGE_ID)
      let (r1, ht, b) ← ht.Insert b 10 100
      let (b, hf) ← fetchData b ht.header_page_id_
      let first ← start ht b 20
      let (b, f0) ← fetchBlock b hf 0
      let old0 ← blockAt b f0
      let (b, f1) ← fetchBlock b hf 1
      let old1 ← blockAt b f1
      let (r2, ht1, b) ← ht.Insert b 20 200
      let (b, hf) ← fetchData b ht1.header_page_id_
      let (b, g0) ← fetchBlock b hf 0
      let new0 ← blockAt b g0
      let (b, g1) ← fetchBlock b hf 1
      let new1 ← blockAt b g1
      pure ([first, advance ht b first],
        [r1, old0.IsOccupied 1, old1.IsOccupied 0, old0.IsOccupied 0,
          r2, decide (ht1.num_buckets_ = 6), decide (ht1.header_page_id_ = ht.header_page_id_),
          new0.IsOccupied 0, new0.IsReadable 0, new1.IsOccupied 0, new1.IsReadable 0],
        [new0.KeyAt 0, new0.ValueAt 0]) :
      Except Fault (List (Nat × Nat) × List Bool × List Int)) =
    .ok ([(0, 1), (1, 0)],
      [true, true, false, false, true, true, true, true, true, false, false],
      [20, 200]) := by
  decide!

/-- C22 (code defect).  The constructor makes one block page per frame of the pool
whatever `num_buckets` is, and the probe takes `num_buckets / GetPoolSize()` slots per
block.  On a pool of 3 frames: (1) with `num_buckets = 7` the pool size is 3, the header
records 3 block pages and there are 2 slots per block, so 7 is not 3 times 2; a key with
hash 6 starts at `(3, 0)`, whose header index is not below 3, and `GetValue`, `Insert`
and `Remove` of that key read the directory out of range; a key with hash 0 starts at
`(0, 0)` and its probe is back at `(0, 0)` after 6 steps and at `(0, 1)` after 7;
(2) with `num_buckets = 2` there are 0 slots per block and the starting address divides
by zero. -/
theorem start_address_out_of_range :
    (do
      let (ht, b) ← LinearProbeHashTable.new pool3 IntComparator 7 (fun k => k.toNat)
        (fun _ => INVALID_PAGE_ID)
      let (b, hf) ← fetchData b ht.header_page_id_
      let h ← headerAt b hf
      let first6 ← start ht b 6
      let first0 ← start ht b 0
      pure ([b.GetPoolSize, h.NumBlocks, ht.num_buckets_ / b.GetPoolSize],
        [first6, first0, Nat.iterate (advance ht b) 6 first0,
          Nat.iterate (advance ht b) 7 first0]) :
      Except Fault (List Nat × List (Nat × Nat))) =
      .ok ([3, 3, 2], [(3, 0), (0, 0), (0, 0), (0, 1)]) ∧
    (do
      let (ht, b) ← LinearProbeHashTable.new pool3 IntComparator 7 (fun k => k.toNat)
        (fun _ => INVALID_PAGE_ID)
      let (g, res, _) ← ht.GetValue b 6 []
      pure (g, res) : Except Fault (Bool × List Int)) = .error .outOfRange ∧
    (do
      let (ht, b) ← LinearProbeHashTable.new pool3 IntComparator 7 (fun k => k.toNat)
        (fun _ => INVALID_PAGE_ID)
      let (g, _, _) ← ht.Insert b 6 60
      pure g : Except Fault Bool) = .error .outOfRange ∧
    (do
      let (ht, b) ← LinearProbeHashTable.new pool3 IntComparator 7 (fun k => k.toNat)
        (fun _ => INVALID_PAGE_ID)
      let (g, _) ← ht.Remove b 6 60
      pure g : Except Fault Bool) = .error .outOfRange ∧
    (do
      let (ht, b) ← LinearProbeHashTable.new pool3 IntComparator 2 (fun k => k.toNat)
        (fun _ => INVALID_PAGE_ID)
      let (b, _) ← fetchData b ht.header_page_id_
      let first ← start ht b 1
      pure (ht.num_buckets_ / b.GetPoolSize, first) :
      Except Fault (Nat × Nat × Nat)) = .error .divByZero ∧
    (do
      let (ht, b) ← LinearProbeHashTable.new pool3 IntComparator 2 (fun k => k.toNat)
        (fun _ => INVALID_PAGE_ID)
      let (g, res, _) ← ht.GetValue b 1 []
      pure (g, res) : Except Fault (Bool × List Int)) = .error .divByZero := by
  refine ⟨?_, ?_, ?_, ?_, ?_, ?_⟩ <;> decide!

end bustub

namespace bustub

namespace BufferPoolManager

variable {D : Type}

/-! ## The buffer pool: the page table when no page is fetched before it is allocated -/

theorem AllocatedReachable.poolReachable [Inhabited D] {b : BufferPoolManager D}
    (h : AllocatedReachable b) : PoolReachable b := by
  induction h with
  | construct pool_size disk hd => exact PoolReachable.construct pool_size disk hd
  | fetch b p _ _ ih => exact PoolReachable.fetch b p ih
  | unpin b b1 p d r _ hu ih => exact PoolReachable.unpin b b1 p d r ih hu
  | flush b p _ ih => exact PoolReachable.flush b p ih
  | newPage b _ ih => exact PoolReachable.newPage b ih
  | delete b p _ ih => exact PoolReachable.delete b p ih
  | flushAll b b1 _ hf ih => exact PoolReachable.flushAll b b1 ih hf
  | write b f d _ ih => exact PoolReachable.write b f d ih

theorem tableExact_new [Inhabited D] (pool_size : Nat) (disk : DiskManager D) :
    (BufferPoolManager.new pool_size disk).TableExact where
  held := fun f hf => absurd rfl hf
  below := fun p f hf => by simp [find, BufferPoolManager.new] at hf

/-- A pool with the page table, the page ids and the next page id of a pool whose page
table is exact has an exact page table. -/
theorem tableExact_of_same {b c : BufferPoolManager D} (t : b.TableExact)
    (htab : ∀ x, c.find x = b.find x)
    (hid : ∀ g, (c.pages_ g).page_id_ = (b.pages_ g).page_id_)
    (hd : c.disk_manager_.next_page_id_ = b.disk_manager_.next_page_id_) : c.TableExact where
  held := fun f hf => by
    rw [hid] at hf ⊢
    rw [htab]
    exact t.held f hf
  below := fun p f hf => by
    rw [hd]
    exact t.below p f (htab p ▸ hf)

/-- Giving the frame `f` to a page `q` that is not resident, after erasing the page the
frame held, keeps the page table exact. -/
theorem tableExact_take {b c : BufferPoolManager D} (t : b.TableExact) {f : frame_id_t}
    {q : page_id_t} (hq : b.find q = none)
    (htab : ∀ x, c.find x =
      if x = q then some f else if x = (b.pages_ f).page_id_ then none else b.find x)
    (hpg : ∀ g, g ≠ f → c.pages_ g = b.pages_ g) (hid : (c.pages_ f).page_id_ = q)
    (hle : b.disk_manager_.next_page_id_ ≤ c.disk_manager_.next_page_id_)
    (hlt : q < c.disk_manager_.next_page_id_) : c.TableExact where
  held := fun g hg => by
    by_cases e : g = f
    · rw [e, hid, htab, if_pos rfl]
    · rw [hpg g e] at hg ⊢
      have h1 := t.held g hg
      have h2 : (b.pages_ g).page_id_ ≠ q := fun e1 => by
        rw [e1, hq] at h1
        cases h1
      have h3 : (b.pages_ g).page_id_ ≠ (b.pages_ f).page_id_ := fun e1 => by
        have h4 := t.held f (e1 ▸ hg)
        rw [← e1, h1] at h4
        exact e (Option.some.inj h4)
      rw [htab, if_neg h2, if_neg h3]
      exact h1
  below := fun x g hx => by
    rw [htab] at hx
    split at hx
    · rename_i e
      rw [e]
      exact hlt
    · split at hx
      · cases hx
      · exact lt_of_lt_of_le (t.below x g hx) hle

theorem tableExact_fetch (b : BufferPoolManager D) (p : page_id_t) (h : b.WellFormed)
    (t : b.TableExact) (hp : p < b.disk_manager_.next_page_id_) :
    (b.FetchPageImpl p).1.TableExact := by
  by_cases hinv : p = INVALID_PAGE_ID
  · unfold FetchPageImpl
    rw [if_pos hinv]
    exact t
  · cases hf : b.find p with
    | some f =>
      unfold FetchPageImpl
      rw [if_neg hinv, hf]
      refine tableExact_of_same t (fun _ => rfl) (fun g => ?_) rfl
      show (Function.update b.pages_ f _ g).page_id_ = _
      by_cases e : g = f
      · rw [e, Function.update_same]
      · rw [Function.update_noteq e]
    | none =>
      cases hfl : b.free_list_ with
      | cons f rest =>
        rw [FetchPageImpl_free hinv hf hfl]
        have hfid : (b.pages_ f).page_id_ = INVALID_PAGE_ID :=
          h.free_id f (hfl ▸ List.mem_cons_self _ _)
        refine tableExact_take t hf (fun x => ?_) (fun g hg => Function.update_noteq hg _ _)
          ?_ (le_refl _) hp
        · show List.lookup x (tableSet b.page_table_ p f) = _
          rw [lookup_tableSet, hfid]
          by_cases e1 : x = p
          · rw [if_pos e1, if_pos e1]
          · rw [if_neg e1, if_neg e1]
            by_cases e2 : x = INVALID_PAGE_ID
            · rw [if_pos e2, e2]
              exact h.no_invalid
            · rw [if_neg e2]
              rfl
        · show (Function.update b.pages_ f _ f).page_id_ = _
          rw [Function.update_same]
      | nil =>
        cases hv : b.replacer_.Victim with
        | mk o r =>
          cases o with
          | none =>
            rw [FetchPageImpl_none hf hfl (ClockReplacer.Victim_none hv).1]
            exact t
          | some f =>
            rw [FetchPageImpl_victim hinv hf hfl hv]
            refine tableExact_take t hf (fun x => ?_) (fun g hg => Function.update_noteq hg _ _)
              ?_ ?_ ?_
            · show List.lookup x (tableSet (tableErase b.page_table_ _) p f) = _
              rw [lookup_tableSet, lookup_tableErase]
              rfl
            · show (Function.update b.pages_ f _ f).page_id_ = _
              rw [Function.update_same]
            · show _ ≤ (_ : DiskManager D).next_page_id_
              rw [writeBack_next]
            · show _ < (_ : DiskManager D).next_page_id_
              rw [writeBack_next]
              exact hp

theorem tableExact_newPage [Inhabited D] (b : BufferPoolManager D) (h : b.WellFormed)
    (t : b.TableExact) : b.NewPageImpl.1.TableExact := by
  have hq : b.find b.disk_manager_.next_page_id_ = none := by
    cases hf : b.find b.disk_manager_.next_page_id_ with
    | none => rfl
    | some f => exact absurd (t.below _ f hf) (lt_irrefl _)
  have h2 : b.disk_manager_.next_page_id_ < b.disk_manager_.next_page_id_ + 1 :=
    Int.lt_succ_self _
  have h1 : b.disk_manager_.next_page_id_ ≤ b.disk_manager_.next_page_id_ + 1 :=
    Int.le_of_lt h2
  cases hfl : b.free_list_ with
  | cons f rest =>
    rw [NewPageImpl_free hfl]
    have hfid : (b.pages_ f).page_id_ = INVALID_PAGE_ID :=
      h.free_id f (hfl ▸ List.mem_cons_self _ _)
    refine tableExact_take t hq (fun x => ?_) (fun g hg => Function.update_noteq hg _ _)
      ?_ h1 h2
    · show List.lookup x (tableSet b.page_table_ _ f) = _
      rw [lookup_tableSet, hfid]
      by_cases e1 : x = b.disk_manager_.next_page_id_
      · rw [if_pos e1, if_pos e1]
      · rw [if_neg e1, if_neg e1]
        by_cases e2 : x = INVALID_PAGE_ID
        · rw [if_pos e2, e2]
          exact h.no_invalid
        · rw [if_neg e2]
          rfl
    · show (Function.update b.pages_ f _ f).page_id_ = _
      rw [Function.update_same]
  | nil =>
    cases hv : b.replacer_.Victim with
    | mk o r =>
      cases o with
      | none =>
        rw [NewPageImpl_none hfl (ClockReplacer.Victim_none hv).1]
        exact t
      | some f =>
        rw [NewPageImpl_victim hfl hv]
        refine tableExact_take t hq (fun x => ?_) (fun g hg => Function.update_noteq hg _ _)
          ?_ ?_ ?_
        · show List.lookup x (tableSet (tableErase b.page_table_ _) _ f) = _
          rw [lookup_tableSet, lookup_tableErase]
          rfl
        · show (Function.update b.pages_ f _ f).page_id_ = _
          rw [Function.update_same]
        · show _ ≤ (_ : DiskManager D).next_page_id_ + 1
          rw [writeBack_next]
          exact h1
        · show _ < (_ : DiskManager D).next_page_id_ + 1
          rw [writeBack_next]
          exact h2

theorem tableExact_unpin {b b1 : BufferPoolManager D} (h : b.WellFormed) (t : b.TableExact)
    {p : page_id_t} {is_dirty r : Bool} (hu : b.UnpinPageImpl p is_dirty = .ok (r, b1)) :
    b1.TableExact := by
  rcases unpin_cases h hu with ⟨-, e⟩ | ⟨f, -, -, -, -, htab, -, hd, -, -, hpg, -, hid, -, -⟩
  · rw [e]; exact t
  refine tableExact_of_same t (fun x => by unfold find; rw [htab]) (fun g => ?_) (by rw [hd])
  by_cases e : g = f
  · rw [e, hid]
  · rw [hpg g e]

theorem tableExact_flush (b : BufferPoolManager D) (p : page_id_t) (t : b.TableExact) :
    (b.FlushPageImpl p).2.TableExact := by
  unfold FlushPageImpl
  split
  · exact t
  · split
    · exact t
    · rename_i f hf
      refine tableExact_of_same t (fun _ => rfl) (fun g => ?_) rfl
      show (Function.update b.pages_ f _ g).page_id_ = _
      by_cases e : g = f
      · rw [e, Function.update_same]
      · rw [Function.update_noteq e]

theorem tableExact_writeData (b : BufferPoolManager D) (f : frame_id_t) (d : D)
    (t : b.TableExact) : (b.writeData f d).TableExact := by
  refine tableExact_of_same t (fun _ => rfl) (fun g => ?_) rfl
  show (Function.update b.pages_ f _ g).page_id_ = _
  by_cases e : g = f
  · rw [e, Function.update_same]
  · rw [Function.update_noteq e]

theorem tableExact_delete [Inhabited D] (b : BufferPoolManager D) (p : page_id_t)
    (h : b.WellFormed) (t : b.TableExact) : (b.DeletePageImpl p).2.TableExact := by
  unfold DeletePageImpl
  cases hf : b.find p with
  | none => exact tableExact_of_same t (fun _ => rfl) (fun _ => rfl) rfl
  | some f =>
    simp only
    by_cases hpin : (b.pages_ f).pin_count_ > 0
    · rw [if_pos hpin]; exact t
    · rw [if_neg hpin]
      have hid : (b.pages_ f).page_id_ = p := h.table_id p f hf
      refine { held := fun g hg => ?_, below := fun x g hx => ?_ }
      · have hg1 : (Function.update b.pages_ f
            { b.pages_ f with page_id_ := INVALID_PAGE_ID, is_dirty_ := false,
                              data_ := default } g).page_id_ ≠ INVALID_PAGE_ID := hg
        show List.lookup (Function.update b.pages_ f _ g).page_id_
          (tableErase b.page_table_ (b.pages_ f).page_id_) = some g
        by_cases e : g = f
        · rw [e, Function.update_same] at hg1
          exact absurd rfl hg1
        · rw [Function.update_noteq e] at hg1 ⊢
          have h1 := t.held g hg1
          have h2 : (b.pages_ g).page_id_ ≠ p := fun e1 => by
            rw [e1, hf] at h1
            exact e (Option.some.inj h1).symm
          rw [lookup_tableErase, hid, if_neg h2]
          exact h1
      · have hx1 : List.lookup x (tableErase b.page_table_ (b.pages_ f).page_id_) = some g := hx
        rw [lookup_tableErase] at hx1
        split at hx1
        · cases hx1
        · exact t.below x g hx1

/-- In every state whose callers fetch no page before it is allocated the page table is
exact. -/
theorem AllocatedReachable.tableExact [Inhabited D] {b : BufferPoolManager D}
    (h : AllocatedReachable b) : b.TableExact := by
  induction h with
  | construct pool_size disk hd => exact tableExact_new pool_size disk
  | fetch b p hb hp ih => exact tableExact_fetch b p hb.poolReachable.wellFormed ih hp
  | unpin b b1 p d r hb hu ih => exact tableExact_unpin hb.poolReachable.wellFormed ih hu
  | flush b p _ ih => exact tableExact_flush b p ih
  | newPage b hb ih => exact tableExact_newPage b hb.poolReachable.wellFormed ih
  | delete b p hb ih => exact tableExact_delete b p hb.poolReachable.wellFormed ih
  | flushAll b b1 _ hf ih =>
    rw [(FlushAllPagesImpl_ok hf).1]
    exact ih
  | write b f d _ ih => exact tableExact_writeData b f d ih

end BufferPoolManager

end bustub

namespace bustub

namespace BufferPoolManager

variable {D : Type}

/-- C14 as amended.  In every state of a buffer pool whose callers fetch no page before
the disk manager has handed out its id (every `Fetch(p)` has `p` below the next page id of
the disk manager): (1) a frame `f` holds the page `q`, `q` not `INVALID_PAGE_ID`, if and
only if the page table maps `q` to `f`; (2) no two frames hold the same page that is not
`INVALID_PAGE_ID`. -/
theorem page_table_exact [Inhabited D] (b : BufferPoolManager D) (hr : AllocatedReachable b) :
    (∀ f q, ((b.pages_ f).page_id_ = q ∧ q ≠ INVALID_PAGE_ID) ↔ b.find q = some f) ∧
    (∀ f g, (b.pages_ f).page_id_ ≠ INVALID_PAGE_ID →
      (b.pages_ f).page_id_ = (b.pages_ g).page_id_ → f = g) := by
  have t := hr.tableExact
  have h := hr.poolReachable.wellFormed
  refine ⟨fun f q => ⟨fun hq => ?_, fun hq => ⟨h.table_id q f hq, fun e => ?_⟩⟩,
    fun f g hf e => ?_⟩
  · rw [← hq.1]
    exact t.held f (hq.1 ▸ hq.2)
  · rw [e, h.no_invalid] at hq
    cases hq
  · have h1 := t.held f hf
    have h2 := t.held g (e ▸ hf)
    rw [e, h2] at h1
    exact (Option.some.inj h1).symm

theorem newPages_allocated [Inhabited D] (k : Nat) (b : BufferPoolManager D)
    (h : AllocatedReachable b) : AllocatedReachable (newPages k b) := by
  induction k generalizing b with
  | zero => exact h
  | succ k ih => exact ih _ (AllocatedReachable.newPage b h)

end BufferPoolManager

theorem unpinned_allocated (b : BufferPoolManager Nat) (p : page_id_t) (d : Bool)
    (h : BufferPoolManager.AllocatedReachable b) :
    BufferPoolManager.AllocatedReachable (unpinned b p d) := by
  unfold unpinned valueOr
  cases hu : b.UnpinPageImpl p d with
  | error e => exact h
  | ok x => exact BufferPoolManager.AllocatedReachable.unpin b x.2 p d x.1 h hu

/-- The pool `pool4` is a state of a buffer pool whose callers fetch no page before it is
allocated. -/
theorem pool4_allocated : BufferPoolManager.AllocatedReachable pool4 := by
  unfold pool4
  refine BufferPoolManager.AllocatedReachable.fetch _ 0 ?_ (by decide!)
  refine unpinned_allocated _ _ _ (unpinned_allocated _ _ _ (unpinned_allocated _ _ _
    (unpinned_allocated _ _ _ ?_)))
  refine BufferPoolManager.AllocatedReachable.write _ _ _
    (BufferPoolManager.AllocatedReachable.write _ _ _
      (BufferPoolManager.AllocatedReachable.write _ _ _
        (BufferPoolManager.AllocatedReachable.write _ _ _ ?_)))
  exact BufferPoolManager.newPages_allocated 4 _
    (BufferPoolManager.AllocatedReachable.construct 4 DiskManager.fresh (by decide))

/-- C14 as amended, on `pool4`: frame 1 holds page 1 and the page table maps page 1 to
frame 1; page 9 is not in the page table and no frame holds it. -/
theorem page_table_exact_witness :
    BufferPoolManager.AllocatedReachable pool4 ∧
    (pool4.pages_ 1).page_id_ = 1 ∧ pool4.find 1 = some 1 ∧
    pool4.find 9 = none ∧ ¬ ((pool4.pages_ 3).page_id_ = 9 ∧ (9 : page_id_t) ≠ INVALID_PAGE_ID) :=
  ⟨pool4_allocated, rfl,
    ((BufferPoolManager.page_table_exact pool4 pool4_allocated).1 1 1).mp ⟨rfl, by decide⟩,
    rfl,
    fun h9 => absurd
      (((BufferPoolManager.page_table_exact pool4 pool4_allocated).1 3 9).mp h9)
      (by decide!)⟩

end bustub
